import Mathlib

/-!
The secret correlation and resumable pagination of `aws_scanner`.

A shallow embedding of the Go program `chn555/aws_scanner` (files `next_token.go`,
`secret.go`, `lambda_env.go`, `lambda_code.go`, `main.go`) and of the parts of the Go
standard library its token codec and matcher call (`encoding/base64`, `encoding/json`,
`unicode/utf8`, `strings`).

Conventions of the embedding:

* a Go `string` / `[]byte` is a `List Nat` of bytes (`GoString`); shifts and masks on
  bytes are written as `/`, `*` and `%` by powers of two;
* a Go function returning `(T, error)` returns `Except GoError T`;
* the AWS clients, the HTTP download and the files on disk are explicit parameters and
  explicit state;
* a Go `map` that the program ranges over is an association list whose order is the order
  in which that `range` statement visits the entries.
-/

namespace AwsScanner

/-! ## Strings and bytes -/

/-- A Go `string` (equally a `[]byte`): a finite sequence of bytes, each below 256. -/
abbrev GoString := List Nat

/-- The bytes of an ASCII string literal of the source. -/
def ascii (s : String) : GoString := s.toList.map Char.toNat

/-! ## unicode/utf8 -/

namespace utf8

/-- The constant `utf8.RuneError`, U+FFFD. -/
def RuneError : Nat := 0xFFFD

/-- The constant `utf8.RuneSelf`: bytes below it are single-byte runes. -/
def RuneSelf : Nat := 0x80

/-- The table `first` combined with `acceptRanges`: for a leading byte of a multi-byte
sequence, the length of the sequence and the accepted range of the second byte. -/
def leadInfo (s0 : Nat) : Option (Nat × Nat × Nat) :=
  if 0xC2 ≤ s0 ∧ s0 ≤ 0xDF then some (2, 0x80, 0xBF)
  else if s0 = 0xE0 then some (3, 0xA0, 0xBF)
  else if 0xE1 ≤ s0 ∧ s0 ≤ 0xEC then some (3, 0x80, 0xBF)
  else if s0 = 0xED then some (3, 0x80, 0x9F)
  else if 0xEE ≤ s0 ∧ s0 ≤ 0xEF then some (3, 0x80, 0xBF)
  else if s0 = 0xF0 then some (4, 0x90, 0xBF)
  else if 0xF1 ≤ s0 ∧ s0 ≤ 0xF3 then some (4, 0x80, 0xBF)
  else if s0 = 0xF4 then some (4, 0x80, 0x8F)
  else none

/-- Continuation byte test: `locb <= b && b <= hicb`. -/
def isCont (b : Nat) : Bool := 0x80 ≤ b && b ≤ 0xBF

/-- Go `utf8.DecodeRune` / `utf8.DecodeRuneInString`: the first rune of `s` and its width
in bytes; `(RuneError, 0)` on empty input and `(RuneError, 1)` on an invalid encoding. -/
def DecodeRune (s : GoString) : Nat × Nat :=
  match s with
  | [] => (RuneError, 0)
  | s0 :: t =>
    if s0 < RuneSelf then (s0, 1)
    else
      match leadInfo s0 with
      | none => (RuneError, 1)
      | some (sz, lo, hi) =>
        if t.length + 1 < sz then (RuneError, 1)
        else
          match t with
          | [] => (RuneError, 1)
          | s1 :: t1 =>
            if s1 < lo ∨ hi < s1 then (RuneError, 1)
            else if sz ≤ 2 then (s0 % 32 * 64 + s1 % 64, 2)
            else
              match t1 with
              | [] => (RuneError, 1)
              | s2 :: t2 =>
                if !isCont s2 then (RuneError, 1)
                else if sz ≤ 3 then (s0 % 16 * 4096 + s1 % 64 * 64 + s2 % 64, 3)
                else
                  match t2 with
                  | [] => (RuneError, 1)
                  | s3 :: _ =>
                    if !isCont s3 then (RuneError, 1)
                    else (s0 % 8 * 262144 + s1 % 64 * 4096 + s2 % 64 * 64 + s3 % 64, 4)

/-- Go `utf8.AppendRune` / `utf8.EncodeRune`: the UTF-8 encoding of rune `r`; surrogates
and values above `MaxRune` are encoded as `RuneError`. -/
def AppendRune (r : Nat) : GoString :=
  if r ≤ 0x7F then [r]
  else if r ≤ 0x7FF then [0xC0 + r / 64, 0x80 + r % 64]
  else if r > 0x10FFFF ∨ (0xD800 ≤ r ∧ r ≤ 0xDFFF) then [0xEF, 0xBF, 0xBD]
  else if r ≤ 0xFFFF then [0xE0 + r / 4096, 0x80 + r / 64 % 64, 0x80 + r % 64]
  else [0xF0 + r / 262144, 0x80 + r / 4096 % 64, 0x80 + r / 64 % 64, 0x80 + r % 64]

/-- Go `utf8.Valid` with an explicit bound on the number of runes: every rune of `s` is
validly encoded. -/
def validLoop : Nat → GoString → Bool
  | 0, s => s.isEmpty
  | fuel + 1, s =>
    match s with
    | [] => true
    | s0 :: t =>
      if s0 < RuneSelf then validLoop fuel t
      else
        let rs := DecodeRune (s0 :: t)
        if rs.2 = 1 then false else validLoop fuel ((s0 :: t).drop rs.2)

/-- Go `utf8.Valid`: `s` consists entirely of valid UTF-8-encoded runes. -/
def Valid (s : GoString) : Bool := validLoop s.length s

end utf8

/-- The UTF-8 bytes of a string literal of the source. -/
def str (s : String) : GoString := s.toList.flatMap (fun c => utf8.AppendRune c.toNat)

/-! ## encoding/base64, `StdEncoding` -/

namespace base64

/-- The alphabet of `base64.StdEncoding`. -/
def encodeStd : GoString :=
  ascii "ABCDEFGHIJKLMNOPQRSTUVWXYZabcdefghijklmnopqrstuvwxyz0123456789+/"

/-- The padding character `StdPadding`, `'='`. -/
def padChar : Nat := 61

/-- The byte `enc.encode[n]`. -/
def encodeByte (n : Nat) : Nat := encodeStd.getD n 0

/-- The table `enc.decodeMap`: the 6-bit value of an alphabet byte, `none` where the Go
table holds `0xff`. -/
def decodeMap (c : Nat) : Option Nat :=
  if c ∈ encodeStd then some (encodeStd.indexOf c) else none

/-- Go `(*Encoding).Encode` for `StdEncoding`: three bytes become four alphabet bytes,
the final partial group is padded with `'='`. -/
def Encode : GoString → GoString
  | [] => []
  | [a] =>
    let val := a * 65536
    [encodeByte (val / 262144 % 64), encodeByte (val / 4096 % 64), padChar, padChar]
  | [a, b] =>
    let val := a * 65536 + b * 256
    [encodeByte (val / 262144 % 64), encodeByte (val / 4096 % 64),
      encodeByte (val / 64 % 64), padChar]
  | a :: b :: c :: rest =>
    let val := a * 65536 + b * 256 + c
    encodeByte (val / 262144 % 64) :: encodeByte (val / 4096 % 64) ::
      encodeByte (val / 64 % 64) :: encodeByte (val % 64) :: Encode rest

/-- Go `(*Encoding).EncodeToString`. -/
def EncodeToString (src : GoString) : GoString := Encode src

/-- The loop `for si < len(src) && (src[si] == '\n' || src[si] == '\r') { si++ }`. -/
def skipNewlines : GoString → GoString
  | [] => []
  | c :: r => if c = 10 ∨ c = 13 then skipNewlines r else c :: r

/-- The tail of `decodeQuantum`: the first `dlen - 1` bytes of the 24-bit value assembled
from the 6-bit digits in `dbuf`. -/
def quantumBytes (dbuf : List Nat) (dlen : Nat) : GoString :=
  let val := dbuf.getD 0 0 * 262144 + dbuf.getD 1 0 * 4096 + dbuf.getD 2 0 * 64 + dbuf.getD 3 0
  [val / 65536 % 256, val / 256 % 256, val % 256].take (dlen - 1)

/-- Go `(*Encoding).Decode` for `StdEncoding` (padded, not strict), as the repetition of
`decodeQuantum`: `dbuf` holds the digits of the current quantum read so far. Newlines are
skipped, any other byte outside the alphabet is an error, padding must complete the last
quantum and may only be followed by newlines. -/
def decodeLoop : GoString → List Nat → Option GoString
  | [], dbuf => if dbuf.length = 0 then some [] else none
  | c :: src, dbuf =>
    match decodeMap c with
    | some out =>
      if dbuf.length = 3 then
        (decodeLoop src []).map (fun r => quantumBytes (dbuf ++ [out]) 4 ++ r)
      else decodeLoop src (dbuf ++ [out])
    | none =>
      if c = 10 ∨ c = 13 then decodeLoop src dbuf
      else if c ≠ padChar then none
      else
        match dbuf.length with
        | 0 => none
        | 1 => none
        | 2 =>
          match skipNewlines src with
          | [] => none
          | p :: rest =>
            if p ≠ padChar then none
            else if skipNewlines rest ≠ [] then none
            else some (quantumBytes dbuf 2)
        | _ => if skipNewlines src ≠ [] then none else some (quantumBytes dbuf 3)

/-- Go `(*Encoding).DecodeString`: the decoded bytes, or `none` for a
`CorruptInputError`. -/
def DecodeString (s : GoString) : Option GoString := decodeLoop s []

end base64

/-! ## encoding/json: encoding of a `NextToken` -/

/-- `NextToken` of `next_token.go`: the composite cursor, with JSON field names
`secret_token` and `lambda_token`. -/
structure NextToken where
  SecretToken : GoString
  LambdaToken : GoString
deriving DecidableEq, Repr

/-- Errors of the program, one constructor per failure site. -/
inductive GoError where
  /-- `base64.StdEncoding.DecodeString` failed in `decodeNextToken`. -/
  | decodeToken
  /-- `json.Unmarshal` failed in `decodeNextToken`. -/
  | unmarshalToken
  /-- `json.Marshal` failed in `NextToken.encode`. -/
  | marshalToken
  /-- An error reported by an AWS client or by the download. -/
  | upstream (msg : GoString)
  /-- An error wrapped by `fmt.Errorf` at one more call site. -/
  | wrap (site : String) (inner : GoError)
  /-- An archive or one of its entries could not be read. -/
  | archive
deriving DecidableEq, Repr

/-- Equality of results is decidable when equality of errors and of values is. -/
instance instDecidableEqExcept {ε α : Type} [DecidableEq ε] [DecidableEq α] :
    DecidableEq (Except ε α)
  | .ok a, .ok b => if h : a = b then isTrue (by rw [h]) else isFalse (fun h1 => h (by cases h1; rfl))
  | .error a, .error b =>
    if h : a = b then isTrue (by rw [h]) else isFalse (fun h1 => h (by cases h1; rfl))
  | .ok _, .error _ => isFalse (fun h => by cases h)
  | .error _, .ok _ => isFalse (fun h => by cases h)

namespace json

/-- The string `hex = "0123456789abcdef"`, indexed. -/
def hex (n : Nat) : Nat := (ascii "0123456789abcdef").getD n 0

/-- The table `htmlSafeSet`: ASCII bytes that `Marshal` copies unescaped, which is every
byte from space to 0x7F except the double quote, the backslash, `<`, `>` and `&`. -/
def htmlSafeSet (b : Nat) : Bool :=
  0x20 ≤ b && b < 0x80 && b != 0x22 && b != 0x5C && b != 0x3C && b != 0x3E && b != 0x26

/-- The `switch b` of `appendString`: the escape written for an ASCII byte outside
`htmlSafeSet`. (Go releases before 1.22 write `\u0008` and `\u000c` for backspace and form
feed; `unquoteBytes` reads both forms as the same byte.) -/
def escapeByte (b : Nat) : GoString :=
  if b = 0x5C ∨ b = 0x22 then [0x5C, b]
  else if b = 0x08 then [0x5C, 0x62]
  else if b = 0x0C then [0x5C, 0x66]
  else if b = 0x0A then [0x5C, 0x6E]
  else if b = 0x0D then [0x5C, 0x72]
  else if b = 0x09 then [0x5C, 0x74]
  else [0x5C, 0x75, 0x30, 0x30, hex (b / 16), hex (b % 16)]

/-- The loop of `appendString(dst, src, escapeHTML = true)`; `fuel` bounds the number of
runes still to be written. For a byte that starts no valid UTF-8 sequence the six bytes
of the escape `\ufffd` are written; a Go release whose `encoding/json` writes the three
bytes EF BF BD of U+FFFD itself instead produces another token for such a cursor, which
`unquoteBytes` reads back as the same U+FFFD. The two forms agree on every valid UTF-8
input. -/
def appendStringLoop : Nat → GoString → GoString
  | 0, _ => []
  | fuel + 1, src =>
    match src with
    | [] => []
    | b :: rest =>
      if b < utf8.RuneSelf then
        if htmlSafeSet b then b :: appendStringLoop fuel rest
        else escapeByte b ++ appendStringLoop fuel rest
      else
        let cs := utf8.DecodeRune (b :: rest)
        if cs.1 = utf8.RuneError ∧ cs.2 = 1 then
          [0x5C, 0x75, 0x66, 0x66, 0x66, 0x64] ++ appendStringLoop fuel rest
        else if cs.1 = 0x2028 ∨ cs.1 = 0x2029 then
          [0x5C, 0x75, 0x32, 0x30, 0x32, hex (cs.1 % 16)] ++
            appendStringLoop fuel ((b :: rest).drop cs.2)
        else (b :: rest).take cs.2 ++ appendStringLoop fuel ((b :: rest).drop cs.2)

/-- Go `appendString` as `Marshal` calls it: the JSON string literal for `src`, quotes
included, HTML-sensitive bytes escaped, invalid UTF-8 replaced by U+FFFD. -/
def appendString (src : GoString) : GoString :=
  0x22 :: appendStringLoop src.length src ++ [0x22]

/-- Go `json.Marshal` applied to a `*NextToken`: the object with the two tagged fields in
declaration order. Marshalling a struct of two strings has no failing case. -/
def Marshal (t : NextToken) : Except GoError GoString :=
  .ok (ascii "\x7b\"secret_token\":" ++ appendString t.SecretToken ++
    ascii ",\"lambda_token\":" ++ appendString t.LambdaToken ++ ascii "\x7d")

/-! ### The scanner of `scanner.go` -/

/-- The states of the JSON scanner: one constructor per `state...` step function. -/
inductive Step where
  | beginValueOrEmpty | beginValue | beginStringOrEmpty | beginString
  | endValue | endTop
  | inString | inStringEsc | inStringEscU | inStringEscU1 | inStringEscU12 | inStringEscU123
  | neg | s1 | s0 | dot | dot0 | e | eSign | e0
  | t | tr | tru | f | fa | fal | fals | n | nu | nul
deriving DecidableEq, Repr

/-- The entries of the scanner's `parseState` stack. -/
inductive ParseState where
  | objectKey | objectValue | arrayValue
deriving DecidableEq, Repr

/-- The `scanner` of `scanner.go`: the current step function and the stack of open
composite values (innermost first). -/
structure Scanner where
  step : Step
  parseState : List ParseState
deriving DecidableEq, Repr

/-- The constant `maxNestingDepth`. -/
def maxNestingDepth : Nat := 10000

/-- Go `isSpace`. -/
def isSpace (c : Nat) : Bool := c = 0x20 || c = 0x09 || c = 0x0D || c = 0x0A

/-- Decimal digit test. -/
def isDigit (c : Nat) : Bool := 0x30 ≤ c && c ≤ 0x39

/-- Hexadecimal digit test of the `stateInStringEscU...` functions. -/
def isHex (c : Nat) : Bool :=
  (0x30 ≤ c && c ≤ 0x39) || (0x61 ≤ c && c ≤ 0x66) || (0x41 ≤ c && c ≤ 0x46)

/-- Go `stateEndValue`: the byte after a complete value. With an empty stack the top-level
value is complete and only space may follow (`stateEndTop`). -/
def stateEndValue (ps : List ParseState) (c : Nat) : Option Scanner :=
  match ps with
  | [] => if isSpace c then some ⟨.endTop, []⟩ else none
  | top :: below =>
    if isSpace c then some ⟨.endValue, top :: below⟩
    else
      match top with
      | .objectKey =>
        if c = 0x3A then some ⟨.beginValue, .objectValue :: below⟩ else none
      | .objectValue =>
        if c = 0x2C then some ⟨.beginString, .objectKey :: below⟩
        else if c = 0x7D then
          some ⟨if below.isEmpty then .endTop else .endValue, below⟩
        else none
      | .arrayValue =>
        if c = 0x2C then some ⟨.beginValue, .arrayValue :: below⟩
        else if c = 0x5D then
          some ⟨if below.isEmpty then .endTop else .endValue, below⟩
        else none

/-- Go `stateBeginValue`: the first byte of a value. -/
def stateBeginValue (ps : List ParseState) (c : Nat) : Option Scanner :=
  if isSpace c then some ⟨.beginValue, ps⟩
  else if c = 0x7B then
    if ps.length + 1 ≤ maxNestingDepth then some ⟨.beginStringOrEmpty, .objectKey :: ps⟩
    else none
  else if c = 0x5B then
    if ps.length + 1 ≤ maxNestingDepth then some ⟨.beginValueOrEmpty, .arrayValue :: ps⟩
    else none
  else if c = 0x22 then some ⟨.inString, ps⟩
  else if c = 0x2D then some ⟨.neg, ps⟩
  else if c = 0x30 then some ⟨.s0, ps⟩
  else if c = 0x74 then some ⟨.t, ps⟩
  else if c = 0x66 then some ⟨.f, ps⟩
  else if c = 0x6E then some ⟨.n, ps⟩
  else if 0x31 ≤ c ∧ c ≤ 0x39 then some ⟨.s1, ps⟩
  else none

/-- Go `stateBeginString`: the opening quote of an object key. -/
def stateBeginString (ps : List ParseState) (c : Nat) : Option Scanner :=
  if isSpace c then some ⟨.beginString, ps⟩
  else if c = 0x22 then some ⟨.inString, ps⟩
  else none

/-- Go `state0`: after the integer part of a number. -/
def state0 (ps : List ParseState) (c : Nat) : Option Scanner :=
  if c = 0x2E then some ⟨.dot, ps⟩
  else if c = 0x65 ∨ c = 0x45 then some ⟨.e, ps⟩
  else stateEndValue ps c

/-- Go `stateESign`: after the sign of an exponent. -/
def stateESign (ps : List ParseState) (c : Nat) : Option Scanner :=
  if isDigit c then some ⟨.e0, ps⟩ else none

/-- One call `s.step(s, c)`: the scanner after byte `c`, or `none` when the call reports
a syntax error, at once or (for a byte after the top-level value) on the next call. -/
def Scanner.next (s : Scanner) (c : Nat) : Option Scanner :=
  let ps := s.parseState
  match s.step with
  | .beginValueOrEmpty =>
    if isSpace c then some ⟨.beginValueOrEmpty, ps⟩
    else if c = 0x5D then stateEndValue ps c
    else stateBeginValue ps c
  | .beginValue => stateBeginValue ps c
  | .beginStringOrEmpty =>
    if isSpace c then some ⟨.beginStringOrEmpty, ps⟩
    else if c = 0x7D then stateEndValue (.objectValue :: ps.tail) c
    else stateBeginString ps c
  | .beginString => stateBeginString ps c
  | .endValue => stateEndValue ps c
  | .endTop => if isSpace c then some ⟨.endTop, ps⟩ else none
  | .inString =>
    if c = 0x22 then some ⟨.endValue, ps⟩
    else if c = 0x5C then some ⟨.inStringEsc, ps⟩
    else if c < 0x20 then none
    else some ⟨.inString, ps⟩
  | .inStringEsc =>
    if c = 0x62 ∨ c = 0x66 ∨ c = 0x6E ∨ c = 0x72 ∨ c = 0x74 ∨ c = 0x5C ∨ c = 0x2F ∨ c = 0x22
    then some ⟨.inString, ps⟩
    else if c = 0x75 then some ⟨.inStringEscU, ps⟩
    else none
  | .inStringEscU => if isHex c then some ⟨.inStringEscU1, ps⟩ else none
  | .inStringEscU1 => if isHex c then some ⟨.inStringEscU12, ps⟩ else none
  | .inStringEscU12 => if isHex c then some ⟨.inStringEscU123, ps⟩ else none
  | .inStringEscU123 => if isHex c then some ⟨.inString, ps⟩ else none
  | .neg =>
    if c = 0x30 then some ⟨.s0, ps⟩
    else if 0x31 ≤ c ∧ c ≤ 0x39 then some ⟨.s1, ps⟩
    else none
  | .s1 => if isDigit c then some ⟨.s1, ps⟩ else state0 ps c
  | .s0 => state0 ps c
  | .dot => if isDigit c then some ⟨.dot0, ps⟩ else none
  | .dot0 =>
    if isDigit c then some ⟨.dot0, ps⟩
    else if c = 0x65 ∨ c = 0x45 then some ⟨.e, ps⟩
    else stateEndValue ps c
  | .e => if c = 0x2B ∨ c = 0x2D then some ⟨.eSign, ps⟩ else stateESign ps c
  | .eSign => stateESign ps c
  | .e0 => if isDigit c then some ⟨.e0, ps⟩ else stateEndValue ps c
  | .t => if c = 0x72 then some ⟨.tr, ps⟩ else none
  | .tr => if c = 0x75 then some ⟨.tru, ps⟩ else none
  | .tru => if c = 0x65 then some ⟨.endValue, ps⟩ else none
  | .f => if c = 0x61 then some ⟨.fa, ps⟩ else none
  | .fa => if c = 0x6C then some ⟨.fal, ps⟩ else none
  | .fal => if c = 0x73 then some ⟨.fals, ps⟩ else none
  | .fals => if c = 0x65 then some ⟨.endValue, ps⟩ else none
  | .n => if c = 0x75 then some ⟨.nu, ps⟩ else none
  | .nu => if c = 0x6C then some ⟨.nul, ps⟩ else none
  | .nul => if c = 0x6C then some ⟨.endValue, ps⟩ else none

/-- The scanner run over `data`, byte by byte, from state `s`. -/
def Scanner.run (s : Scanner) : GoString → Option Scanner
  | [] => some s
  | c :: rest =>
    match s.next c with
    | none => none
    | some s1 => s1.run rest

/-- Go `(*scanner).eof`: the input may end here when the top-level value is complete, or
becomes complete when one space is fed to the scanner. -/
def Scanner.eof (s : Scanner) : Bool :=
  match s.step, s.parseState with
  | .endTop, _ => true
  | .endValue, [] => true
  | _, _ =>
    match s.next 0x20 with
    | some s1 => s1.step = .endTop
    | none => false

/-- Go `checkValid`: `data` is one syntactically valid JSON value, surrounded by optional
space. -/
def checkValid (data : GoString) : Bool :=
  match (Scanner.mk .beginValue []).run data with
  | none => false
  | some s => s.eof

/-! ### The decoder of `decode.go`, for the target type `*NextToken` -/

/-- The decoder's `d.scanWhile(scanSkipSpace)`: leading space is dropped. -/
def skipSpace : GoString → GoString
  | [] => []
  | c :: r => if isSpace c then skipSpace r else c :: r

/-- The string case of `rescanLiteral`, after the opening quote: the bytes up to and
including the closing quote, and the rest; a backslash takes the next byte with it. -/
def rescanString : GoString → GoString × GoString
  | [] => ([], [])
  | c :: r =>
    if c = 0x5C then
      match r with
      | [] => ([c], [])
      | e :: r1 => let p := rescanString r1; (c :: e :: p.1, p.2)
    else if c = 0x22 then ([c], r)
    else let p := rescanString r; (c :: p.1, p.2)

/-- The number case of `rescanLiteral`: digits, `.`, `e`, `E`, `+` and `-` are taken. -/
def rescanNumber : GoString → GoString × GoString
  | [] => ([], [])
  | c :: r =>
    if isDigit c ∨ c = 0x2E ∨ c = 0x65 ∨ c = 0x45 ∨ c = 0x2B ∨ c = 0x2D then
      let p := rescanNumber r; (c :: p.1, p.2)
    else ([], c :: r)

/-- Go `(*decodeState).rescanLiteral`: `data` starts with the first byte of a literal; the
literal and what follows it. -/
def rescanLiteral : GoString → GoString × GoString
  | [] => ([], [])
  | c :: r =>
    if c = 0x22 then let p := rescanString r; (c :: p.1, p.2)
    else if isDigit c ∨ c = 0x2D then let p := rescanNumber r; (c :: p.1, p.2)
    else if c = 0x74 then (c :: r.take 3, r.drop 3)
    else if c = 0x66 then (c :: r.take 4, r.drop 4)
    else if c = 0x6E then (c :: r.take 3, r.drop 3)
    else ([c], r)

/-- The loop of Go `(*decodeState).skip`: the scanner is stepped until its stack is
shallower than `depth`; what follows the skipped value. -/
def skipLoop (s : Scanner) (depth : Nat) : GoString → Option GoString
  | [] => none
  | c :: rest =>
    match s.next c with
    | none => none
    | some s1 => if s1.parseState.length < depth then some rest else skipLoop s1 depth rest

/-- Go `(*decodeState).skip` for an array or object starting at the head of `data`. -/
def skip (data : GoString) : Option GoString :=
  match data with
  | [] => none
  | c :: rest =>
    match (Scanner.mk .beginValue []).next c with
    | none => none
    | some s1 => skipLoop s1 1 rest

/-- The value of one hexadecimal digit, as in `getu4`. -/
def hexVal (c : Nat) : Option Nat :=
  if 0x30 ≤ c ∧ c ≤ 0x39 then some (c - 0x30)
  else if 0x61 ≤ c ∧ c ≤ 0x66 then some (c - 0x61 + 10)
  else if 0x41 ≤ c ∧ c ≤ 0x46 then some (c - 0x41 + 10)
  else none

/-- Go `getu4`: the rune of a `\uXXXX` escape at the head of `s`; `none` for Go's -1. -/
def getu4 (s : GoString) : Option Nat :=
  match s with
  | b0 :: b1 :: h1 :: h2 :: h3 :: h4 :: _ =>
    if b0 ≠ 0x5C ∨ b1 ≠ 0x75 then none
    else
      match hexVal h1, hexVal h2, hexVal h3, hexVal h4 with
      | some a, some b, some c, some d => some (((a * 16 + b) * 16 + c) * 16 + d)
      | _, _, _, _ => none
  | _ => none

/-- Go `utf16.IsSurrogate`. -/
def IsSurrogate (r : Nat) : Bool := 0xD800 ≤ r && r < 0xE000

/-- Go `utf16.DecodeRune`, the second argument being the result of `getu4`: the code point
of a surrogate pair, U+FFFD when the pair is not valid. -/
def utf16DecodeRune (r1 : Nat) (r2 : Option Nat) : Nat :=
  match r2 with
  | none => 0xFFFD
  | some r2 =>
    if 0xD800 ≤ r1 ∧ r1 < 0xDC00 ∧ 0xDC00 ≤ r2 ∧ r2 < 0xE000 then
      (r1 - 0xD800) * 1024 + (r2 - 0xDC00) + 0x10000
    else 0xFFFD

/-- The main loop of Go `unquoteBytes` over the bytes between the quotes: escapes are
resolved, invalid UTF-8 is coerced to U+FFFD; `none` where Go returns `ok = false`.
`fuel` bounds the number of steps still to be taken. -/
def unquoteLoop : Nat → GoString → Option GoString
  | 0, s => if s.isEmpty then some [] else none
  | fuel + 1, s =>
    match s with
    | [] => some []
    | c :: r =>
      if c = 0x5C then
        match r with
        | [] => none
        | e :: r1 =>
          if e = 0x22 ∨ e = 0x5C ∨ e = 0x2F ∨ e = 0x27 then
            (unquoteLoop fuel r1).map (fun w => e :: w)
          else if e = 0x62 then (unquoteLoop fuel r1).map (fun w => 0x08 :: w)
          else if e = 0x66 then (unquoteLoop fuel r1).map (fun w => 0x0C :: w)
          else if e = 0x6E then (unquoteLoop fuel r1).map (fun w => 0x0A :: w)
          else if e = 0x72 then (unquoteLoop fuel r1).map (fun w => 0x0D :: w)
          else if e = 0x74 then (unquoteLoop fuel r1).map (fun w => 0x09 :: w)
          else if e = 0x75 then
            match getu4 (c :: r) with
            | none => none
            | some rr =>
              let r6 := (c :: r).drop 6
              if IsSurrogate rr then
                let dec := utf16DecodeRune rr (getu4 r6)
                if dec ≠ 0xFFFD then
                  (unquoteLoop fuel (r6.drop 6)).map (fun w => utf8.AppendRune dec ++ w)
                else (unquoteLoop fuel r6).map (fun w => utf8.AppendRune 0xFFFD ++ w)
              else (unquoteLoop fuel r6).map (fun w => utf8.AppendRune rr ++ w)
          else none
      else if c = 0x22 ∨ c < 0x20 then none
      else if c < utf8.RuneSelf then (unquoteLoop fuel r).map (fun w => c :: w)
      else
        let rs := utf8.DecodeRune (c :: r)
        (unquoteLoop fuel ((c :: r).drop rs.2)).map (fun w => utf8.AppendRune rs.1 ++ w)

/-- Go `unquoteBytes`: the value of the quoted string literal `s`. (Go copies a literal
without escapes and without invalid UTF-8 unchanged; the main loop gives the same
result for it.) -/
def unquoteBytes (s : GoString) : Option GoString :=
  if s.length < 2 ∨ s.head? ≠ some 0x22 ∨ s.getLast? ≠ some 0x22 then none
  else unquoteLoop (s.length - 2) (s.drop 1).dropLast

/-- Go `foldRune` on a non-ASCII rune, as far as a comparison with an ASCII field name
can see it: U+017F folds to `S`, U+212A to `K`; the fold of every other non-ASCII rune
is a non-ASCII rune, for which the rune itself stands here. -/
def foldRune (r : Nat) : Nat :=
  if r = 0x17F then 0x53 else if r = 0x212A then 0x4B else r

/-- Go `appendFoldedName`: ASCII letters are upper-cased, other runes folded. -/
def foldNameLoop : Nat → GoString → GoString
  | 0, _ => []
  | fuel + 1, s =>
    match s with
    | [] => []
    | c :: r =>
      if c < utf8.RuneSelf then
        (if 0x61 ≤ c ∧ c ≤ 0x7A then c - 0x20 else c) :: foldNameLoop fuel r
      else
        let rs := utf8.DecodeRune (c :: r)
        utf8.AppendRune (foldRune rs.1) ++ foldNameLoop fuel ((c :: r).drop rs.2)

/-- Go `foldName`. -/
def foldName (s : GoString) : GoString := foldNameLoop s.length s

/-- The two fields of `NextToken`. -/
inductive Field where
  | secretToken | lambdaToken
deriving DecidableEq, Repr

/-- The field an object key selects: `fields.byExactName[key]`, else
`fields.byFoldedName[foldName(key)]`, for the tags `secret_token` and `lambda_token`. -/
def lookupField (key : GoString) : Option Field :=
  if key = ascii "secret_token" then some .secretToken
  else if key = ascii "lambda_token" then some .lambdaToken
  else if foldName key = foldName (ascii "secret_token") then some .secretToken
  else if foldName key = foldName (ascii "lambda_token") then some .lambdaToken
  else none

/-- The part of `decodeState` the model keeps: the struct being filled and whether
`d.savedError` is set. -/
structure DecodeState where
  t : NextToken
  savedError : Bool
deriving DecidableEq, Repr

/-- Go `(*decodeState).literalStore` for a field of kind string: a string literal is
stored, `null` is ignored, a boolean or a number saves an `UnmarshalTypeError`. -/
def literalStore (item : GoString) (f : Field) (d : DecodeState) : Option DecodeState :=
  match item with
  | [] => some { d with savedError := true }
  | c :: _ =>
    if c = 0x6E then some d
    else if c = 0x74 ∨ c = 0x66 then some { d with savedError := true }
    else if c = 0x22 then
      match unquoteBytes item with
      | none => none
      | some s =>
        match f with
        | .secretToken => some { d with t := { d.t with SecretToken := s } }
        | .lambdaToken => some { d with t := { d.t with LambdaToken := s } }
    else some { d with savedError := true }

/-- Go `(*decodeState).value` for the value of an object member whose key selected field
`f` (`none`: no field, the value is skipped): an array or object saves an
`UnmarshalTypeError` for a string field and is skipped, a literal is stored. -/
def value (f : Option Field) (data : GoString) (d : DecodeState) :
    Option (DecodeState × GoString) :=
  match data with
  | [] => none
  | c :: _ =>
    if c = 0x7B ∨ c = 0x5B then
      (skip data).map (fun rest => (if f.isSome then { d with savedError := true } else d, rest))
    else
      let p := rescanLiteral data
      match f with
      | none => some (d, p.2)
      | some fld => (literalStore p.1 fld d).map (fun d1 => (d1, p.2))

/-- The loop of Go `(*decodeState).object` for the struct `NextToken`, `data` starting
after the opening brace or after a comma: key, colon, value, then a comma or the closing
brace. `none` stands for the decoder's phase panic, which valid input does not reach.
`fuel` bounds the number of members still to be read. -/
def objectLoop : Nat → GoString → DecodeState → Option (DecodeState × GoString)
  | 0, _, _ => none
  | fuel + 1, data, d =>
    match skipSpace data with
    | [] => none
    | c :: r =>
      if c = 0x7D then some (d, r)
      else if c ≠ 0x22 then none
      else
        let p := rescanLiteral (c :: r)
        match unquoteBytes p.1 with
        | none => none
        | some key =>
          match skipSpace p.2 with
          | [] => none
          | colon :: afterColon =>
            if colon ≠ 0x3A then none
            else
              match value (lookupField key) (skipSpace afterColon) d with
              | none => none
              | some (d1, rest1) =>
                match skipSpace rest1 with
                | [] => none
                | c2 :: r2 =>
                  if c2 = 0x7D then some (d1, r2)
                  else if c2 = 0x2C then objectLoop fuel r2 d1
                  else none

/-- Go `json.Unmarshal(data, t)` for `t *NextToken`: `checkValid`, then the top-level
value is decoded into `t`. An object fills the fields, `null` leaves `t` as it is, an
array, string, number or boolean is an `UnmarshalTypeError`; the first saved error is
returned after decoding. -/
def Unmarshal (data : GoString) (t : NextToken) : Except GoError NextToken :=
  if !checkValid data then .error .unmarshalToken
  else
    match skipSpace data with
    | [] => .error .unmarshalToken
    | c :: r =>
      if c = 0x7B then
        match objectLoop data.length r ⟨t, false⟩ with
        | none => .error .unmarshalToken
        | some (d, _) => if d.savedError then .error .unmarshalToken else .ok d.t
      else if c = 0x6E then .ok t
      else .error .unmarshalToken

end json

/-! ## next_token.go -/

/-- Go `decodeNextToken`. -/
def decodeNextToken (token : GoString) : Except GoError NextToken :=
  match base64.DecodeString token with
  | none => .error .decodeToken
  | some b =>
    match json.Unmarshal b ⟨[], []⟩ with
    | .error _ => .error .unmarshalToken
    | .ok t => .ok t

/-- Go `(*NextToken).encode`. -/
def NextToken.encode (t : NextToken) : Except GoError GoString :=
  if t.SecretToken = [] ∧ t.LambdaToken = [] then .ok []
  else
    match json.Marshal t with
    | .error _ => .error .marshalToken
    | .ok b => .ok (base64.EncodeToString b)

/-- Go `createNextToken`. -/
def createNextToken (secretToken lambdaToken : GoString) : Except GoError GoString :=
  NextToken.encode ⟨secretToken, lambdaToken⟩

/-! ## strings -/

namespace strings

/-- Go `strings.HasPrefix`. -/
def HasPrefix : GoString → GoString → Bool
  | _, [] => true
  | [], _ :: _ => false
  | c :: s, p :: pre => c = p && HasPrefix s pre

/-- Go `strings.Index`: the index of the first instance of `substr` in `s`, `none` for
Go's -1. -/
def Index : GoString → GoString → Option Nat
  | [], substr => if substr.isEmpty then some 0 else none
  | c :: s, substr =>
    if HasPrefix (c :: s) substr then some 0 else (Index s substr).map (fun i => i + 1)

/-- Go `strings.Contains`: `Index(s, substr) >= 0`. -/
def Contains (s substr : GoString) : Bool := (Index s substr).isSome

end strings

/-! ## The world outside the program -/

/-- An entry of `ListSecretsOutput.SecretList`. -/
structure SecretListEntry where
  Name : GoString
  ARN : GoString
deriving DecidableEq, Repr

/-- The fields of `secretsmanager.ListSecretsOutput` the program reads. -/
structure ListSecretsOutput where
  SecretList : List SecretListEntry
  NextToken : Option GoString
deriving DecidableEq, Repr

/-- An entry of `ListFunctionsOutput.Functions`. -/
structure FunctionConfiguration where
  FunctionName : GoString
  FunctionArn : GoString
deriving DecidableEq, Repr

/-- The fields of `lambda.ListFunctionsOutput` the program reads. -/
structure ListFunctionsOutput where
  Functions : List FunctionConfiguration
  NextMarker : Option GoString
deriving DecidableEq, Repr

/-- A file inside a ZIP archive, as `file.Open` and `buf.ReadFrom` find it. -/
inductive ZipFile where
  /-- `file.Open()` fails. -/
  | openFails
  /-- Reading the opened file fails. -/
  | readFails
  /-- The file opens and reads as these bytes. -/
  | content (code : GoString)
deriving DecidableEq, Repr

/-- The response of `http.Get`: the status code and the body, whose copy to disk may
fail. -/
structure HttpResponse where
  StatusCode : Nat
  Body : Except GoError GoString
deriving DecidableEq, Repr

/-- Everything the program asks of its environment, as functions of the request: the
Secrets Manager and Lambda clients, the HTTP download, the ZIP reader, the temporary file
names, and the two map traversals whose order Go leaves open. -/
structure World where
  /-- `secretsmanager.Client.ListSecrets` with the given `NextToken`. -/
  ListSecrets : Option GoString → Except GoError ListSecretsOutput
  /-- `secretsmanager.Client.GetSecretValue` for a `SecretId`: the `SecretString`. -/
  GetSecretValue : GoString → Except GoError (Option GoString)
  /-- `json.Unmarshal` of a secret string into a `map[string]string`, then the `range`
  over that map: its entries in the order visited. -/
  secretsMap : GoString → Except GoError (List (GoString × GoString))
  /-- `lambda.Client.ListFunctions` with the given `Marker` and `MaxItems`. -/
  ListFunctions : Option GoString → Option Nat → Except GoError ListFunctionsOutput
  /-- `lambda.Client.GetFunctionConfiguration` for a function name: the environment
  variables in the order `range` visits them, `none` when `Environment` or its
  `Variables` is nil. -/
  GetFunctionConfiguration : GoString → Except GoError (Option (List (GoString × GoString)))
  /-- `lambda.Client.GetFunction` for a function name: `Code.Location`. -/
  GetFunction : GoString → Except GoError (Option GoString)
  /-- `http.Get` of a URL. -/
  httpGet : GoString → Except GoError HttpResponse
  /-- `os.CreateTemp("", "entro-scanner-lambda-zipFile")`: the absolute name of the new
  file, given the names of the temporary files that exist. -/
  CreateTemp : List GoString → Except GoError GoString
  /-- `zip.OpenReader` on a file with the given bytes: the files of the archive. -/
  zipFiles : GoString → Except GoError (List ZipFile)

/-- A request sent to AWS or to the download location. -/
inductive Call where
  | ListSecrets (nextToken : Option GoString)
  | GetSecretValue (secretId : GoString)
  | ListFunctions (marker : Option GoString) (maxItems : Option Nat)
  | GetFunctionConfiguration (functionName : GoString)
  | GetFunction (functionName : GoString)
  | httpGet (url : GoString)
deriving DecidableEq, Repr

/-- The state a run changes: the temporary files on disk (name and bytes) and the log of
the requests sent so far, oldest first. -/
structure Machine where
  disk : List (GoString × GoString)
  calls : List Call
deriving DecidableEq, Repr

/-- The names of the temporary files on disk. -/
def Machine.files (m : Machine) : List GoString := m.disk.map Prod.fst

/-- The machine after one more request has been sent. -/
def Machine.log (m : Machine) (c : Call) : Machine := { m with calls := m.calls ++ [c] }

/-- Go `aws.ToString`: the empty string for a nil pointer. -/
def aws.ToString (p : Option GoString) : GoString := p.getD []

/-- Go `os.Remove`: the named file is deleted; an error when it does not exist. -/
def os.Remove (name : GoString) (m : Machine) : Except GoError Unit × Machine :=
  if name ∈ m.files then (.ok (), { m with disk := m.disk.filter (fun f => f.1 ≠ name) })
  else (.error (.upstream (ascii "remove: no such file or directory")), m)

/-! ## secret.go -/

/-- The struct `SecretKeyValue`. -/
structure SecretKeyValue where
  Key : GoString
  val : GoString
deriving DecidableEq, Repr

/-- The struct `Secret`. -/
structure Secret where
  Name : GoString
  ARN : GoString
  keyValue : SecretKeyValue
deriving DecidableEq, Repr

/-- Go `getSecretsFromJSONString`. -/
def getSecretsFromJSONString (w : World) (secretString : GoString) :
    Except GoError (List SecretKeyValue) :=
  match w.secretsMap secretString with
  | .error e => .error (.wrap "error unmarshalling json" e)
  | .ok secretsMap =>
    .ok (secretsMap.foldl (fun secretValue kv => secretValue ++ [⟨kv.1, kv.2⟩]) [])

/-- Go `getSecretFromSecret`. -/
def getSecretFromSecret (w : World) (secret : SecretListEntry) (m : Machine) :
    Except GoError (List Secret) × Machine :=
  let m1 := m.log (.GetSecretValue secret.ARN)
  match w.GetSecretValue secret.ARN with
  | .error e => (.error (.wrap "unable to get secret value" e), m1)
  | .ok none => (.ok [], m1)
  | .ok (some secretString) =>
    match getSecretsFromJSONString w secretString with
    | .error e => (.error (.wrap "error reading secrets" e), m1)
    | .ok secretKVs =>
      (.ok (secretKVs.foldl
        (fun secrets kv => secrets ++ [⟨secret.Name, secret.ARN, kv⟩]) []), m1)

/-- The loop of `getAllSecretValues` over `listSecretsOutput.SecretList`. -/
def getAllSecretValuesLoop (w : World) :
    List SecretListEntry → List Secret → Machine → Except GoError (List Secret) × Machine
  | [], secrets, m => (.ok secrets, m)
  | secret :: rest, secrets, m =>
    match getSecretFromSecret w secret m with
    | (.error e, m1) => (.error (.wrap "failed to get secrets" e), m1)
    | (.ok s, m1) => getAllSecretValuesLoop w rest (secrets ++ s) m1

/-- Go `getAllSecretValues`: one page of secrets and the cursor of the next page. -/
def getAllSecretValues (w : World) (nextToken : GoString) (m : Machine) :
    Except GoError (List Secret × GoString) × Machine :=
  let input := if nextToken ≠ [] then some nextToken else none
  let m1 := m.log (.ListSecrets input)
  match w.ListSecrets input with
  | .error e => (.error (.wrap "unable to list secrets" e), m1)
  | .ok listSecretsOutput =>
    match getAllSecretValuesLoop w listSecretsOutput.SecretList [] m1 with
    | (.error e, m2) => (.error e, m2)
    | (.ok secrets, m2) => (.ok (secrets, aws.ToString listSecretsOutput.NextToken), m2)

/-- Go `findExistingSecretsInValue`. -/
def findExistingSecretsInValue (value : GoString) (secrets : List Secret) : List Secret :=
  secrets.foldl
    (fun found secret =>
      if strings.Contains value secret.keyValue.val then found ++ [secret] else found) []

/-! ## lambda_env.go -/

/-- The struct `LambdaEnv`; `env` lists the map in the order `range` visits it. -/
structure LambdaEnv where
  name : GoString
  ARN : GoString
  env : List (GoString × GoString)
deriving DecidableEq, Repr

/-- Go `getEnvForLambda`. -/
def getEnvForLambda (w : World) (function : FunctionConfiguration) (m : Machine) :
    Except GoError (Option LambdaEnv) × Machine :=
  let m1 := m.log (.GetFunctionConfiguration function.FunctionName)
  match w.GetFunctionConfiguration function.FunctionName with
  | .error e => (.error (.wrap "unable to get function env" e), m1)
  | .ok none => (.ok none, m1)
  | .ok (some vars) =>
    (.ok (some ⟨function.FunctionName, function.FunctionArn, vars⟩), m1)

/-- The loop of `getAllLambdaEnvs` over `listFunctionsOutput.Functions`. -/
def getAllLambdaEnvsLoop (w : World) :
    List FunctionConfiguration → List LambdaEnv → Machine →
      Except GoError (List LambdaEnv) × Machine
  | [], res, m => (.ok res, m)
  | function :: rest, res, m =>
    match getEnvForLambda w function m with
    | (.error e, m1) => (.error (.wrap "failed to get env for function" e), m1)
    | (.ok none, m1) => getAllLambdaEnvsLoop w rest res m1
    | (.ok (some env), m1) => getAllLambdaEnvsLoop w rest (res ++ [env]) m1

/-- Go `getAllLambdaEnvs`: one page of functions with an environment and the cursor of
the next page. -/
def getAllLambdaEnvs (w : World) (nextToken : GoString) (m : Machine) :
    Except GoError (List LambdaEnv × GoString) × Machine :=
  let marker := if nextToken ≠ [] then some nextToken else none
  let m1 := m.log (.ListFunctions marker none)
  match w.ListFunctions marker none with
  | .error e => (.error (.wrap "unable to list lambda functions" e), m1)
  | .ok listFunctionsOutput =>
    match getAllLambdaEnvsLoop w listFunctionsOutput.Functions [] m1 with
    | (.error e, m2) => (.error e, m2)
    | (.ok res, m2) => (.ok (res, aws.ToString listFunctionsOutput.NextMarker), m2)

/-- Go `(*LambdaEnv).findExistingSecrets`. -/
def LambdaEnv.findExistingSecrets (e : LambdaEnv) (secrets : List Secret) : List Secret :=
  e.env.foldl (fun found kv => found ++ findExistingSecretsInValue kv.2 secrets) []

/-! ## lambda_code.go -/

/-- The struct `LambdaCode`. -/
structure LambdaCode where
  name : GoString
  arn : GoString
  zipFile : GoString
deriving DecidableEq, Repr

/-- Go `downloadToTempFile` (`main.go`): the body of the response is copied to a new
temporary file, whose absolute name is returned. The file exists from `os.CreateTemp`
on, also when the copy fails. -/
def downloadToTempFile (w : World) (url : GoString) (m : Machine) :
    Except GoError GoString × Machine :=
  let m1 := m.log (.httpGet url)
  match w.httpGet url with
  | .error e => (.error (.wrap "failed to make HTTP request" e), m1)
  | .ok resp =>
    if resp.StatusCode ≠ 200 then
      (.error (.upstream (ascii "failed to download file")), m1)
    else
      match w.CreateTemp m1.files with
      | .error e => (.error (.wrap "unable to create file" e), m1)
      | .ok outFile =>
        match resp.Body with
        | .error e =>
          (.error (.wrap "unable to copy content to file" e),
            { m1 with disk := m1.disk ++ [(outFile, [])] })
        | .ok body => (.ok outFile, { m1 with disk := m1.disk ++ [(outFile, body)] })

/-- Go `getCodeForLambda`. -/
def getCodeForLambda (w : World) (function : FunctionConfiguration) (m : Machine) :
    Except GoError (Option LambdaCode) × Machine :=
  let m1 := m.log (.GetFunction function.FunctionName)
  match w.GetFunction function.FunctionName with
  | .error e => (.error (.wrap "unable to get function details" e), m1)
  | .ok none => (.ok none, m1)
  | .ok (some s3URL) =>
    match downloadToTempFile w s3URL m1 with
    | (.error e, m2) => (.error (.wrap "unable to download zip for function" e), m2)
    | (.ok file, m2) =>
      (.ok (some ⟨function.FunctionName, function.FunctionArn, file⟩), m2)

/-- The loop of `getAllLambdaCode` over `listFunctionsOutput.Functions`. -/
def getAllLambdaCodeLoop (w : World) :
    List FunctionConfiguration → List LambdaCode → Machine →
      Except GoError (List LambdaCode) × Machine
  | [], res, m => (.ok res, m)
  | function :: rest, res, m =>
    match getCodeForLambda w function m with
    | (.error e, m1) => (.error (.wrap "failed to get code for lambda" e), m1)
    | (.ok none, m1) => getAllLambdaCodeLoop w rest res m1
    | (.ok (some code), m1) => getAllLambdaCodeLoop w rest (res ++ [code]) m1

/-- Go `getAllLambdaCode`: one page of functions (`MaxItems` is 1), each with its archive
downloaded, and the cursor of the next page. -/
def getAllLambdaCode (w : World) (nextToken : GoString) (m : Machine) :
    Except GoError (List LambdaCode × GoString) × Machine :=
  let marker := if nextToken ≠ [] then some nextToken else none
  let m1 := m.log (.ListFunctions marker (some 1))
  match w.ListFunctions marker (some 1) with
  | .error e => (.error (.wrap "unable to list lambda functions" e), m1)
  | .ok listFunctionsOutput =>
    match getAllLambdaCodeLoop w listFunctionsOutput.Functions [] m1 with
    | (.error e, m2) => (.error e, m2)
    | (.ok res, m2) => (.ok (res, aws.ToString listFunctionsOutput.NextMarker), m2)

/-- Go `(*LambdaCode).cleanupFile`. -/
def LambdaCode.cleanupFile (c : LambdaCode) (m : Machine) : Except GoError Unit × Machine :=
  os.Remove c.zipFile m

/-- Go `findSecretInReader`; the reader is given by the result of reading it to the
end. -/
def findSecretInReader (reader : Except GoError GoString) (secrets : List Secret) :
    Except GoError (List Secret) :=
  match reader with
  | .error e => .error (.wrap "failed to read file contents" e)
  | .ok code =>
    .ok (secrets.foldl
      (fun res s => if strings.Contains code s.keyValue.val then res ++ [s] else res) [])

/-- Go `findSecretInFile`. -/
def findSecretInFile (file : ZipFile) (secrets : List Secret) : Except GoError (List Secret) :=
  match file with
  | .openFails => .error (.wrap "failed to open file inside ZIP" .archive)
  | .readFails =>
    match findSecretInReader (.error .archive) secrets with
    | .error e => .error (.wrap "error reading file" e)
    | .ok found => .ok ([] ++ found)
  | .content code =>
    match findSecretInReader (.ok code) secrets with
    | .error e => .error (.wrap "error reading file" e)
    | .ok found => .ok ([] ++ found)

/-- The loop of `findSecretsInZip` over `zipReader.File`. -/
def findSecretsInZipLoop (secrets : List Secret) :
    List ZipFile → List Secret → Except GoError (List Secret)
  | [], res => .ok res
  | file :: rest, res =>
    match findSecretInFile file secrets with
    | .error e => .error (.wrap "failed to read file from ZIP" e)
    | .ok r => findSecretsInZipLoop secrets rest (res ++ r)

/-- Go `zip.OpenReader`: the files of the archive stored under `name`; an error when no
such file is on disk or its bytes are no archive. -/
def zipOpenReader (w : World) (name : GoString) (m : Machine) :
    Except GoError (List ZipFile) :=
  match m.disk.find? (fun f => f.1 = name) with
  | none => .error (.upstream (ascii "open: no such file or directory"))
  | some f => w.zipFiles f.2

/-- Go `findSecretsInZip`. -/
def findSecretsInZip (w : World) (zipFile : GoString) (secrets : List Secret) (m : Machine) :
    Except GoError (List Secret) :=
  match zipOpenReader w zipFile m with
  | .error e => .error (.wrap "failed to open ZIP file" e)
  | .ok files => findSecretsInZipLoop secrets files []

/-- Go `(*LambdaCode).findExistingSecrets`. -/
def LambdaCode.findExistingSecrets (w : World) (c : LambdaCode) (secrets : List Secret)
    (m : Machine) : Except GoError (List Secret) :=
  match findSecretsInZip w c.zipFile secrets m with
  | .error e => .error (.wrap "error reading zip file" e)
  | .ok found => .ok found

/-! ## main.go -/

/-- The struct `FoundSecretInLambda`. -/
structure FoundSecretInLambda where
  Secrets : List Secret
  LambdaName : GoString
  LambdaArn : GoString
deriving DecidableEq, Repr

/-- The struct `SecretsInLambda`. -/
structure SecretsInLambda where
  FoundSecrets : List FoundSecretInLambda
  NextToken : GoString
deriving DecidableEq, Repr

/-- The loop of `getExposedSecretsInEnv` over `envs`. -/
def getExposedSecretsInEnvLoop (secrets : List Secret) :
    List LambdaEnv → List FoundSecretInLambda → List FoundSecretInLambda
  | [], foundSecrets => foundSecrets
  | e :: rest, foundSecrets =>
    let found := e.findExistingSecrets secrets
    if found.length = 0 then getExposedSecretsInEnvLoop secrets rest foundSecrets
    else getExposedSecretsInEnvLoop secrets rest (foundSecrets ++ [⟨found, e.name, e.ARN⟩])

/-- Go `(*handler).getExposedSecretsInEnv`. -/
def getExposedSecretsInEnv (w : World) (token : NextToken) (m : Machine) :
    Except GoError SecretsInLambda × Machine :=
  match getAllSecretValues w token.SecretToken m with
  | (.error e, m1) => (.error (.wrap "failed to get secrets" e), m1)
  | (.ok (secrets, secretNext), m1) =>
    match getAllLambdaEnvs w token.LambdaToken m1 with
    | (.error e, m2) => (.error (.wrap "failed to get envs" e), m2)
    | (.ok (envs, lambdaNext), m2) =>
      let foundSecrets := getExposedSecretsInEnvLoop secrets envs []
      match createNextToken secretNext lambdaNext with
      | .error e => (.error (.wrap "error encoding next token" e), m2)
      | .ok next => (.ok ⟨foundSecrets, next⟩, m2)

/-- The loop of `getExposedSecretsInLambdaCode` over `code`: an entity without a match is
passed over by `continue`, a failed scan returns at once, and `cleanupFile` is the last
statement of the body. -/
def getExposedSecretsInLambdaCodeLoop (w : World) (secrets : List Secret) :
    List LambdaCode → List FoundSecretInLambda → Machine →
      Except GoError (List FoundSecretInLambda) × Machine
  | [], foundSecrets, m => (.ok foundSecrets, m)
  | c :: rest, foundSecrets, m =>
    match c.findExistingSecrets w secrets m with
    | .error e => (.error (.wrap "failed to find secrets for code" e), m)
    | .ok found =>
      if found.length = 0 then getExposedSecretsInLambdaCodeLoop w secrets rest foundSecrets m
      else
        getExposedSecretsInLambdaCodeLoop w secrets rest
          (foundSecrets ++ [⟨found, c.name, c.arn⟩]) (c.cleanupFile m).2

/-- Go `(*handler).getExposedSecretsInLambdaCode`. -/
def getExposedSecretsInLambdaCode (w : World) (token : NextToken) (m : Machine) :
    Except GoError SecretsInLambda × Machine :=
  match getAllSecretValues w token.SecretToken m with
  | (.error e, m1) => (.error (.wrap "failed to get secrets" e), m1)
  | (.ok (secrets, secretNext), m1) =>
    match getAllLambdaCode w token.LambdaToken m1 with
    | (.error e, m2) => (.error (.wrap "failed to get code" e), m2)
    | (.ok (code, lambdaNext), m2) =>
      match getExposedSecretsInLambdaCodeLoop w secrets code [] m2 with
      | (.error e, m3) => (.error e, m3)
      | (.ok foundSecrets, m3) =>
        match createNextToken secretNext lambdaNext with
        | .error e => (.error (.wrap "error encoding next token" e), m3)
        | .ok next => (.ok ⟨foundSecrets, next⟩, m3)

/-- What a handler passes to `c.JSON`: the status code and the value serialised as the
body, an error message or the findings. -/
structure Response where
  status : Nat
  body : Except GoError SecretsInLambda
deriving DecidableEq, Repr

/-- Go `getExposedSecretInEnvHandler`; `t` is `c.QueryParam("next_token")`, empty when
the parameter is absent. -/
def getExposedSecretInEnvHandler (w : World) (t : GoString) (m : Machine) :
    Response × Machine :=
  match (if t ≠ [] then decodeNextToken t else .ok ⟨[], []⟩) with
  | .error err => (⟨500, .error err⟩, m)
  | .ok token =>
    match getExposedSecretsInEnv w token m with
    | (.error err, m1) => (⟨500, .error err⟩, m1)
    | (.ok secrets, m1) => (⟨200, .ok secrets⟩, m1)

/-- Go `getExposedSecretsInCodeHandler`. -/
def getExposedSecretsInCodeHandler (w : World) (t : GoString) (m : Machine) :
    Response × Machine :=
  match (if t ≠ [] then decodeNextToken t else .ok ⟨[], []⟩) with
  | .error err => (⟨500, .error err⟩, m)
  | .ok token =>
    match getExposedSecretsInLambdaCode w token m with
    | (.error err, m1) => (⟨500, .error err⟩, m1)
    | (.ok secrets, m1) => (⟨200, .ok secrets⟩, m1)

/-! ## Vocabulary of the statements and example worlds -/

/-- A world whose every request fails: the base of the example worlds. -/
def World.offline : World where
  ListSecrets := fun _ => .error (.upstream (ascii "offline"))
  GetSecretValue := fun _ => .error (.upstream (ascii "offline"))
  secretsMap := fun _ => .error (.upstream (ascii "not a flat JSON object"))
  ListFunctions := fun _ _ => .error (.upstream (ascii "offline"))
  GetFunctionConfiguration := fun _ => .error (.upstream (ascii "offline"))
  GetFunction := fun _ => .error (.upstream (ascii "offline"))
  httpGet := fun _ => .error (.upstream (ascii "offline"))
  CreateTemp := fun existing =>
    .ok (ascii "/tmp/entro-scanner-lambda-zipFile" ++ List.replicate existing.length 0x30)
  zipFiles := fun _ => .error (.upstream (ascii "zip: not a valid zip file"))

/-- The end-to-end example of the specification, with one more function: the vault holds
the secret `db` with value `{"password":"pw123"}`; function `f0` has the variable
`HOME=/root`, function `f1` the variable `DB_PASSWORD=pw123`; both sources have a single
page. -/
def World.endToEnd : World :=
  { World.offline with
    ListSecrets := fun _ => .ok ⟨[⟨ascii "db", ascii "arn:db"⟩], none⟩
    GetSecretValue := fun _ => .ok (some (ascii "\x7b\"password\":\"pw123\"\x7d"))
    secretsMap := fun _ => .ok [(ascii "password", ascii "pw123")]
    ListFunctions := fun _ _ =>
      .ok ⟨[⟨ascii "f0", ascii "arn:f0"⟩, ⟨ascii "f1", ascii "arn:f1"⟩], none⟩
    GetFunctionConfiguration := fun name =>
      if name = ascii "f1" then .ok (some [(ascii "DB_PASSWORD", ascii "pw123")])
      else .ok (some [(ascii "HOME", ascii "/root")]) }

/-- The machine before the first request: no temporary file, no request sent. -/
def Machine.init : Machine := ⟨[], []⟩

/-- The entry `getExposedSecretsInEnv` appends for an entity, if any. -/
def envFinding (secrets : List Secret) (e : LambdaEnv) : Option FoundSecretInLambda :=
  if e.findExistingSecrets secrets = [] then none
  else some ⟨e.findExistingSecrets secrets, e.name, e.ARN⟩

/-- A world for the code scan: the vault holds the secret `db` with value
`{"password":"pw123"}`, the registry the one function `f1`, whose archive downloads as
the bytes `PK` and opens as `archive`. -/
def World.withArchive (archive : Except GoError (List ZipFile)) : World :=
  { World.endToEnd with
    ListFunctions := fun _ _ => .ok ⟨[⟨ascii "f1", ascii "arn:f1"⟩], none⟩
    GetFunction := fun _ => .ok (some (ascii "https://code.test/f1.zip"))
    httpGet := fun _ => .ok ⟨200, .ok (ascii "PK")⟩
    zipFiles := fun _ => archive }

namespace utf8

/-- Two bytes that encode a rune. -/
def Enc2 (s0 s1 : Nat) : Prop := 0xC2 ≤ s0 ∧ s0 ≤ 0xDF ∧ 0x80 ≤ s1 ∧ s1 ≤ 0xBF

/-- Three bytes that encode a rune. -/
def Enc3 (s0 s1 s2 : Nat) : Prop :=
  ((s0 = 0xE0 ∧ 0xA0 ≤ s1 ∧ s1 ≤ 0xBF) ∨ (0xE1 ≤ s0 ∧ s0 ≤ 0xEC ∧ 0x80 ≤ s1 ∧ s1 ≤ 0xBF) ∨
    (s0 = 0xED ∧ 0x80 ≤ s1 ∧ s1 ≤ 0x9F) ∨ (0xEE ≤ s0 ∧ s0 ≤ 0xEF ∧ 0x80 ≤ s1 ∧ s1 ≤ 0xBF)) ∧
  0x80 ≤ s2 ∧ s2 ≤ 0xBF

/-- Four bytes that encode a rune. -/
def Enc4 (s0 s1 s2 s3 : Nat) : Prop :=
  ((s0 = 0xF0 ∧ 0x90 ≤ s1 ∧ s1 ≤ 0xBF) ∨ (0xF1 ≤ s0 ∧ s0 ≤ 0xF3 ∧ 0x80 ≤ s1 ∧ s1 ≤ 0xBF) ∨
    (s0 = 0xF4 ∧ 0x80 ≤ s1 ∧ s1 ≤ 0x8F)) ∧
  0x80 ≤ s2 ∧ s2 ≤ 0xBF ∧ 0x80 ≤ s3 ∧ s3 ≤ 0xBF

/-- The bytes `w` are the encoding of the rune `r`, which is not ASCII: `DecodeRune`
reads `r` from them whatever follows, `AppendRune` writes them for `r`, and no byte of
`w` is below 0x80. -/
def Encodes (w : GoString) (r : Nat) : Prop :=
  (∃ s0 t, w = s0 :: t ∧ 0x80 ≤ s0) ∧ (∀ x ∈ w, 0x80 ≤ x ∧ x < 256) ∧ AppendRune r = w ∧
    ∀ rest, DecodeRune (w ++ rest) = (r, w.length)

end utf8

namespace json

/-- `Quoted s o`: `o` is what `appendString` writes between the quotes for the valid
UTF-8 string `s`, piece by piece: an unescaped ASCII byte, an escaped ASCII byte, the
bytes of a non-ASCII rune, or the escape of U+2028 or U+2029. -/
inductive Quoted : GoString → GoString → Prop
  | nil : Quoted [] []
  | safe (b : Nat) (s o : GoString) :
    b < 0x80 → htmlSafeSet b = true → Quoted s o → Quoted (b :: s) (b :: o)
  | esc (b : Nat) (s o : GoString) :
    b < 0x80 → htmlSafeSet b = false → Quoted s o → Quoted (b :: s) (escapeByte b ++ o)
  | raw (w : GoString) (r : Nat) (s o : GoString) :
    utf8.Encodes w r → r ≠ 0x2028 → r ≠ 0x2029 → Quoted s o → Quoted (w ++ s) (w ++ o)
  | sep (w : GoString) (r : Nat) (s o : GoString) :
    utf8.Encodes w r → (r = 0x2028 ∨ r = 0x2029) → Quoted s o →
      Quoted (w ++ s) ([0x5C, 0x75, 0x32, 0x30, 0x32, hex (r % 16)] ++ o)

/-- The ASCII escapes of two bytes: the byte after the backslash and the byte escaped. -/
def SimpleEsc (e b : Nat) : Prop :=
  (e = 0x22 ∧ b = 0x22) ∨ (e = 0x5C ∧ b = 0x5C) ∨ (e = 0x62 ∧ b = 0x08) ∨
  (e = 0x66 ∧ b = 0x0C) ∨ (e = 0x6E ∧ b = 0x0A) ∨ (e = 0x72 ∧ b = 0x0D) ∨ (e = 0x74 ∧ b = 0x09)

/-- The state of the decoder after field `f` has been set to `v`. -/
def store (f : Field) (v : GoString) (d : DecodeState) : DecodeState :=
  match f with
  | .secretToken => { d with t := { d.t with SecretToken := v } }
  | .lambdaToken => { d with t := { d.t with LambdaToken := v } }

/-- The bytes `Marshal` writes for a token whose strings are quoted as `ao` and `bo`. -/
def marshalled (ao bo : GoString) : GoString :=
  0x7B :: 0x22 :: (ascii "secret_token" ++ 0x22 :: 0x3A :: 0x22 :: (ao ++ 0x22 :: 0x2C :: 0x22 ::
    (ascii "lambda_token" ++ 0x22 :: 0x3A :: 0x22 :: (bo ++ 0x22 :: [0x7D]))))

end json

/-- `IsPaged fetch cursors`: what one of the program's fetch functions (`getAllSecretValues`,
`getAllLambdaEnvs`) does over a fixed, finite, non-empty sequence of pages, `cursors`
listing for each page the cursor that selects it. The empty cursor selects the first
page, every later page has a non-empty cursor, and the fetch of a page succeeds and
returns the cursor of the following page, the empty cursor for the last page. No
statement about the program assumes it: it is derived for the two fetch functions from
`Paged` and the readability of the upstream (`isPaged_getAllSecretValues`,
`isPaged_getAllLambdaEnvs`). -/
def IsPaged {α : Type}
    (fetch : GoString → Machine → Except GoError (List α × GoString) × Machine)
    (cursors : List GoString) : Prop :=
  cursors.head? = some [] ∧
  (∀ i, 0 < i → i < cursors.length → cursors.getD i [] ≠ []) ∧
  ∀ i, i < cursors.length → ∀ m, ∃ items m1,
    fetch (cursors.getD i []) m = (.ok (items, cursors.getD (i + 1) []), m1)

/-- The caller's loop on the environment endpoint: the `next_token` held and the machine
after `k` requests, the first request sent without a token and each later one with the
`next_token` of the response before it; `none` once a request has failed. -/
def envPagination (w : World) : Nat → Option (GoString × Machine)
  | 0 => some ([], Machine.init)
  | k + 1 =>
    match envPagination w k with
    | none => none
    | some (t, m) =>
      match getExposedSecretInEnvHandler w t m with
      | (⟨_, .ok resp⟩, m1) => some (resp.NextToken, m1)
      | (⟨_, .error _⟩, _) => none

/-- The cursor pair a handler passes to the scan for the query parameter `t`. -/
def requestCursors (t : GoString) : Except GoError NextToken :=
  if t ≠ [] then decodeNextToken t else .ok ⟨[], []⟩

/-- A vault of three pages whose cursors are the empty string, the bytes of U+FFFD and
the single byte 0xFF (no valid UTF-8), and a registry of one page. -/
def World.invalidCursor : World :=
  { World.endToEnd with
    ListSecrets := fun c =>
      if c = none then .ok ⟨[⟨ascii "db", ascii "arn:db"⟩], some [0xEF, 0xBF, 0xBD]⟩
      else if c = some [0xEF, 0xBF, 0xBD] then .ok ⟨[⟨ascii "db", ascii "arn:db"⟩], some [0xFF]⟩
      else if c = some [0xFF] then .ok ⟨[⟨ascii "db", ascii "arn:db"⟩], none⟩
      else .error (.upstream (ascii "InvalidNextTokenException")) }

/-- The token that `World.invalidCursor` makes the caller hold from the second response
on: the token of the cursor pair (0xFF, empty). -/
def stuckToken : GoString :=
  ascii "eyJzZWNyZXRfdG9rZW4iOiJcdWZmZmQiLCJsYW1iZGFfdG9rZW4iOiIifQ=="

/-- A vault of two pages and a registry of one: secret `db` (value `pw123`) is on the
first page of the vault, whose next cursor is `s2`; secret `api` (value `k2`) is on the
second; the one function `f1` has the variable `API_KEY=k2`. -/
def World.twoSecretPages : World :=
  { World.offline with
    ListSecrets := fun c =>
      if c = none then .ok ⟨[⟨ascii "db", ascii "arn:db"⟩], some (ascii "s2")⟩
      else if c = some (ascii "s2") then .ok ⟨[⟨ascii "api", ascii "arn:api"⟩], none⟩
      else .error (.upstream (ascii "InvalidNextTokenException"))
    GetSecretValue := fun arn =>
      if arn = ascii "arn:db" then .ok (some (ascii "\x7b\"password\":\"pw123\"\x7d"))
      else .ok (some (ascii "\x7b\"key\":\"k2\"\x7d"))
    secretsMap := fun s =>
      if s = ascii "\x7b\"password\":\"pw123\"\x7d" then .ok [(ascii "password", ascii "pw123")]
      else .ok [(ascii "key", ascii "k2")]
    ListFunctions := fun _ _ => .ok ⟨[⟨ascii "f1", ascii "arn:f1"⟩], none⟩
    GetFunctionConfiguration := fun _ => .ok (some [(ascii "API_KEY", ascii "k2")]) }

/-- A vault and a registry of two pages each: the vault of `World.twoSecretPages`, and
the functions `f1` (first page, next marker `l2`) and `f2` (second page). -/
def World.twoAndTwoPages : World :=
  { World.twoSecretPages with
    ListFunctions := fun c _ =>
      if c = none then .ok ⟨[⟨ascii "f1", ascii "arn:f1"⟩], some (ascii "l2")⟩
      else if c = some (ascii "l2") then .ok ⟨[⟨ascii "f2", ascii "arn:f2"⟩], none⟩
      else .error (.upstream (ascii "InvalidParameterValueException")) }

/-- The cursor the upstream service is asked with for page `i` (counted from 0) of a
source whose pages are selected by `cursors`: no cursor for the first page, the cursor of
the page for every later one. -/
def upstreamCursor (cursors : List GoString) (i : Nat) : Option GoString :=
  if i = 0 then none else some (cursors.getD i [])

/-- `Paged list next cursors`: the upstream listing call `list` serves a fixed, finite,
non-empty sequence of pages, `cursors` naming for each page the cursor that selects it.
The empty cursor stands for the first page, which is served when no cursor is sent; every
later page has a non-empty cursor; the listing of a page succeeds and returns as its next
cursor (`next`) the cursor of the following page, and none or the empty one for the last
page. -/
def Paged {α : Type} (list : Option GoString → Except GoError α) (next : α → Option GoString)
    (cursors : List GoString) : Prop :=
  cursors.head? = some [] ∧
  (∀ i, 0 < i → i < cursors.length → cursors.getD i [] ≠ []) ∧
  ∀ i, i < cursors.length → ∃ out, list (upstreamCursor cursors i) = .ok out ∧
    (next out).getD [] = cursors.getD (i + 1) []

/-- No call for a secret of the vault fails: `GetSecretValue` succeeds for every secret
listed on a page. -/
def VaultReadable (w : World) (cursors : List GoString) : Prop :=
  ∀ i, i < cursors.length → ∀ out, w.ListSecrets (upstreamCursor cursors i) = .ok out →
    ∀ secret ∈ out.SecretList, ∃ v, w.GetSecretValue secret.ARN = .ok v

/-- Every secret string of the vault is a flat JSON object of strings: the decoding into
a `map[string]string` succeeds for the `SecretString` of every secret listed on a
page. -/
def SecretsFlat (w : World) (cursors : List GoString) : Prop :=
  ∀ i, i < cursors.length → ∀ out, w.ListSecrets (upstreamCursor cursors i) = .ok out →
    ∀ secret ∈ out.SecretList, ∀ s, w.GetSecretValue secret.ARN = .ok (some s) →
      ∃ kvs, w.secretsMap s = .ok kvs

/-- No call for a function of the registry fails: `GetFunctionConfiguration` succeeds for
every function listed on a page. -/
def RegistryReadable (w : World) (cursors : List GoString) : Prop :=
  ∀ i, i < cursors.length → ∀ out, w.ListFunctions (upstreamCursor cursors i) none = .ok out →
    ∀ function ∈ out.Functions, ∃ v, w.GetFunctionConfiguration function.FunctionName = .ok v

/-- The requests that fetch a page: `ListSecrets` and `ListFunctions`. -/
def Call.isListing : Call → Bool
  | .ListSecrets _ => true
  | .ListFunctions _ _ => true
  | _ => false

/-- The page fetches sent between the machine states `before` and `after`, in order. -/
def listingCalls (before after : Machine) : List Call :=
  (after.calls.drop before.calls.length).filter Call.isListing

/-- A vault of one page with the one secret `pw`, whose `SecretString` is the plain text
`hunter2` (no JSON), and the registry of `World.endToEnd`; every upstream call
succeeds. -/
def World.plainTextSecret : World :=
  { World.endToEnd with
    ListSecrets := fun _ => .ok ⟨[⟨ascii "pw", ascii "arn:pw"⟩], none⟩
    GetSecretValue := fun _ => .ok (some (ascii "hunter2"))
    secretsMap := fun s =>
      if s = ascii "hunter2" then .error (.upstream (ascii "invalid character"))
      else .ok [] }

/-! ## Theorems -/

/-! ## The matcher -/

theorem strings.HasPrefix_iff (s p : GoString) : strings.HasPrefix s p = true ↔ p <+: s := by
  induction s generalizing p with
  | nil =>
    cases p with
    | nil => simp [strings.HasPrefix]
    | cons a p => simp [strings.HasPrefix]
  | cons c s ih =>
    cases p with
    | nil => simp [strings.HasPrefix]
    | cons a p =>
      simp only [strings.HasPrefix, Bool.and_eq_true, decide_eq_true_eq, ih, List.cons_prefix_cons]
      constructor
      · rintro ⟨h1, h2⟩; exact ⟨h1.symm, h2⟩
      · rintro ⟨h1, h2⟩; exact ⟨h1.symm, h2⟩

theorem strings.Contains_iff (s sub : GoString) : strings.Contains s sub = true ↔ sub <:+: s := by
  unfold strings.Contains
  induction s with
  | nil =>
    cases sub with
    | nil => simp [strings.Index]
    | cons a p => simp [strings.Index]
  | cons c s ih =>
    rw [strings.Index]
    by_cases h : strings.HasPrefix (c :: s) sub = true
    · simp only [h, if_true, Option.isSome_some, true_iff]
      exact ((strings.HasPrefix_iff _ _).1 h).isInfix
    · simp only [h, Bool.false_eq_true, if_false, Option.isSome_map']
      rw [ih, List.infix_cons_iff]
      constructor
      · intro h1; exact Or.inr h1
      · rintro (h1 | h1)
        · exact absurd ((strings.HasPrefix_iff _ _).2 h1) h
        · exact h1

theorem foldl_append_filter {α : Type} (p : α → Bool) (l init : List α) :
    l.foldl (fun found x => if p x then found ++ [x] else found) init = init ++ l.filter p := by
  induction l generalizing init with
  | nil => simp
  | cons x l ih =>
    simp only [List.foldl_cons, ih]
    by_cases h : p x <;> simp [h, List.filter_cons]

theorem findExistingSecretsInValue_eq_filter (value : GoString) (secrets : List Secret) :
    findExistingSecretsInValue value secrets
      = secrets.filter (fun s => strings.Contains value s.keyValue.val) := by
  have h := foldl_append_filter (fun s : Secret => strings.Contains value s.keyValue.val) secrets []
  simpa [findExistingSecretsInValue] using h

theorem findExistingSecretsInValue_eq_filter_substring (value : GoString) (secrets : List Secret) :
    findExistingSecretsInValue value secrets
      = secrets.filter (fun s => decide (s.keyValue.val <:+: value)) := by
  rw [findExistingSecretsInValue_eq_filter]
  congr 1
  funext s
  by_cases h : s.keyValue.val <:+: value
  · simp [h, (strings.Contains_iff _ _).2 h]
  · have h1 : strings.Contains value s.keyValue.val ≠ true := fun h2 =>
      h ((strings.Contains_iff _ _).1 h2)
    simp [h, h1]

/-- C2. Matcher exactness: `findExistingSecretsInValue text secrets` is the sub-list of
`secrets`, in input order, of the secrets whose value is a literal substring of `text`
(there are bytes before and after it that complete the text), and `findSecretInReader`
returns the same list for a reader that yields `text`; a secret with value
`s3cr3t-xyz` is found in `token=s3cr3t-xyz;` and in neither `s3cr3t-xy` nor
`S3CR3T-XYZ`. -/
theorem matcher_exactness :
    (∀ (text : GoString) (secrets : List Secret),
      findExistingSecretsInValue text secrets
        = secrets.filter (fun s => decide (s.keyValue.val <:+: text))) ∧
    (∀ (text : GoString) (secrets : List Secret) (s : Secret),
      s ∈ findExistingSecretsInValue text secrets ↔
        s ∈ secrets ∧ ∃ before after, text = before ++ s.keyValue.val ++ after) ∧
    (∀ (text : GoString) (secrets : List Secret),
      findSecretInReader (.ok text) secrets = .ok (findExistingSecretsInValue text secrets)) ∧
    (∀ (secrets : List Secret) (s : Secret), s.keyValue.val = ascii "s3cr3t-xyz" →
      (s ∈ findExistingSecretsInValue (ascii "token=s3cr3t-xyz;") secrets ↔ s ∈ secrets) ∧
      s ∉ findExistingSecretsInValue (ascii "s3cr3t-xy") secrets ∧
      s ∉ findExistingSecretsInValue (ascii "S3CR3T-XYZ") secrets) := by
  refine ⟨findExistingSecretsInValue_eq_filter_substring, ?_, ?_, ?_⟩
  · intro text secrets s
    rw [findExistingSecretsInValue_eq_filter_substring, List.mem_filter, decide_eq_true_eq]
    constructor
    · rintro ⟨h1, a, b, h2⟩; exact ⟨h1, a, b, h2.symm⟩
    · rintro ⟨h1, a, b, h2⟩; exact ⟨h1, a, b, h2.symm⟩
  · intro text secrets
    rfl
  · intro secrets s hs
    simp only [findExistingSecretsInValue_eq_filter_substring, List.mem_filter, hs, decide_eq_true_eq]
    refine ⟨?_, ?_, ?_⟩
    · have h : ascii "s3cr3t-xyz" <:+: ascii "token=s3cr3t-xyz;" := by decide
      simp [h]
    · have h : ¬ ascii "s3cr3t-xyz" <:+: ascii "s3cr3t-xy" := by decide
      simp [h]
    · have h : ¬ ascii "s3cr3t-xyz" <:+: ascii "S3CR3T-XYZ" := by decide
      simp [h]

/-! ## Matches of one environment entity -/

theorem foldl_append_flatMap {α β : Type} (f : α → List β) (l : List α) (init : List β) :
    l.foldl (fun found x => found ++ f x) init = init ++ l.flatMap f := by
  induction l generalizing init with
  | nil => simp
  | cons x l ih => simp [List.foldl_cons, ih, List.flatMap_cons, List.append_assoc]

theorem LambdaEnv.findExistingSecrets_eq_flatMap (e : LambdaEnv) (secrets : List Secret) :
    e.findExistingSecrets secrets
      = e.env.flatMap (fun kv => findExistingSecretsInValue kv.2 secrets) := by
  have h := foldl_append_flatMap (fun kv : GoString × GoString =>
    findExistingSecretsInValue kv.2 secrets) e.env []
  simpa [LambdaEnv.findExistingSecrets] using h

theorem count_flatMap_matches (s : Secret) (secrets : List Secret)
    (env : List (GoString × GoString)) :
    (env.flatMap (fun kv => findExistingSecretsInValue kv.2 secrets)).count s
      = secrets.count s * (env.filter (fun kv => strings.Contains kv.2 s.keyValue.val)).length := by
  induction env with
  | nil => simp
  | cons kv env ih =>
    rw [List.flatMap_cons, List.count_append, ih, findExistingSecretsInValue_eq_filter,
      List.filter_cons]
    by_cases h : strings.Contains kv.2 s.keyValue.val = true
    · rw [List.count_filter (by simpa using h)]
      simp [h, Nat.mul_add, Nat.add_comm]
    · have h0 : List.count s (List.filter (fun s => strings.Contains kv.2 s.keyValue.val) secrets) = 0 := by
        rw [List.count_eq_zero]
        intro hm
        exact h (by simpa using (List.mem_filter.1 hm).2)
      simp [h, h0]

/-- C9. Env matches accumulate without de-duplication: `findExistingSecrets` of an entity
is the concatenation, over its variables in the order the `range` visits them, of
`findExistingSecretsInValue` of each value; another visiting order gives a permutation of
the same list; every listed secret is returned once for each variable whose value contains
its value, so a secret listed once occurs exactly as many times as there are such
variables. For
the secrets `creds/user = bob`, `creds/pass = hunter2` and the single variable
`PASS=hunter2` the result is the one record with key `pass`. -/
theorem env_matches_accumulate :
    (∀ (e : LambdaEnv) (secrets : List Secret),
      e.findExistingSecrets secrets
        = e.env.flatMap (fun kv => findExistingSecretsInValue kv.2 secrets)) ∧
    (∀ (e1 e2 : LambdaEnv) (secrets : List Secret), e1.env.Perm e2.env →
      (e1.findExistingSecrets secrets).Perm (e2.findExistingSecrets secrets)) ∧
    (∀ (e : LambdaEnv) (secrets : List Secret) (s : Secret),
      (e.findExistingSecrets secrets).count s
        = secrets.count s *
          (e.env.filter (fun kv => decide (s.keyValue.val <:+: kv.2))).length) ∧
    (∀ (e : LambdaEnv) (secrets : List Secret) (s : Secret), s ∈ secrets → secrets.Nodup →
      (e.findExistingSecrets secrets).count s
        = (e.env.filter (fun kv => decide (s.keyValue.val <:+: kv.2))).length) ∧
    (∀ (name fnArn arn : GoString),
      LambdaEnv.findExistingSecrets ⟨name, fnArn, [(ascii "PASS", ascii "hunter2")]⟩
          [⟨ascii "creds", arn, ⟨ascii "user", ascii "bob"⟩⟩,
           ⟨ascii "creds", arn, ⟨ascii "pass", ascii "hunter2"⟩⟩]
        = [⟨ascii "creds", arn, ⟨ascii "pass", ascii "hunter2"⟩⟩]) := by
  have hcount : ∀ (e : LambdaEnv) (secrets : List Secret) (s : Secret),
      (e.findExistingSecrets secrets).count s
        = secrets.count s *
          (e.env.filter (fun kv => decide (s.keyValue.val <:+: kv.2))).length := by
    intro e secrets s
    rw [LambdaEnv.findExistingSecrets_eq_flatMap, count_flatMap_matches]
    congr 2
    apply List.filter_congr
    intro kv _
    by_cases h : s.keyValue.val <:+: kv.2
    · simp [h, (strings.Contains_iff _ _).2 h]
    · have h1 : strings.Contains kv.2 s.keyValue.val ≠ true := fun h2 =>
        h ((strings.Contains_iff _ _).1 h2)
      simp [h, h1]
  refine ⟨LambdaEnv.findExistingSecrets_eq_flatMap, ?_, hcount, ?_, ?_⟩
  · intro e1 e2 secrets h
    rw [LambdaEnv.findExistingSecrets_eq_flatMap, LambdaEnv.findExistingSecrets_eq_flatMap]
    exact h.flatMap_right _
  · intro e secrets s hs hnd
    rw [hcount, List.count_eq_one_of_mem hnd hs, Nat.one_mul]
  · intro name fnArn arn
    have h1 : strings.Contains (ascii "hunter2") (ascii "bob") = false := by decide
    have h2 : strings.Contains (ascii "hunter2") (ascii "hunter2") = true := by decide
    simp [LambdaEnv.findExistingSecrets_eq_flatMap, findExistingSecretsInValue_eq_filter,
      List.filter_cons, h1, h2]

/-! ## One request against fetched pages -/

theorem createNextToken_empty : createNextToken [] [] = .ok [] := by
  simp [createNextToken, NextToken.encode]

theorem createNextToken_ok (a b : GoString) : ∃ t, createNextToken a b = .ok t := by
  unfold createNextToken NextToken.encode
  by_cases h : a = [] ∧ b = []
  · exact ⟨[], by simp [h]⟩
  · refine ⟨base64.EncodeToString (ascii "\x7b\"secret_token\":" ++ json.appendString a ++
      ascii ",\"lambda_token\":" ++ json.appendString b ++ ascii "\x7d"), ?_⟩
    simp only [h, if_false, json.Marshal]

theorem getExposedSecretsInEnvLoop_eq (secrets : List Secret) (envs : List LambdaEnv)
    (acc : List FoundSecretInLambda) :
    getExposedSecretsInEnvLoop secrets envs acc = acc ++ envs.filterMap (envFinding secrets) := by
  induction envs generalizing acc with
  | nil => simp [getExposedSecretsInEnvLoop]
  | cons e envs ih =>
    rw [getExposedSecretsInEnvLoop]
    by_cases h : e.findExistingSecrets secrets = []
    · simp [h, ih, envFinding, List.filterMap_cons]
    · have h1 : (e.findExistingSecrets secrets).length ≠ 0 := by
        simpa [List.length_eq_zero] using h
      simp [h, h1, ih, envFinding, List.filterMap_cons]

theorem getExposedSecretsInEnv_of_pages (w : World) (token : NextToken) (m m1 m2 : Machine)
    (secrets : List Secret) (secretNext : GoString) (envs : List LambdaEnv)
    (lambdaNext : GoString)
    (hs : getAllSecretValues w token.SecretToken m = (.ok (secrets, secretNext), m1))
    (he : getAllLambdaEnvs w token.LambdaToken m1 = (.ok (envs, lambdaNext), m2)) :
    ∃ next, createNextToken secretNext lambdaNext = .ok next ∧
      getExposedSecretsInEnv w token m
        = (.ok ⟨envs.filterMap (envFinding secrets), next⟩, m2) := by
  obtain ⟨next, hn⟩ := createNextToken_ok secretNext lambdaNext
  refine ⟨next, hn, ?_⟩
  simp [getExposedSecretsInEnv, hs, he, hn, getExposedSecretsInEnvLoop_eq]

/-- C4. Zero-match omission: when the secret page `secrets` and the entity page `envs`
have been fetched, `getExposedSecretsInEnv` returns a response whose `FoundSecrets` has,
in entity order, one entry (name, ARN, match list) for exactly the entities whose match
list against `secrets` is non-empty; no entry has an empty `Secrets` list. -/
theorem zero_match_omission (w : World) (token : NextToken) (m m1 m2 : Machine)
    (secrets : List Secret) (secretNext : GoString) (envs : List LambdaEnv)
    (lambdaNext : GoString)
    (hs : getAllSecretValues w token.SecretToken m = (.ok (secrets, secretNext), m1))
    (he : getAllLambdaEnvs w token.LambdaToken m1 = (.ok (envs, lambdaNext), m2)) :
    ∃ resp, getExposedSecretsInEnv w token m = (.ok resp, m2) ∧
      resp.FoundSecrets
        = envs.filterMap (fun e =>
            if e.findExistingSecrets secrets = [] then none
            else some ⟨e.findExistingSecrets secrets, e.name, e.ARN⟩) ∧
      ∀ f ∈ resp.FoundSecrets, f.Secrets ≠ [] := by
  obtain ⟨next, -, h⟩ := getExposedSecretsInEnv_of_pages w token m m1 m2 secrets secretNext
    envs lambdaNext hs he
  refine ⟨_, h, rfl, ?_⟩
  intro f hf
  obtain ⟨e, -, he1⟩ := List.mem_filterMap.1 hf
  unfold envFinding at he1
  by_cases h0 : e.findExistingSecrets secrets = []
  · simp [h0] at he1
  · simp only [h0, if_false, Option.some.injEq] at he1
    rw [← he1]
    exact h0

/-- C4 at the end-to-end example: `f0` has no match and no entry, `f1` has its entry. -/
theorem zero_match_omission_witness :
    ∃ resp, getExposedSecretsInEnv World.endToEnd ⟨[], []⟩ Machine.init
        = (.ok resp, ⟨[], [.ListSecrets none, .GetSecretValue (ascii "arn:db"),
            .ListFunctions none none, .GetFunctionConfiguration (ascii "f0"),
            .GetFunctionConfiguration (ascii "f1")]⟩) ∧
      resp.FoundSecrets
        = [LambdaEnv.mk (ascii "f0") (ascii "arn:f0") [(ascii "HOME", ascii "/root")],
           LambdaEnv.mk (ascii "f1") (ascii "arn:f1")
             [(ascii "DB_PASSWORD", ascii "pw123")]].filterMap (fun e =>
            if e.findExistingSecrets
                [⟨ascii "db", ascii "arn:db", ⟨ascii "password", ascii "pw123"⟩⟩] = [] then none
            else some ⟨e.findExistingSecrets
                [⟨ascii "db", ascii "arn:db", ⟨ascii "password", ascii "pw123"⟩⟩],
              e.name, e.ARN⟩) ∧
      ∀ f ∈ resp.FoundSecrets, f.Secrets ≠ [] :=
  zero_match_omission World.endToEnd ⟨[], []⟩ Machine.init
    ⟨[], [.ListSecrets none, .GetSecretValue (ascii "arn:db")]⟩ _
    [⟨ascii "db", ascii "arn:db", ⟨ascii "password", ascii "pw123"⟩⟩] []
    _ [] (by decide) (by decide)

/-- C5. A cursor with both fields empty serializes to the empty string:
`createNextToken("", "")` is the empty string without error, and the response of
`getExposedSecretsInEnv` has `NextToken` empty whenever both fetched pages come with an
empty next cursor. -/
theorem empty_cursor_serializes_empty (w : World) (token : NextToken) (m m1 m2 : Machine)
    (secrets : List Secret) (envs : List LambdaEnv)
    (hs : getAllSecretValues w token.SecretToken m = (.ok (secrets, []), m1))
    (he : getAllLambdaEnvs w token.LambdaToken m1 = (.ok (envs, []), m2)) :
    createNextToken [] [] = .ok [] ∧
      ∃ resp, getExposedSecretsInEnv w token m = (.ok resp, m2) ∧ resp.NextToken = [] := by
  refine ⟨createNextToken_empty, ?_⟩
  obtain ⟨next, hn, h⟩ := getExposedSecretsInEnv_of_pages w token m m1 m2 secrets [] envs []
    hs he
  rw [createNextToken_empty] at hn
  cases hn
  exact ⟨_, h, rfl⟩

/-- C5 at the end-to-end example, whose two sources have a single page each. -/
theorem empty_cursor_serializes_empty_witness :
    createNextToken [] [] = .ok [] ∧
      ∃ resp, getExposedSecretsInEnv World.endToEnd ⟨[], []⟩ Machine.init
          = (.ok resp, ⟨[], [.ListSecrets none, .GetSecretValue (ascii "arn:db"),
            .ListFunctions none none, .GetFunctionConfiguration (ascii "f0"),
            .GetFunctionConfiguration (ascii "f1")]⟩) ∧ resp.NextToken = [] :=
  empty_cursor_serializes_empty World.endToEnd ⟨[], []⟩ Machine.init
    ⟨[], [.ListSecrets none, .GetSecretValue (ascii "arn:db")]⟩ _
    [⟨ascii "db", ascii "arn:db", ⟨ascii "password", ascii "pw123"⟩⟩]
    [⟨ascii "f0", ascii "arn:f0", [(ascii "HOME", ascii "/root")]⟩,
     ⟨ascii "f1", ascii "arn:f1", [(ascii "DB_PASSWORD", ascii "pw123")]⟩]
    (by decide) (by decide)

/-! ## The empty and the malformed token -/

/-- C6, as stated, fails: `decodeNextToken("")` is an error. The empty string decodes to
no bytes, and `json.Unmarshal` rejects empty input. -/
theorem decodeNextToken_empty_fails :
    base64.DecodeString [] = some [] ∧
    json.checkValid [] = false ∧
    decodeNextToken [] = .error .unmarshalToken ∧
    decodeNextToken [] ≠ .ok ⟨[], []⟩ := by
  decide

/-- C6, amended. An empty `next_token` reaches the scan as the both-empty cursor through
the guard `t != ""` of the two handlers, which do not call `decodeNextToken` for it: the
request is answered from `getExposedSecretsInEnv` (`getExposedSecretsInLambdaCode`) at
`NextToken{"", ""}`, with status 200 when the scan succeeds; `decodeNextToken("")` itself
returns an error. -/
theorem empty_token_is_empty_cursor (w : World) (m : Machine) :
    getExposedSecretInEnvHandler w [] m
      = (match getExposedSecretsInEnv w ⟨[], []⟩ m with
        | (.error err, m1) => (⟨500, .error err⟩, m1)
        | (.ok secrets, m1) => (⟨200, .ok secrets⟩, m1)) ∧
    getExposedSecretsInCodeHandler w [] m
      = (match getExposedSecretsInLambdaCode w ⟨[], []⟩ m with
        | (.error err, m1) => (⟨500, .error err⟩, m1)
        | (.ok secrets, m1) => (⟨200, .ok secrets⟩, m1)) ∧
    decodeNextToken [] = .error .unmarshalToken := by
  refine ⟨?_, ?_, by decide⟩
  · simp only [getExposedSecretInEnvHandler]
    rcases h : getExposedSecretsInEnv w ⟨[], []⟩ m with ⟨r | r, m1⟩ <;> simp [h]
  · simp only [getExposedSecretsInCodeHandler]
    rcases h : getExposedSecretsInLambdaCode w ⟨[], []⟩ m with ⟨r | r, m1⟩ <;> simp [h]

/-- C7, as stated, fails: the token `%` is not valid base64, and both handlers answer it
with status 500, which is no client-error status; the token `bnVsbA==` (base64 of
`null`) is not an object of the expected shape, and it is accepted as the both-empty
cursor and scanned with status 200; so is the token `e30=` (base64 of `{}`), an
object with neither field. -/
theorem malformed_token_not_4xx :
    ascii "%" ≠ [] ∧ base64.DecodeString (ascii "%") = none ∧
    getExposedSecretInEnvHandler World.endToEnd (ascii "%") Machine.init
      = (⟨500, .error .decodeToken⟩, Machine.init) ∧
    getExposedSecretsInCodeHandler World.endToEnd (ascii "%") Machine.init
      = (⟨500, .error .decodeToken⟩, Machine.init) ∧
    ¬ (400 ≤ (getExposedSecretInEnvHandler World.endToEnd (ascii "%") Machine.init).1.status ∧
      (getExposedSecretInEnvHandler World.endToEnd (ascii "%") Machine.init).1.status < 500) ∧
    base64.DecodeString (ascii "bnVsbA==") = some (ascii "null") ∧
    decodeNextToken (ascii "bnVsbA==") = .ok ⟨[], []⟩ ∧
    (getExposedSecretInEnvHandler World.endToEnd (ascii "bnVsbA==") Machine.init).1.status
      = 200 ∧
    base64.DecodeString (ascii "e30=") = some [0x7B, 0x7D] ∧
    decodeNextToken (ascii "e30=") = .ok ⟨[], []⟩ ∧
    (getExposedSecretInEnvHandler World.endToEnd (ascii "e30=") Machine.init).1.status
      = 200 := by
  decide

theorem handler_status (w : World) (t : GoString) (m : Machine) :
    ((getExposedSecretInEnvHandler w t m).1.status = 200 ∨
      (getExposedSecretInEnvHandler w t m).1.status = 500) ∧
    ((getExposedSecretsInCodeHandler w t m).1.status = 200 ∨
      (getExposedSecretsInCodeHandler w t m).1.status = 500) := by
  constructor
  · unfold getExposedSecretInEnvHandler
    split
    · exact Or.inr rfl
    · split
      · exact Or.inr rfl
      · exact Or.inl rfl
  · unfold getExposedSecretsInCodeHandler
    split
    · exact Or.inr rfl
    · split
      · exact Or.inr rfl
      · exact Or.inl rfl

/-- C7, amended. For every non-empty `next_token` on which `decodeNextToken` fails (every
token that is not valid base64, and every token whose decoded bytes `json.Unmarshal`
rejects, and no other token), both handlers fail the request with status 500 and the
decoding error as body, without sending any request upstream and without touching the
disk; 500 is the only failure status of the handlers, a failed scan is answered with it
as well, by both. -/
theorem malformed_token_is_500 (w : World) (t : GoString) (m : Machine) (e : GoError)
    (ht : t ≠ []) (hd : decodeNextToken t = .error e) :
    getExposedSecretInEnvHandler w t m = (⟨500, .error e⟩, m) ∧
    getExposedSecretsInCodeHandler w t m = (⟨500, .error e⟩, m) ∧
    (base64.DecodeString t = none ∨
      ∃ b, base64.DecodeString t = some b ∧ json.Unmarshal b ⟨[], []⟩ = .error .unmarshalToken) ∧
    (∀ (t1 : GoString) (m0 : Machine),
      ((getExposedSecretInEnvHandler w t1 m0).1.status = 200 ∨
        (getExposedSecretInEnvHandler w t1 m0).1.status = 500) ∧
      ((getExposedSecretsInCodeHandler w t1 m0).1.status = 200 ∨
        (getExposedSecretsInCodeHandler w t1 m0).1.status = 500)) ∧
    (∀ (t1 : GoString) (token : NextToken) (err : GoError) (m0 m1 : Machine),
      (if t1 ≠ [] then decodeNextToken t1 else .ok ⟨[], []⟩) = .ok token →
      getExposedSecretsInEnv w token m0 = (.error err, m1) →
      getExposedSecretInEnvHandler w t1 m0 = (⟨500, .error err⟩, m1)) ∧
    (∀ (t1 : GoString) (token : NextToken) (err : GoError) (m0 m1 : Machine),
      (if t1 ≠ [] then decodeNextToken t1 else .ok ⟨[], []⟩) = .ok token →
      getExposedSecretsInLambdaCode w token m0 = (.error err, m1) →
      getExposedSecretsInCodeHandler w t1 m0 = (⟨500, .error err⟩, m1)) ∧
    (∀ t1 : GoString, base64.DecodeString t1 = none →
      decodeNextToken t1 = .error .decodeToken) ∧
    (∀ (t1 b : GoString) (e1 : GoError), base64.DecodeString t1 = some b →
      json.Unmarshal b ⟨[], []⟩ = .error e1 → decodeNextToken t1 = .error .unmarshalToken) := by
  refine ⟨?_, ?_, ?_, handler_status w, ?_, ?_, ?_, ?_⟩
  · simp [getExposedSecretInEnvHandler, ht, hd]
  · simp [getExposedSecretsInCodeHandler, ht, hd]
  · unfold decodeNextToken at hd
    cases hb : base64.DecodeString t with
    | none => exact Or.inl rfl
    | some b =>
      refine Or.inr ⟨b, rfl, ?_⟩
      rw [hb] at hd
      cases hu : json.Unmarshal b ⟨[], []⟩ with
      | error e1 =>
        unfold json.Unmarshal at hu
        split at hu
        · cases hu; rfl
        · split at hu
          · cases hu; rfl
          · split at hu
            · split at hu
              · cases hu; rfl
              · split at hu
                · cases hu; rfl
                · cases hu
            · split at hu
              · cases hu
              · cases hu; rfl
      | ok t1 => simp [hu] at hd
  · intro t1 token err m0 m1 h1 h2
    simp only [getExposedSecretInEnvHandler, h1, h2]
  · intro t1 token err m0 m1 h1 h2
    simp only [getExposedSecretsInCodeHandler, h1, h2]
  · intro t1 h1
    simp only [decodeNextToken, h1]
  · intro t1 b e1 h1 h2
    simp only [decodeNextToken, h1, h2]

/-- C7, amended, at the token `%`. -/
theorem malformed_token_is_500_witness :
    getExposedSecretInEnvHandler World.endToEnd (ascii "%") Machine.init
      = (⟨500, .error .decodeToken⟩, Machine.init) ∧
    getExposedSecretsInCodeHandler World.endToEnd (ascii "%") Machine.init
      = (⟨500, .error .decodeToken⟩, Machine.init) :=
  have h := malformed_token_is_500 World.endToEnd (ascii "%") Machine.init .decodeToken
    (by decide) (by decide)
  ⟨h.1, h.2.1⟩

/-! ## Temporary archives -/

/-- C3 at three pages of one entity. The archive of `f1` is downloaded to the temporary
file `/tmp/entro-scanner-lambda-zipFile`. When a file of the archive contains `pw123`
the call returns the finding and the temporary file is gone; when no file contains it the
call returns no finding and the temporary file is still on disk; when a file of the
archive cannot be read the call returns an error and the temporary file is still on
disk. -/
theorem cleanup_only_after_match :
    (getExposedSecretsInLambdaCode
        (World.withArchive (.ok [.content (ascii "key = pw123")])) ⟨[], []⟩ Machine.init).2.files
      = [] ∧
    (getExposedSecretsInLambdaCode
        (World.withArchive (.ok [.content (ascii "key = pw123")])) ⟨[], []⟩ Machine.init).1
      = .ok ⟨[⟨[⟨ascii "db", ascii "arn:db", ⟨ascii "password", ascii "pw123"⟩⟩],
          ascii "f1", ascii "arn:f1"⟩], []⟩ ∧
    (getExposedSecretsInLambdaCode
        (World.withArchive (.ok [.content (ascii "print(1)")])) ⟨[], []⟩ Machine.init).2.files
      = [ascii "/tmp/entro-scanner-lambda-zipFile"] ∧
    (getExposedSecretsInLambdaCode
        (World.withArchive (.ok [.content (ascii "print(1)")])) ⟨[], []⟩ Machine.init).1
      = .ok ⟨[], []⟩ ∧
    (getExposedSecretsInLambdaCode
        (World.withArchive (.ok [.readFails])) ⟨[], []⟩ Machine.init).2.files
      = [ascii "/tmp/entro-scanner-lambda-zipFile"] ∧
    (∃ e, (getExposedSecretsInLambdaCode
        (World.withArchive (.ok [.readFails])) ⟨[], []⟩ Machine.init).1 = .error e) := by
  refine ⟨by decide, by decide, by decide, by decide, by decide, ⟨_, rfl⟩⟩

/-! ## base64: decoding inverts encoding -/

namespace base64

theorem decodeMap_encodeByte : ∀ n, n < 64 → decodeMap (encodeByte n) = some n := by
  decide

theorem encodeByte_lt : ∀ n, n < 64 → encodeByte n < 128 := by
  decide

theorem decodeMap_padChar : decodeMap padChar = none := by decide

theorem quantumBytes_four (a b c : Nat) (ha : a < 256) (hb : b < 256) (hc : c < 256) :
    quantumBytes [(a * 65536 + b * 256 + c) / 262144 % 64, (a * 65536 + b * 256 + c) / 4096 % 64,
      (a * 65536 + b * 256 + c) / 64 % 64, (a * 65536 + b * 256 + c) % 64] 4 = [a, b, c] := by
  simp only [quantumBytes, List.getD_cons_zero, List.getD_cons_succ]
  simp
  refine ⟨?_, ?_, ?_⟩ <;> omega

theorem decodeLoop_digit (n : Nat) (hn : n < 64) (src : GoString) (dbuf : List Nat)
    (hd : dbuf.length ≠ 3) :
    decodeLoop (encodeByte n :: src) dbuf = decodeLoop src (dbuf ++ [n]) := by
  rw [decodeLoop, decodeMap_encodeByte n hn]
  simp [hd]

theorem decodeLoop_last_digit (n : Nat) (hn : n < 64) (src : GoString) (dbuf : List Nat)
    (hd : dbuf.length = 3) :
    decodeLoop (encodeByte n :: src) dbuf
      = (decodeLoop src []).map (fun r => quantumBytes (dbuf ++ [n]) 4 ++ r) := by
  rw [decodeLoop, decodeMap_encodeByte n hn]
  simp [hd]

theorem decodeLoop_Encode (src : GoString) (h : ∀ x ∈ src, x < 256) :
    decodeLoop (Encode src) [] = some src := by
  induction src using Encode.induct with
  | case1 => simp [Encode, decodeLoop]
  | case2 a =>
    have ha : a < 256 := h a (by simp)
    simp only [Encode]
    rw [decodeLoop_digit _ (by omega) _ _ (by simp), decodeLoop_digit _ (by omega) _ _ (by simp)]
    rw [decodeLoop, decodeMap_padChar]
    simp [padChar, skipNewlines, quantumBytes]
    omega
  | case3 a b =>
    have ha : a < 256 := h a (by simp)
    have hb : b < 256 := h b (by simp)
    simp only [Encode]
    rw [decodeLoop_digit _ (by omega) _ _ (by simp), decodeLoop_digit _ (by omega) _ _ (by simp),
      decodeLoop_digit _ (by omega) _ _ (by simp)]
    rw [decodeLoop, decodeMap_padChar]
    simp [padChar, skipNewlines, quantumBytes]
    omega
  | case4 a b c rest ih =>
    have ha : a < 256 := h a (by simp)
    have hb : b < 256 := h b (by simp)
    have hc : c < 256 := h c (by simp)
    have hr : ∀ x ∈ rest, x < 256 := fun x hx => h x (by simp [hx])
    simp only [Encode]
    rw [decodeLoop_digit _ (by omega) _ _ (by simp), decodeLoop_digit _ (by omega) _ _ (by simp),
      decodeLoop_digit _ (by omega) _ _ (by simp),
      decodeLoop_last_digit _ (by omega) _ _ (by simp), ih hr]
    simp only [List.nil_append, List.cons_append, Option.map_some']
    rw [quantumBytes_four a b c ha hb hc]
    rfl

theorem DecodeString_EncodeToString (src : GoString) (h : ∀ x ∈ src, x < 256) :
    DecodeString (EncodeToString src) = some src :=
  decodeLoop_Encode src h

end base64

/-! ## UTF-8: encoding inverts decoding on valid sequences -/

namespace utf8

theorem DecodeRune_two (s0 s1 : Nat) (rest : GoString) (h : Enc2 s0 s1) :
    DecodeRune (s0 :: s1 :: rest) = (s0 % 32 * 64 + s1 % 64, 2) := by
  obtain ⟨h1, h2, h3, h4⟩ := h
  have hl : leadInfo s0 = some (2, 0x80, 0xBF) := by
    simp [leadInfo, h1, h2]
  simp only [DecodeRune, RuneSelf, hl]
  rw [if_neg (by omega), if_neg (by simp), if_neg (by omega), if_pos (by omega)]

theorem DecodeRune_three (s0 s1 s2 : Nat) (rest : GoString) (h : Enc3 s0 s1 s2) :
    DecodeRune (s0 :: s1 :: s2 :: rest) = (s0 % 16 * 4096 + s1 % 64 * 64 + s2 % 64, 3) := by
  obtain ⟨h1, h2, h3⟩ := h
  have hl : ∃ lo hi, leadInfo s0 = some (3, lo, hi) ∧ lo ≤ s1 ∧ s1 ≤ hi := by
    rcases h1 with h | h | h | h
    · exact ⟨0xA0, 0xBF, by simp [leadInfo, h.1], h.2.1, h.2.2⟩
    · refine ⟨0x80, 0xBF, ?_, h.2.2.1, h.2.2.2⟩
      unfold leadInfo
      rw [if_neg (by omega), if_neg (by omega), if_pos (by omega)]
    · exact ⟨0x80, 0x9F, by simp [leadInfo, h.1], h.2.1, h.2.2⟩
    · refine ⟨0x80, 0xBF, ?_, h.2.2.1, h.2.2.2⟩
      unfold leadInfo
      rw [if_neg (by omega), if_neg (by omega), if_neg (by omega), if_neg (by omega),
        if_pos (by omega)]
  obtain ⟨lo, hi, hl, hlo, hhi⟩ := hl
  have h80 : 0x80 ≤ s0 := by rcases h1 with h | h | h | h <;> omega
  have hc : isCont s2 = true := by simp [isCont, h2, h3]
  simp only [DecodeRune, RuneSelf, hl]
  rw [if_neg (by omega), if_neg (by simp), if_neg (by omega), if_neg (by omega)]
  simp [hc]

theorem DecodeRune_four (s0 s1 s2 s3 : Nat) (rest : GoString) (h : Enc4 s0 s1 s2 s3) :
    DecodeRune (s0 :: s1 :: s2 :: s3 :: rest)
      = (s0 % 8 * 262144 + s1 % 64 * 4096 + s2 % 64 * 64 + s3 % 64, 4) := by
  obtain ⟨h1, h2, h3, h4, h5⟩ := h
  have hl : ∃ lo hi, leadInfo s0 = some (4, lo, hi) ∧ lo ≤ s1 ∧ s1 ≤ hi := by
    rcases h1 with h | h | h
    · exact ⟨0x90, 0xBF, by simp [leadInfo, h.1], h.2.1, h.2.2⟩
    · refine ⟨0x80, 0xBF, ?_, h.2.2.1, h.2.2.2⟩
      unfold leadInfo
      rw [if_neg (by omega), if_neg (by omega), if_neg (by omega), if_neg (by omega),
        if_neg (by omega), if_neg (by omega), if_pos (by omega)]
    · exact ⟨0x80, 0x8F, by simp [leadInfo, h.1], h.2.1, h.2.2⟩
  obtain ⟨lo, hi, hl, hlo, hhi⟩ := hl
  have h80 : 0x80 ≤ s0 := by rcases h1 with h | h | h <;> omega
  have hc2 : isCont s2 = true := by simp [isCont, h2, h3]
  have hc3 : isCont s3 = true := by simp [isCont, h4, h5]
  simp only [DecodeRune, RuneSelf, hl]
  rw [if_neg (by omega), if_neg (by simp), if_neg (by omega), if_neg (by omega)]
  simp [hc2, hc3]

theorem leadInfo_some (s0 sz lo hi : Nat) (h : leadInfo s0 = some (sz, lo, hi)) :
    (sz = 2 ∧ 0xC2 ≤ s0 ∧ s0 ≤ 0xDF ∧ lo = 0x80 ∧ hi = 0xBF) ∨
    (sz = 3 ∧ ((s0 = 0xE0 ∧ lo = 0xA0 ∧ hi = 0xBF) ∨ (0xE1 ≤ s0 ∧ s0 ≤ 0xEC ∧ lo = 0x80 ∧ hi = 0xBF) ∨
      (s0 = 0xED ∧ lo = 0x80 ∧ hi = 0x9F) ∨ (0xEE ≤ s0 ∧ s0 ≤ 0xEF ∧ lo = 0x80 ∧ hi = 0xBF))) ∨
    (sz = 4 ∧ ((s0 = 0xF0 ∧ lo = 0x90 ∧ hi = 0xBF) ∨ (0xF1 ≤ s0 ∧ s0 ≤ 0xF3 ∧ lo = 0x80 ∧ hi = 0xBF) ∨
      (s0 = 0xF4 ∧ lo = 0x80 ∧ hi = 0x8F))) := by
  unfold leadInfo at h
  split_ifs at h <;> simp at h <;> obtain ⟨rfl, rfl, rfl⟩ := h <;> simp <;> omega

theorem DecodeRune_inv (s0 : Nat) (t : GoString) (h0 : 0x80 ≤ s0)
    (h : (DecodeRune (s0 :: t)).2 ≠ 1) :
    (∃ s1 rest, t = s1 :: rest ∧ Enc2 s0 s1) ∨
    (∃ s1 s2 rest, t = s1 :: s2 :: rest ∧ Enc3 s0 s1 s2) ∨
    (∃ s1 s2 s3 rest, t = s1 :: s2 :: s3 :: rest ∧ Enc4 s0 s1 s2 s3) := by
  unfold DecodeRune at h
  simp only [RuneSelf] at h
  rw [if_neg (by omega)] at h
  cases hl : leadInfo s0 with
  | none => simp [hl] at h
  | some p =>
    obtain ⟨sz, lo, hi⟩ := p
    simp only [hl] at h
    have hcases := leadInfo_some s0 sz lo hi hl
    cases t with
    | nil => simp at h
    | cons s1 t1 =>
      by_cases hr : s1 < lo ∨ hi < s1
      · simp [hr] at h
      · rcases hcases with ⟨rfl, hc⟩ | ⟨rfl, hc⟩ | ⟨rfl, hc⟩
        · left
          exact ⟨s1, t1, rfl, by unfold Enc2; omega⟩
        · cases t1 with
          | nil => simp at h
          | cons s2 t2 =>
            by_cases hc2 : isCont s2 = true
            · right; left
              refine ⟨s1, s2, t2, rfl, ?_⟩
              simp [isCont] at hc2
              unfold Enc3
              omega
            · simp [hr, hc2] at h
        · cases t1 with
          | nil => simp at h
          | cons s2 t2 =>
            by_cases hc2 : isCont s2 = true
            · cases t2 with
              | nil => simp at h
              | cons s3 t3 =>
                by_cases hc3 : isCont s3 = true
                · right; right
                  refine ⟨s1, s2, s3, t3, rfl, ?_⟩
                  simp [isCont] at hc2 hc3
                  unfold Enc4
                  omega
                · simp [hr, hc2, hc3] at h
            · simp [hr, hc2] at h

theorem AppendRune_two (s0 s1 : Nat) (h : Enc2 s0 s1) :
    AppendRune (s0 % 32 * 64 + s1 % 64) = [s0, s1] := by
  obtain ⟨h1, h2, h3, h4⟩ := h
  unfold AppendRune
  rw [if_neg (by omega), if_pos (by omega)]
  congr 1
  · omega
  · congr 1
    omega

theorem AppendRune_three (s0 s1 s2 : Nat) (h : Enc3 s0 s1 s2) :
    AppendRune (s0 % 16 * 4096 + s1 % 64 * 64 + s2 % 64) = [s0, s1, s2] := by
  obtain ⟨h1, h2, h3⟩ := h
  unfold AppendRune
  rw [if_neg (by omega), if_neg (by omega), if_neg (by omega), if_pos (by omega)]
  congr 1
  · omega
  · congr 1
    · omega
    · congr 1
      omega

theorem AppendRune_four (s0 s1 s2 s3 : Nat) (h : Enc4 s0 s1 s2 s3) :
    AppendRune (s0 % 8 * 262144 + s1 % 64 * 4096 + s2 % 64 * 64 + s3 % 64) = [s0, s1, s2, s3] := by
  obtain ⟨h1, h2, h3, h4, h5⟩ := h
  unfold AppendRune
  rw [if_neg (by omega), if_neg (by omega), if_neg (by omega), if_neg (by omega)]
  congr 1
  · omega
  · congr 1
    · omega
    · congr 1
      · omega
      · congr 1
        omega

theorem DecodeRune_encodes (s0 : Nat) (t : GoString) (h0 : 0x80 ≤ s0)
    (h : (DecodeRune (s0 :: t)).2 ≠ 1) :
    ∃ w rest, s0 :: t = w ++ rest ∧ Encodes w (DecodeRune (s0 :: t)).1 ∧
      (DecodeRune (s0 :: t)).2 = w.length := by
  rcases DecodeRune_inv s0 t h0 h with ⟨s1, rest, rfl, he⟩ | ⟨s1, s2, rest, rfl, he⟩ |
    ⟨s1, s2, s3, rest, rfl, he⟩
  · refine ⟨[s0, s1], rest, rfl, ?_, ?_⟩
    · rw [DecodeRune_two s0 s1 rest he]
      refine ⟨⟨s0, [s1], rfl, h0⟩, ?_, AppendRune_two s0 s1 he, fun r => DecodeRune_two s0 s1 r he⟩
      obtain ⟨h1, h2, h3, h4⟩ := he
      intro x hx
      simp at hx
      rcases hx with rfl | rfl <;> omega
    · rw [DecodeRune_two s0 s1 rest he]; rfl
  · refine ⟨[s0, s1, s2], rest, rfl, ?_, ?_⟩
    · rw [DecodeRune_three s0 s1 s2 rest he]
      refine ⟨⟨s0, [s1, s2], rfl, h0⟩, ?_, AppendRune_three s0 s1 s2 he,
        fun r => DecodeRune_three s0 s1 s2 r he⟩
      obtain ⟨h1, h2, h3⟩ := he
      intro x hx
      simp at hx
      rcases hx with rfl | rfl | rfl <;> omega
    · rw [DecodeRune_three s0 s1 s2 rest he]; rfl
  · refine ⟨[s0, s1, s2, s3], rest, rfl, ?_, ?_⟩
    · rw [DecodeRune_four s0 s1 s2 s3 rest he]
      refine ⟨⟨s0, [s1, s2, s3], rfl, h0⟩, ?_, AppendRune_four s0 s1 s2 s3 he,
        fun r => DecodeRune_four s0 s1 s2 s3 r he⟩
      obtain ⟨h1, h2, h3, h4, h5⟩ := he
      intro x hx
      simp at hx
      rcases hx with rfl | rfl | rfl | rfl <;> omega
    · rw [DecodeRune_four s0 s1 s2 s3 rest he]; rfl

end utf8

/-! ## JSON strings: what `appendString` writes for valid UTF-8 -/

namespace json

theorem appendStringLoop_nil (fuel : Nat) : appendStringLoop fuel [] = [] := by
  cases fuel <;> simp [appendStringLoop]

theorem quoted_of_validLoop (f1 : Nat) : ∀ (f2 : Nat) (s : GoString), s.length ≤ f1 →
    s.length ≤ f2 → utf8.validLoop f1 s = true → Quoted s (appendStringLoop f2 s) := by
  induction f1 with
  | zero =>
    intro f2 s h1 _ _
    have hs : s = [] := List.length_eq_zero.1 (by omega)
    subst hs
    rw [appendStringLoop_nil]
    exact Quoted.nil
  | succ f1 ih =>
    intro f2 s h1 h2 hv
    cases s with
    | nil =>
      rw [appendStringLoop_nil]
      exact Quoted.nil
    | cons s0 t =>
      cases f2 with
      | zero => simp at h2
      | succ f2 =>
        simp only [List.length_cons] at h1 h2
        rw [utf8.validLoop] at hv
        rw [appendStringLoop]
        by_cases h0 : s0 < utf8.RuneSelf
        · simp only [h0, if_true] at hv ⊢
          have hq := ih f2 t (by omega) (by omega) hv
          have h0' : s0 < 0x80 := h0
          by_cases hs : htmlSafeSet s0 = true
          · simp only [hs, if_true]
            exact Quoted.safe s0 t _ h0' hs hq
          · simp only [hs]
            exact Quoted.esc s0 t _ h0' (by simpa using hs) hq
        · simp only [h0, if_false] at hv ⊢
          have h80 : 0x80 ≤ s0 := by simp [utf8.RuneSelf] at h0; omega
          by_cases h1' : (utf8.DecodeRune (s0 :: t)).2 = 1
          · simp [h1'] at hv
          · simp only [h1', if_false] at hv
            obtain ⟨w, rest, hw, henc, hlen⟩ := utf8.DecodeRune_encodes s0 t h80 h1'
            have hwl : w.length ≤ (s0 :: t).length := by rw [hw]; simp
            have hrl : rest.length + w.length = t.length + 1 := by
              have := congrArg List.length hw
              simp at this
              omega
            have hwpos : 1 ≤ w.length := by
              rcases henc.1 with ⟨a, b, hab, _⟩
              rw [hab]; simp
            have hdrop : (s0 :: t).drop (utf8.DecodeRune (s0 :: t)).2 = rest := by
              rw [hlen, hw, List.drop_left]
            have htake : (s0 :: t).take (utf8.DecodeRune (s0 :: t)).2 = w := by
              rw [hlen, hw, List.take_left]
            rw [hdrop] at hv
            have hq := ih f2 rest (by omega) (by omega) hv
            rw [if_neg (by intro hc; exact h1' hc.2)]
            rw [hdrop, htake]
            conv => lhs; rw [hw]
            by_cases hsep : (utf8.DecodeRune (s0 :: t)).1 = 0x2028 ∨
                (utf8.DecodeRune (s0 :: t)).1 = 0x2029
            · rw [if_pos hsep]
              exact Quoted.sep w _ rest _ henc hsep hq
            · rw [if_neg hsep]
              exact Quoted.raw w _ rest _ henc (fun h => hsep (Or.inl h))
                (fun h => hsep (Or.inr h)) hq

theorem quoted_of_valid (s : GoString) (h : utf8.Valid s = true) :
    Quoted s (appendStringLoop s.length s) :=
  quoted_of_validLoop s.length s.length s (le_refl _) (le_refl _) h

/-! ## JSON strings: `unquoteBytes` inverts `appendString` -/

theorem hex_facts : ∀ n, n < 16 →
    hexVal (hex n) = some n ∧ isHex (hex n) = true ∧ hex n < 128 := by
  decide

theorem hexVal_facts (c v : Nat) (h : hexVal c = some v) :
    v < 16 ∧ isHex c = true ∧ c ≠ 0x22 ∧ c ≠ 0x5C ∧ 0x20 ≤ c ∧ c < 128 := by
  unfold hexVal at h
  unfold isHex
  split_ifs at h with h1 h2 h3
  · simp at h; simp; omega
  · simp at h; simp; omega
  · simp at h; simp; omega

theorem escapeByte_cases (b : Nat) (hb : b < 0x80) :
    (∃ e, escapeByte b = [0x5C, e] ∧ SimpleEsc e b) ∨
    (escapeByte b = [0x5C, 0x75, 0x30, 0x30, hex (b / 16), hex (b % 16)] ∧
      b / 16 < 16 ∧ b % 16 < 16) := by
  unfold escapeByte SimpleEsc
  split_ifs with h1 h2 h3 h4 h5 h6
  · left
    rcases h1 with h | h
    · exact ⟨b, rfl, Or.inr (Or.inl ⟨h, h⟩)⟩
    · exact ⟨b, rfl, Or.inl ⟨h, h⟩⟩
  · left; exact ⟨_, rfl, by simp [h2]⟩
  · left; exact ⟨_, rfl, by simp [h3]⟩
  · left; exact ⟨_, rfl, by simp [h4]⟩
  · left; exact ⟨_, rfl, by simp [h5]⟩
  · left; exact ⟨_, rfl, by simp [h6]⟩
  · right; exact ⟨rfl, by omega, by omega⟩

theorem htmlSafeSet_facts (b : Nat) (h : htmlSafeSet b = true) :
    0x20 ≤ b ∧ b < 0x80 ∧ b ≠ 0x22 ∧ b ≠ 0x5C := by
  simp [htmlSafeSet] at h
  omega

theorem unquoteLoop_nil (fuel : Nat) : unquoteLoop fuel [] = some [] := by
  cases fuel <;> simp [unquoteLoop]

theorem unquoteLoop_plain (fuel b : Nat) (o : GoString) (h1 : 0x20 ≤ b) (h2 : b < 0x80)
    (h3 : b ≠ 0x22) (h4 : b ≠ 0x5C) :
    unquoteLoop (fuel + 1) (b :: o) = (unquoteLoop fuel o).map (fun w => b :: w) := by
  rw [unquoteLoop.eq_def]
  simp only
  rw [if_neg h4, if_neg (by omega), if_pos (by simp [utf8.RuneSelf]; omega)]

theorem unquoteLoop_simple (fuel e b : Nat) (o : GoString) (h : SimpleEsc e b) :
    unquoteLoop (fuel + 1) (0x5C :: e :: o) = (unquoteLoop fuel o).map (fun w => b :: w) := by
  rw [unquoteLoop]
  unfold SimpleEsc at h
  rcases h with ⟨rfl, rfl⟩ | ⟨rfl, rfl⟩ | ⟨rfl, rfl⟩ | ⟨rfl, rfl⟩ | ⟨rfl, rfl⟩ | ⟨rfl, rfl⟩ |
    ⟨rfl, rfl⟩ <;> simp

theorem unquoteLoop_u4 (fuel h1 h2 h3 h4 v1 v2 v3 v4 : Nat) (o : GoString)
    (e1 : hexVal h1 = some v1) (e2 : hexVal h2 = some v2) (e3 : hexVal h3 = some v3)
    (e4 : hexVal h4 = some v4)
    (hs : IsSurrogate (((v1 * 16 + v2) * 16 + v3) * 16 + v4) = false) :
    unquoteLoop (fuel + 1) (0x5C :: 0x75 :: h1 :: h2 :: h3 :: h4 :: o)
      = (unquoteLoop fuel o).map
          (fun w => utf8.AppendRune (((v1 * 16 + v2) * 16 + v3) * 16 + v4) ++ w) := by
  rw [unquoteLoop]
  simp [getu4, e1, e2, e3, e4, hs]

theorem unquoteLoop_encodes (fuel r : Nat) (w o : GoString) (h : utf8.Encodes w r) :
    unquoteLoop (fuel + 1) (w ++ o) = (unquoteLoop fuel o).map (fun x => w ++ x) := by
  obtain ⟨⟨s0, t, rfl, h0⟩, -, ha, hd⟩ := h
  have hd' := hd o
  simp only [List.cons_append] at hd' ⊢
  rw [unquoteLoop.eq_def]
  simp only
  rw [if_neg (by omega), if_neg (by omega), if_neg (by simp [utf8.RuneSelf]; omega)]
  simp only [hd', ha]
  have : List.drop (s0 :: t).length (s0 :: (t ++ o)) = o := by
    exact List.drop_left (s0 :: t) o
  rw [this]
  rfl

theorem unquoteLoop_quoted (s o : GoString) (h : Quoted s o) :
    ∀ fuel, o.length ≤ fuel → unquoteLoop fuel o = some s := by
  induction h with
  | nil => intro fuel _; exact unquoteLoop_nil fuel
  | safe b s o hb hs _ ih =>
    intro fuel hf
    obtain ⟨h1, h2, h3, h4⟩ := htmlSafeSet_facts b hs
    cases fuel with
    | zero => simp at hf
    | succ fuel =>
      simp only [List.length_cons] at hf
      rw [unquoteLoop_plain fuel b o h1 h2 h3 h4, ih fuel (by omega)]
      rfl
  | esc b s o hb hs _ ih =>
    intro fuel hf
    cases fuel with
    | zero =>
      rcases escapeByte_cases b hb with ⟨e, he, -⟩ | ⟨he, -, -⟩ <;> simp [he] at hf
    | succ fuel =>
      rcases escapeByte_cases b hb with ⟨e, he, hse⟩ | ⟨he, hd1, hd2⟩
      · rw [he] at hf ⊢
        simp only [List.length_append, List.length_cons, List.length_nil] at hf
        simp only [List.cons_append, List.nil_append]
        rw [unquoteLoop_simple fuel e b o hse, ih fuel (by omega)]
        rfl
      · rw [he] at hf ⊢
        simp only [List.length_append, List.length_cons, List.length_nil] at hf
        simp only [List.cons_append, List.nil_append]
        have z : hexVal 0x30 = some 0 := by decide
        have hsur : IsSurrogate (((0 * 16 + 0) * 16 + b / 16) * 16 + b % 16) = false := by
          simp [IsSurrogate]; omega
        rw [unquoteLoop_u4 fuel _ _ _ _ 0 0 (b / 16) (b % 16) o z z (hex_facts _ hd1).1
          (hex_facts _ hd2).1 hsur, ih fuel (by omega)]
        have hv : ((0 * 16 + 0) * 16 + b / 16) * 16 + b % 16 = b := by omega
        rw [hv]
        have hA : utf8.AppendRune b = [b] := by
          unfold utf8.AppendRune
          rw [if_pos (by omega)]
        rw [hA]
        rfl
  | raw w r s o henc _ _ _ ih =>
    intro fuel hf
    have hwpos : 1 ≤ w.length := by
      rcases henc.1 with ⟨a, b, hab, _⟩
      rw [hab]; simp
    cases fuel with
    | zero => simp only [List.length_append] at hf; omega
    | succ fuel =>
      simp only [List.length_append] at hf
      rw [unquoteLoop_encodes fuel r w o henc, ih fuel (by omega)]
      rfl
  | sep w r s o henc hr _ ih =>
    intro fuel hf
    cases fuel with
    | zero => simp at hf
    | succ fuel =>
      simp only [List.length_append, List.length_cons, List.length_nil] at hf
      simp only [List.cons_append, List.nil_append]
      have hr16 : r % 16 < 16 := by omega
      have e2 : hexVal 0x32 = some 2 := by decide
      have e0 : hexVal 0x30 = some 0 := by decide
      have hv : ((2 * 16 + 0) * 16 + 2) * 16 + r % 16 = r := by rcases hr with rfl | rfl <;> rfl
      have hsur : IsSurrogate (((2 * 16 + 0) * 16 + 2) * 16 + r % 16) = false := by
        rw [hv]; rcases hr with rfl | rfl <;> decide
      rw [unquoteLoop_u4 fuel _ _ _ _ 2 0 2 (r % 16) o e2 e0 e2 (hex_facts _ hr16).1 hsur,
        ih fuel (by omega), hv, henc.2.2.1]
      rfl

/-! ## JSON strings: the scanner and `rescanLiteral` on what `appendString` writes -/

theorem Scanner.run_append (s : Scanner) (a b : GoString) :
    s.run (a ++ b) = (s.run a).bind (fun s1 => s1.run b) := by
  induction a generalizing s with
  | nil => simp [Scanner.run]
  | cons c a ih =>
    simp only [List.cons_append, Scanner.run]
    cases h : s.next c with
    | none => simp
    | some s1 => simp [ih]

theorem inString_plain (ps : List ParseState) (b : Nat) (h1 : 0x20 ≤ b) (h3 : b ≠ 0x22)
    (h4 : b ≠ 0x5C) :
    (Scanner.mk .inString ps).next b = some ⟨.inString, ps⟩ := by
  simp only [Scanner.next]
  rw [if_neg h3, if_neg h4, if_neg (by omega)]

theorem inString_simple (ps : List ParseState) (e b : Nat) (h : SimpleEsc e b) :
    (Scanner.mk .inString ps).run [0x5C, e] = some ⟨.inString, ps⟩ := by
  unfold SimpleEsc at h
  rcases h with ⟨rfl, rfl⟩ | ⟨rfl, rfl⟩ | ⟨rfl, rfl⟩ | ⟨rfl, rfl⟩ | ⟨rfl, rfl⟩ | ⟨rfl, rfl⟩ |
    ⟨rfl, rfl⟩ <;> simp [Scanner.run, Scanner.next]

theorem inString_u4 (ps : List ParseState) (h1 h2 h3 h4 : Nat) (e1 : isHex h1 = true)
    (e2 : isHex h2 = true) (e3 : isHex h3 = true) (e4 : isHex h4 = true) :
    (Scanner.mk .inString ps).run [0x5C, 0x75, h1, h2, h3, h4] = some ⟨.inString, ps⟩ := by
  simp [Scanner.run, Scanner.next, e1, e2, e3, e4]

theorem inString_high (ps : List ParseState) (w : GoString) (h : ∀ x ∈ w, 0x80 ≤ x ∧ x < 256) :
    (Scanner.mk .inString ps).run w = some ⟨.inString, ps⟩ := by
  induction w with
  | nil => simp [Scanner.run]
  | cons c w ih =>
    have hc := h c (by simp)
    rw [Scanner.run, inString_plain ps c (by omega) (by omega) (by omega)]
    exact ih (fun x hx => h x (by simp [hx]))

theorem inString_quoted (s o : GoString) (h : Quoted s o) (ps : List ParseState) :
    (Scanner.mk .inString ps).run o = some ⟨.inString, ps⟩ := by
  induction h with
  | nil => simp [Scanner.run]
  | safe b s o hb hs _ ih =>
    obtain ⟨h1, h2, h3, h4⟩ := htmlSafeSet_facts b hs
    rw [Scanner.run, inString_plain ps b h1 h3 h4]
    exact ih
  | esc b s o hb hs _ ih =>
    rw [Scanner.run_append]
    rcases escapeByte_cases b hb with ⟨e, he, hse⟩ | ⟨he, hd1, hd2⟩
    · rw [he, inString_simple ps e b hse]
      exact ih
    · rw [he, inString_u4 ps _ _ _ _ (by decide) (by decide) (hex_facts _ hd1).2.1
        (hex_facts _ hd2).2.1]
      exact ih
  | raw w r s o henc _ _ _ ih =>
    rw [Scanner.run_append, inString_high ps w henc.2.1]
    exact ih
  | sep w r s o henc hr _ ih =>
    rw [Scanner.run_append, inString_u4 ps _ _ _ _ (by decide) (by decide) (by decide)
      (hex_facts _ (by omega)).2.1]
    exact ih

theorem rescanString_plain (b : Nat) (o : GoString) (h3 : b ≠ 0x22) (h4 : b ≠ 0x5C) :
    rescanString (b :: o) = (b :: (rescanString o).1, (rescanString o).2) := by
  rw [rescanString.eq_def]
  simp only
  rw [if_neg h4, if_neg h3]

theorem rescanString_pair (e : Nat) (o : GoString) :
    rescanString (0x5C :: e :: o) = (0x5C :: e :: (rescanString o).1, (rescanString o).2) := by
  rw [rescanString.eq_def]
  simp

theorem rescanString_high (w o : GoString) (h : ∀ x ∈ w, 0x80 ≤ x ∧ x < 256) :
    rescanString (w ++ o) = (w ++ (rescanString o).1, (rescanString o).2) := by
  induction w with
  | nil => simp
  | cons c w ih =>
    have hc := h c (by simp)
    rw [List.cons_append, rescanString_plain c _ (by omega) (by omega),
      ih (fun x hx => h x (by simp [hx]))]
    rfl

theorem rescanString_u4 (h1 h2 h3 h4 v1 v2 v3 v4 : Nat) (o : GoString)
    (e1 : hexVal h1 = some v1) (e2 : hexVal h2 = some v2) (e3 : hexVal h3 = some v3)
    (e4 : hexVal h4 = some v4) :
    rescanString (0x5C :: 0x75 :: h1 :: h2 :: h3 :: h4 :: o)
      = (0x5C :: 0x75 :: h1 :: h2 :: h3 :: h4 :: (rescanString o).1, (rescanString o).2) := by
  have f1 := hexVal_facts h1 v1 e1
  have f2 := hexVal_facts h2 v2 e2
  have f3 := hexVal_facts h3 v3 e3
  have f4 := hexVal_facts h4 v4 e4
  rw [rescanString_pair, rescanString_plain h1 _ f1.2.2.1 f1.2.2.2.1,
    rescanString_plain h2 _ f2.2.2.1 f2.2.2.2.1, rescanString_plain h3 _ f3.2.2.1 f3.2.2.2.1,
    rescanString_plain h4 _ f4.2.2.1 f4.2.2.2.1]

theorem rescanString_quoted (s o : GoString) (h : Quoted s o) (rest : GoString) :
    rescanString (o ++ 0x22 :: rest) = (o ++ [0x22], rest) := by
  induction h with
  | nil =>
    rw [List.nil_append, rescanString.eq_def]
    simp
  | safe b s o hb hs _ ih =>
    obtain ⟨h1, h2, h3, h4⟩ := htmlSafeSet_facts b hs
    rw [List.cons_append, rescanString_plain b _ h3 h4, ih]
    rfl
  | esc b s o hb hs _ ih =>
    rcases escapeByte_cases b hb with ⟨e, he, hse⟩ | ⟨he, hd1, hd2⟩
    · rw [he]
      simp only [List.cons_append, List.nil_append]
      rw [rescanString_pair, ih]
    · rw [he]
      simp only [List.cons_append, List.nil_append]
      have z : hexVal 0x30 = some 0 := by decide
      rw [rescanString_u4 _ _ _ _ 0 0 (b / 16) (b % 16) _ z z (hex_facts _ hd1).1
        (hex_facts _ hd2).1, ih]
  | raw w r s o henc _ _ _ ih =>
    rw [List.append_assoc, rescanString_high w _ henc.2.1, ih]
    simp
  | sep w r s o henc hr _ ih =>
    simp only [List.cons_append, List.nil_append]
    have e2 : hexVal 0x32 = some 2 := by decide
    have e0 : hexVal 0x30 = some 0 := by decide
    rw [rescanString_u4 _ _ _ _ 2 0 2 (r % 16) _ e2 e0 e2 (hex_facts _ (by omega)).1, ih]

theorem quoted_lt (s o : GoString) (h : Quoted s o) : ∀ x ∈ o, x < 256 := by
  induction h with
  | nil => simp
  | safe b s o hb hs _ ih =>
    intro x hx
    simp only [List.mem_cons] at hx
    rcases hx with rfl | hx
    · omega
    · exact ih x hx
  | esc b s o hb hs _ ih =>
    intro x hx
    rw [List.mem_append] at hx
    rcases hx with hx | hx
    · rcases escapeByte_cases b hb with ⟨e, he, hse⟩ | ⟨he, hd1, hd2⟩
      · rw [he] at hx
        unfold SimpleEsc at hse
        simp only [List.mem_cons, List.mem_singleton, List.not_mem_nil, or_false] at hx
        rcases hx with rfl | rfl
        · omega
        · omega
      · rw [he] at hx
        have a1 := (hex_facts _ hd1).2.2
        have a2 := (hex_facts _ hd2).2.2
        simp only [List.mem_cons, List.mem_singleton, List.not_mem_nil, or_false] at hx
        rcases hx with rfl | rfl | rfl | rfl | rfl | rfl <;> omega
    · exact ih x hx
  | raw w r s o henc _ _ _ ih =>
    intro x hx
    rw [List.mem_append] at hx
    rcases hx with hx | hx
    · exact (henc.2.1 x hx).2
    · exact ih x hx
  | sep w r s o henc hr _ ih =>
    intro x hx
    rw [List.mem_append] at hx
    rcases hx with hx | hx
    · have a2 := (hex_facts (r % 16) (by omega)).2.2
      simp only [List.mem_cons, List.mem_singleton, List.not_mem_nil, or_false] at hx
      rcases hx with rfl | rfl | rfl | rfl | rfl | rfl <;> omega
    · exact ih x hx

/-! ## `Unmarshal` inverts `Marshal` -/

theorem skipSpace_cons (c : Nat) (r : GoString) (h : isSpace c = false) :
    skipSpace (c :: r) = c :: r := by
  rw [skipSpace]
  simp [h]

theorem unquoteBytes_quoted (s o : GoString) (h : Quoted s o) :
    unquoteBytes (0x22 :: (o ++ [0x22])) = some s := by
  unfold unquoteBytes
  have h1 : ¬ ((0x22 :: (o ++ [0x22])).length < 2 ∨ (0x22 :: (o ++ [0x22])).head? ≠ some 0x22 ∨
      (0x22 :: (o ++ [0x22])).getLast? ≠ some 0x22) := by
    have hl : (0x22 :: (o ++ [0x22])).getLast? = some 0x22 := by
      have : (0x22 :: (o ++ [0x22])) = (0x22 :: o) ++ [0x22] := rfl
      rw [this, List.getLast?_concat]
    rw [hl]
    simp
  rw [if_neg h1]
  have h2 : (List.drop 1 (0x22 :: (o ++ [0x22]))).dropLast = o := by
    simp [List.dropLast_concat]
  have h3 : (0x22 :: (o ++ [0x22])).length - 2 = o.length := by simp
  rw [h2, h3]
  exact unquoteLoop_quoted s o h o.length (le_refl _)

theorem rescanLiteral_quoted (s o rest : GoString) (h : Quoted s o) :
    rescanLiteral (0x22 :: (o ++ 0x22 :: rest)) = (0x22 :: (o ++ [0x22]), rest) := by
  rw [rescanLiteral]
  simp only [if_true]
  rw [rescanString_quoted s o h rest]

theorem value_quoted (f : Field) (v vo rest : GoString) (d : DecodeState) (h : Quoted v vo) :
    value (some f) (0x22 :: (vo ++ 0x22 :: rest)) d = some (store f v d, rest) := by
  unfold value
  simp only
  rw [if_neg (by decide), rescanLiteral_quoted v vo rest h]
  simp only [literalStore]
  rw [if_neg (by decide), if_neg (by decide), if_pos trivial, unquoteBytes_quoted v vo h]
  cases f <;> rfl

theorem objectLoop_member (fuel : Nat) (k ko v vo r2 : GoString) (c2 : Nat) (f : Field)
    (d : DecodeState) (hk : Quoted k ko) (hv : Quoted v vo) (hf : lookupField k = some f) :
    objectLoop (fuel + 1) (0x22 :: (ko ++ 0x22 :: 0x3A :: 0x22 :: (vo ++ 0x22 :: c2 :: r2))) d
      = (match skipSpace (c2 :: r2) with
        | [] => none
        | c3 :: r3 =>
          if c3 = 0x7D then some (store f v d, r3)
          else if c3 = 0x2C then objectLoop fuel r3 (store f v d)
          else none) := by
  rw [objectLoop]
  rw [skipSpace_cons _ _ (by decide)]
  simp only
  rw [if_neg (by decide), if_neg (by decide), rescanLiteral_quoted k ko _ hk]
  simp only
  rw [unquoteBytes_quoted k ko hk]
  simp only
  rw [skipSpace_cons _ _ (by decide)]
  simp only
  rw [if_neg (by decide), skipSpace_cons _ _ (by decide), hf, value_quoted f v vo _ d hv]

theorem quoted_secret_token : Quoted (ascii "secret_token") (ascii "secret_token") :=
  quoted_of_valid (ascii "secret_token") (by decide)

theorem quoted_lambda_token : Quoted (ascii "lambda_token") (ascii "lambda_token") :=
  quoted_of_valid (ascii "lambda_token") (by decide)

theorem Marshal_eq (t : NextToken) :
    Marshal t = .ok (marshalled (appendStringLoop t.SecretToken.length t.SecretToken)
      (appendStringLoop t.LambdaToken.length t.LambdaToken)) := by
  unfold Marshal marshalled appendString
  have h1 : ascii "\x7b\"secret_token\":" = 0x7B :: 0x22 :: (ascii "secret_token" ++ [0x22, 0x3A]) := by
    decide
  have h2 : ascii ",\"lambda_token\":" = 0x2C :: 0x22 :: (ascii "lambda_token" ++ [0x22, 0x3A]) := by
    decide
  have h3 : ascii "\x7d" = [0x7D] := by decide
  rw [h1, h2, h3]
  simp [List.append_assoc]

theorem checkValid_marshalled (a ao b bo : GoString) (ha : Quoted a ao) (hb : Quoted b bo) :
    checkValid (marshalled ao bo) = true := by
  unfold checkValid marshalled
  have e1 : (Scanner.mk .beginValue []).run (0x7B :: 0x22 :: ascii "secret_token")
      = some ⟨.inString, [.objectKey]⟩ := by decide
  have e2 : (Scanner.mk .inString [.objectKey]).run [0x22, 0x3A, 0x22]
      = some ⟨.inString, [.objectValue]⟩ := by decide
  have e3 : (Scanner.mk .inString [.objectValue]).run (0x22 :: 0x2C :: 0x22 :: ascii "lambda_token")
      = some ⟨.inString, [.objectKey]⟩ := by decide
  have e4 : (Scanner.mk .inString [.objectValue]).run [0x22, 0x7D] = some ⟨.endTop, []⟩ := by
    decide
  have hrun : (Scanner.mk .beginValue []).run
      ((0x7B :: 0x22 :: ascii "secret_token") ++ ([0x22, 0x3A, 0x22] ++ (ao ++
        ((0x22 :: 0x2C :: 0x22 :: ascii "lambda_token") ++ ([0x22, 0x3A, 0x22] ++ (bo ++ [0x22, 0x7D]))))))
      = some ⟨.endTop, []⟩ := by
    rw [Scanner.run_append, e1, Option.some_bind, Scanner.run_append, e2, Option.some_bind,
      Scanner.run_append, inString_quoted a ao ha, Option.some_bind, Scanner.run_append, e3,
      Option.some_bind, Scanner.run_append, e2, Option.some_bind, Scanner.run_append,
      inString_quoted b bo hb, Option.some_bind, e4]
  simp only [List.cons_append, List.nil_append, List.append_assoc] at hrun
  rw [hrun]
  rfl

theorem Unmarshal_marshalled (a ao b bo : GoString) (t0 : NextToken) (ha : Quoted a ao)
    (hb : Quoted b bo) :
    Unmarshal (marshalled ao bo) t0 = .ok ⟨a, b⟩ := by
  unfold Unmarshal
  rw [checkValid_marshalled a ao b bo ha hb]
  simp only [Bool.not_true, Bool.false_eq_true, if_false]
  have hlen : ∃ n, (marshalled ao bo).length = n + 2 := ⟨_, by simp [marshalled]; rfl⟩
  obtain ⟨n, hn⟩ := hlen
  rw [hn]
  unfold marshalled
  rw [skipSpace_cons _ _ (by decide)]
  simp only [if_true]
  rw [objectLoop_member (n + 1) (ascii "secret_token") (ascii "secret_token") a ao _ 0x2C
    .secretToken _ quoted_secret_token ha (by decide)]
  rw [skipSpace_cons _ _ (by decide)]
  simp only
  rw [if_neg (by decide), if_pos trivial]
  rw [objectLoop_member n (ascii "lambda_token") (ascii "lambda_token") b bo _ 0x7D
    .lambdaToken _ quoted_lambda_token hb (by decide)]
  rw [skipSpace_cons _ _ (by decide)]
  simp [store]

theorem marshalled_lt (a ao b bo : GoString) (ha : Quoted a ao) (hb : Quoted b bo) :
    ∀ x ∈ marshalled ao bo, x < 256 := by
  intro x hx
  unfold marshalled at hx
  have k1 : ∀ y ∈ ascii "secret_token", y < 256 := by decide
  have k2 : ∀ y ∈ ascii "lambda_token", y < 256 := by decide
  simp only [List.mem_cons, List.mem_append, List.mem_singleton, List.not_mem_nil, or_false] at hx
  rcases hx with rfl | rfl | hx | rfl | rfl | rfl | hx | rfl | rfl | rfl | hx | rfl | rfl | rfl |
    hx | rfl | rfl
  all_goals first | omega | exact k1 x hx | exact k2 x hx | exact quoted_lt a ao ha x hx |
    exact quoted_lt b bo hb x hx

end json

/-! ## The token codec -/

theorem decode_create (a b : GoString) (ha : utf8.Valid a = true) (hb : utf8.Valid b = true)
    (hne : ¬ (a = [] ∧ b = [])) :
    ∃ t, createNextToken a b = .ok t ∧ t ≠ [] ∧ decodeNextToken t = .ok ⟨a, b⟩ := by
  have qa := json.quoted_of_valid a ha
  have qb := json.quoted_of_valid b hb
  refine ⟨base64.EncodeToString (json.marshalled (json.appendStringLoop a.length a)
    (json.appendStringLoop b.length b)), ?_, ?_, ?_⟩
  · unfold createNextToken NextToken.encode
    simp only [hne, if_false, json.Marshal_eq]
  · unfold base64.EncodeToString json.marshalled
    simp [base64.Encode]
  · unfold decodeNextToken
    rw [base64.DecodeString_EncodeToString _ (json.marshalled_lt a _ b _ qa qb)]
    simp only
    rw [json.Unmarshal_marshalled a _ b _ _ qa qb]

/-- C1, as stated, fails: for the string consisting of the byte 0xFF (no valid UTF-8)
and the empty string, `createNextToken` succeeds, and `decodeNextToken` of its token
succeeds with `SecretToken` the three bytes of U+FFFD, not the byte 0xFF: `json.Marshal`
replaces invalid UTF-8 by the replacement rune. -/
theorem token_round_trip_fails_on_invalid_utf8 :
    ¬ ([0xFF] = ([] : GoString) ∧ ([] : GoString) = []) ∧
    (∃ t, createNextToken [0xFF] [] = .ok t ∧
      decodeNextToken t = .ok ⟨[0xEF, 0xBF, 0xBD], []⟩) ∧
    ¬ ∃ t, createNextToken [0xFF] [] = .ok t ∧ decodeNextToken t = .ok ⟨[0xFF], []⟩ := by
  have hc : createNextToken [0xFF] []
      = .ok (ascii "eyJzZWNyZXRfdG9rZW4iOiJcdWZmZmQiLCJsYW1iZGFfdG9rZW4iOiIifQ==") := by decide
  have hd : decodeNextToken (ascii "eyJzZWNyZXRfdG9rZW4iOiJcdWZmZmQiLCJsYW1iZGFfdG9rZW4iOiIifQ==")
      = .ok ⟨[0xEF, 0xBF, 0xBD], []⟩ := by decide
  refine ⟨by decide, ⟨_, hc, hd⟩, ?_⟩
  rintro ⟨t, h1, h2⟩
  rw [hc] at h1
  cases h1
  rw [hd] at h2
  exact absurd h2 (by decide)

/-- C1, amended. Token round-trip for text: for every pair of strings `(a, b)` that are
valid UTF-8 and not both empty, `createNextToken(a, b)` succeeds with some token `t`, and
`decodeNextToken(t)` succeeds and returns the `NextToken` whose `SecretToken` is `a` and
whose `LambdaToken` is `b`. -/
theorem token_round_trip (a b : GoString) (ha : utf8.Valid a = true)
    (hb : utf8.Valid b = true) (hne : ¬ (a = [] ∧ b = [])) :
    ∃ t, createNextToken a b = .ok t ∧ decodeNextToken t = .ok ⟨a, b⟩ := by
  obtain ⟨t, h1, -, h2⟩ := decode_create a b ha hb hne
  exact ⟨t, h1, h2⟩

/-- C1, amended, at the cursor pair (`s2`, empty). -/
theorem token_round_trip_witness :
    ∃ t, createNextToken (ascii "s2") [] = .ok t ∧ decodeNextToken t = .ok ⟨ascii "s2", []⟩ :=
  token_round_trip (ascii "s2") [] (by decide) (by decide) (by decide)

/-! ## The caller's loop over the pages the program fetches -/

theorem IsPaged.pages_pos {α : Type}
    {fetch : GoString → Machine → Except GoError (List α × GoString) × Machine}
    {cursors : List GoString} (h : IsPaged fetch cursors) : 0 < cursors.length := by
  obtain ⟨h1, -, -⟩ := h
  cases cursors with
  | nil => simp at h1
  | cons c cs => simp

theorem IsPaged.first_cursor {α : Type}
    {fetch : GoString → Machine → Except GoError (List α × GoString) × Machine}
    {cursors : List GoString} (h : IsPaged fetch cursors) : cursors.getD 0 [] = [] := by
  obtain ⟨h1, -, -⟩ := h
  cases cursors with
  | nil => simp at h1
  | cons c cs => simpa using h1

theorem IsPaged.next_cursor {α : Type}
    {fetch : GoString → Machine → Except GoError (List α × GoString) × Machine}
    {cursors : List GoString} (h : IsPaged fetch cursors) (k : Nat) :
    cursors.getD (k % cursors.length + 1) [] = cursors.getD ((k + 1) % cursors.length) [] := by
  have hpos := h.pages_pos
  have hlt : k % cursors.length < cursors.length := Nat.mod_lt _ hpos
  by_cases hlast : k % cursors.length + 1 = cursors.length
  · have h0 : (k + 1) % cursors.length = 0 := by
      rw [Nat.add_mod]
      have : k % cursors.length = cursors.length - 1 := by omega
      rw [this]
      by_cases h1 : cursors.length = 1
      · rw [h1]
      · rw [Nat.mod_eq_of_lt (show 1 < cursors.length by omega)]
        have : cursors.length - 1 + 1 = cursors.length := by omega
        rw [this, Nat.mod_self]
    rw [h0, h.first_cursor, hlast]
    exact List.getD_eq_default _ _ (le_refl _)
  · have h1 : (k + 1) % cursors.length = k % cursors.length + 1 := by
      rw [Nat.add_mod]
      by_cases h1 : cursors.length = 1
      · omega
      · rw [Nat.mod_eq_of_lt (show 1 < cursors.length by omega)]
        exact Nat.mod_eq_of_lt (by omega)
    rw [h1]

theorem requestCursors_create (a b t : GoString) (ha : utf8.Valid a = true)
    (hb : utf8.Valid b = true) (h : createNextToken a b = .ok t) :
    requestCursors t = .ok ⟨a, b⟩ := by
  unfold requestCursors
  by_cases hne : a = [] ∧ b = []
  · obtain ⟨rfl, rfl⟩ := hne
    rw [createNextToken_empty] at h
    cases h
    simp
  · obtain ⟨t1, h1, h2, h3⟩ := decode_create a b ha hb hne
    rw [h] at h1
    cases h1
    simp [h2, h3]

theorem getD_valid (cursors : List GoString) (h : ∀ c ∈ cursors, utf8.Valid c = true) (i : Nat) :
    utf8.Valid (cursors.getD i []) = true := by
  by_cases hi : i < cursors.length
  · rw [List.getD_eq_getElem _ _ hi]
    exact h _ (List.getElem_mem _)
  · rw [List.getD_eq_default _ _ (by omega)]
    decide

/-- The lockstep of the two cursors: after `k` requests the caller holds the token of the
cursor pair of secret page `k mod M` and function page `k mod N` (counted from 0). -/
theorem envPagination_lockstep (w : World) (sc lc : List GoString)
    (hS : IsPaged (getAllSecretValues w) sc) (hL : IsPaged (getAllLambdaEnvs w) lc)
    (hvs : ∀ c ∈ sc, utf8.Valid c = true) (hvl : ∀ c ∈ lc, utf8.Valid c = true) (k : Nat) :
    ∃ t m, envPagination w k = some (t, m) ∧
      createNextToken (sc.getD (k % sc.length) []) (lc.getD (k % lc.length) []) = .ok t ∧
      requestCursors t = .ok ⟨sc.getD (k % sc.length) [], lc.getD (k % lc.length) []⟩ := by
  induction k with
  | zero =>
    refine ⟨[], Machine.init, rfl, ?_, ?_⟩
    · simp only [Nat.zero_mod, hS.first_cursor, hL.first_cursor]
      exact createNextToken_empty
    · simp only [Nat.zero_mod, hS.first_cursor, hL.first_cursor]
      simp [requestCursors]
  | succ k ih =>
    obtain ⟨t, m, hk, -, hreq⟩ := ih
    obtain ⟨secrets, m1, hs⟩ := hS.2.2 (k % sc.length) (Nat.mod_lt _ hS.pages_pos) m
    obtain ⟨envs, m2, he⟩ := hL.2.2 (k % lc.length) (Nat.mod_lt _ hL.pages_pos) m1
    obtain ⟨next, hnext, hscan⟩ := getExposedSecretsInEnv_of_pages w
      ⟨sc.getD (k % sc.length) [], lc.getD (k % lc.length) []⟩ m m1 m2 secrets _ envs _ hs he
    rw [hS.next_cursor k, hL.next_cursor k] at hnext
    refine ⟨next, m2, ?_, hnext, ?_⟩
    · rw [envPagination, hk]
      simp only
      unfold requestCursors at hreq
      simp only [getExposedSecretInEnvHandler, hreq, hscan]
    · exact requestCursors_create _ _ _ (getD_valid sc hvs _) (getD_valid lc hvl _) hnext

/-! ## One request over fetched pages, and the token that never changes -/

theorem handler_of_pages (w : World) (t a b : GoString) (m m1 m2 : Machine)
    (secrets : List Secret) (secretNext : GoString) (envs : List LambdaEnv)
    (lambdaNext : GoString) (hreq : requestCursors t = .ok ⟨a, b⟩)
    (hs : getAllSecretValues w a m = (.ok (secrets, secretNext), m1))
    (he : getAllLambdaEnvs w b m1 = (.ok (envs, lambdaNext), m2)) :
    ∃ next, createNextToken secretNext lambdaNext = .ok next ∧
      getExposedSecretInEnvHandler w t m
        = (⟨200, .ok ⟨envs.filterMap (envFinding secrets), next⟩⟩, m2) := by
  obtain ⟨next, hnext, hscan⟩ := getExposedSecretsInEnv_of_pages w ⟨a, b⟩ m m1 m2 secrets
    secretNext envs lambdaNext hs he
  refine ⟨next, hnext, ?_⟩
  unfold requestCursors at hreq
  simp only [getExposedSecretInEnvHandler, hreq, hscan]

theorem stuckToken_step (m : Machine) :
    ∃ m2, getExposedSecretInEnvHandler World.invalidCursor stuckToken m
      = (⟨200, .ok ⟨[LambdaEnv.mk (ascii "f0") (ascii "arn:f0") [(ascii "HOME", ascii "/root")],
          LambdaEnv.mk (ascii "f1") (ascii "arn:f1")
            [(ascii "DB_PASSWORD", ascii "pw123")]].filterMap
          (envFinding [⟨ascii "db", ascii "arn:db", ⟨ascii "password", ascii "pw123"⟩⟩]),
          stuckToken⟩⟩, m2) := by
  have hreq : requestCursors stuckToken = .ok ⟨[0xEF, 0xBF, 0xBD], []⟩ := by decide
  obtain ⟨next, hnext, h⟩ := handler_of_pages World.invalidCursor stuckToken _ _ m _ _ _ _ _ _
    hreq rfl rfl
  have hn : createNextToken [0xFF] [] = .ok stuckToken := by decide
  have hnext' : createNextToken [0xFF] [] = .ok next := hnext
  rw [hn] at hnext'
  cases hnext'
  exact ⟨_, h⟩

theorem stuckToken_forever (k : Nat) :
    ∃ m, envPagination World.invalidCursor (k + 2) = some (stuckToken, m) := by
  induction k with
  | zero =>
    have h : (envPagination World.invalidCursor 2).map Prod.fst = some stuckToken := by decide
    cases h2 : envPagination World.invalidCursor 2 with
    | none => simp [h2] at h
    | some p =>
      obtain ⟨t, m⟩ := p
      simp only [h2, Option.map_some', Option.some.injEq] at h
      exact ⟨m, by rw [h]⟩
  | succ k ih =>
    obtain ⟨m, hm⟩ := ih
    obtain ⟨m2, h2⟩ := stuckToken_step m
    refine ⟨m2, ?_⟩
    rw [envPagination, hm]
    simp only [h2]

/-! ## Page numbers in lockstep -/

theorem not_second_with_first (M N k : Nat) (hg : Nat.gcd M N ≠ 1) :
    ¬ (k % M = 1 ∧ k % N = 0) := by
  rintro ⟨h1, h2⟩
  apply hg
  have d1 : Nat.gcd M N ∣ M := Nat.gcd_dvd_left M N
  have d2 : Nat.gcd M N ∣ N := Nat.gcd_dvd_right M N
  have d3 : Nat.gcd M N ∣ k := Nat.dvd_trans d2 (Nat.dvd_of_mod_eq_zero h2)
  have hk : k = M * (k / M) + 1 := by
    have := Nat.div_add_mod k M
    omega
  have d4 : Nat.gcd M N ∣ M * (k / M) := Dvd.dvd.mul_right d1 _
  have d5 : Nat.gcd M N ∣ 1 := by
    rw [hk] at d3
    exact (Nat.dvd_add_right d4).1 d3
  exact Nat.dvd_one.1 d5

/-! ## From the upstream pages to the pages the program fetches -/

theorem Paged.length_pos {α : Type} {list : Option GoString → Except GoError α}
    {next : α → Option GoString} {cursors : List GoString} (h : Paged list next cursors) :
    0 < cursors.length := by
  obtain ⟨h1, -, -⟩ := h
  cases cursors with
  | nil => simp at h1
  | cons c cs => simp

theorem Paged.getD_zero {α : Type} {list : Option GoString → Except GoError α}
    {next : α → Option GoString} {cursors : List GoString} (h : Paged list next cursors) :
    cursors.getD 0 [] = [] := by
  obtain ⟨h1, -, -⟩ := h
  cases cursors with
  | nil => simp at h1
  | cons c cs => simpa using h1

theorem Paged.input_eq {α : Type} {list : Option GoString → Except GoError α}
    {next : α → Option GoString} {cursors : List GoString} (h : Paged list next cursors)
    (i : Nat) (hi : i < cursors.length) :
    (if cursors.getD i [] ≠ [] then some (cursors.getD i []) else none)
      = upstreamCursor cursors i := by
  unfold upstreamCursor
  by_cases h0 : i = 0
  · subst h0
    rw [if_pos rfl, if_neg (not_not.2 h.getD_zero)]
  · rw [if_neg h0, if_pos (h.2.1 i (by omega) hi)]

theorem getSecretFromSecret_ok (w : World) (secret : SecretListEntry) (m : Machine)
    (hr : ∃ v, w.GetSecretValue secret.ARN = .ok v)
    (hf : ∀ s, w.GetSecretValue secret.ARN = .ok (some s) → ∃ kvs, w.secretsMap s = .ok kvs) :
    ∃ r m1, getSecretFromSecret w secret m = (.ok r, m1) := by
  obtain ⟨v, hv⟩ := hr
  unfold getSecretFromSecret
  cases v with
  | none =>
    simp only [hv]
    exact ⟨_, _, rfl⟩
  | some s =>
    obtain ⟨kvs, hk⟩ := hf s hv
    simp only [hv, getSecretsFromJSONString, hk]
    exact ⟨_, _, rfl⟩

theorem getAllSecretValuesLoop_ok (w : World) (entries : List SecretListEntry)
    (hr : ∀ secret ∈ entries, ∃ v, w.GetSecretValue secret.ARN = .ok v)
    (hf : ∀ secret ∈ entries, ∀ s, w.GetSecretValue secret.ARN = .ok (some s) →
      ∃ kvs, w.secretsMap s = .ok kvs) :
    ∀ (acc : List Secret) (m : Machine),
      ∃ secrets m1, getAllSecretValuesLoop w entries acc m = (.ok secrets, m1) := by
  induction entries with
  | nil => intro acc m; exact ⟨_, _, rfl⟩
  | cons e rest ih =>
    intro acc m
    obtain ⟨r, m1, h1⟩ := getSecretFromSecret_ok w e m (hr e (by simp)) (hf e (by simp))
    obtain ⟨secrets, m2, h2⟩ := ih (fun s hs => hr s (by simp [hs]))
      (fun s hs => hf s (by simp [hs])) (acc ++ r) m1
    exact ⟨secrets, m2, by rw [getAllSecretValuesLoop, h1]; exact h2⟩

theorem isPaged_getAllSecretValues (w : World) (sc : List GoString)
    (hp : Paged w.ListSecrets (fun out => out.NextToken) sc) (hr : VaultReadable w sc)
    (hf : SecretsFlat w sc) : IsPaged (getAllSecretValues w) sc := by
  refine ⟨hp.1, hp.2.1, ?_⟩
  intro i hi m
  obtain ⟨out, ho, hn⟩ := hp.2.2 i hi
  obtain ⟨secrets, m1, hl⟩ := getAllSecretValuesLoop_ok w out.SecretList (hr i hi out ho)
    (hf i hi out ho) [] (m.log (.ListSecrets (upstreamCursor sc i)))
  refine ⟨secrets, m1, ?_⟩
  unfold getAllSecretValues
  simp only [hp.input_eq i hi, ho, hl, aws.ToString]
  rw [← hn]

theorem getAllLambdaEnvsLoop_ok (w : World) (functions : List FunctionConfiguration)
    (hr : ∀ function ∈ functions, ∃ v, w.GetFunctionConfiguration function.FunctionName = .ok v) :
    ∀ (acc : List LambdaEnv) (m : Machine),
      ∃ envs m1, getAllLambdaEnvsLoop w functions acc m = (.ok envs, m1) := by
  induction functions with
  | nil => intro acc m; exact ⟨_, _, rfl⟩
  | cons f rest ih =>
    intro acc m
    obtain ⟨v, hv⟩ := hr f (by simp)
    cases v with
    | none =>
      obtain ⟨envs, m2, h2⟩ := ih (fun s hs => hr s (by simp [hs])) acc
        (m.log (.GetFunctionConfiguration f.FunctionName))
      exact ⟨envs, m2, by rw [getAllLambdaEnvsLoop]; simp only [getEnvForLambda, hv]; exact h2⟩
    | some vars =>
      obtain ⟨envs, m2, h2⟩ := ih (fun s hs => hr s (by simp [hs]))
        (acc ++ [⟨f.FunctionName, f.FunctionArn, vars⟩])
        (m.log (.GetFunctionConfiguration f.FunctionName))
      exact ⟨envs, m2, by rw [getAllLambdaEnvsLoop]; simp only [getEnvForLambda, hv]; exact h2⟩

theorem isPaged_getAllLambdaEnvs (w : World) (lc : List GoString)
    (hp : Paged (fun c => w.ListFunctions c none) (fun out => out.NextMarker) lc)
    (hr : RegistryReadable w lc) : IsPaged (getAllLambdaEnvs w) lc := by
  refine ⟨hp.1, hp.2.1, ?_⟩
  intro i hi m
  obtain ⟨out, ho, hn⟩ := hp.2.2 i hi
  obtain ⟨envs, m1, hl⟩ := getAllLambdaEnvsLoop_ok w out.Functions (hr i hi out ho) []
    (m.log (.ListFunctions (upstreamCursor lc i) none))
  refine ⟨envs, m1, ?_⟩
  unfold getAllLambdaEnvs
  simp only at ho
  simp only [hp.input_eq i hi, ho, hl, aws.ToString]
  rw [← hn]

/-! ## What one request asks of the upstream -/

theorem getAllSecretValues_inv (w : World) (c : GoString) (m m1 : Machine)
    (secrets : List Secret) (next : GoString)
    (h : getAllSecretValues w c m = (.ok (secrets, next), m1)) :
    ∃ out, w.ListSecrets (if c ≠ [] then some c else none) = .ok out ∧
      next = out.NextToken.getD [] := by
  unfold getAllSecretValues at h
  simp only at h
  cases ho : w.ListSecrets (if c ≠ [] then some c else none) with
  | error e => rw [ho] at h; simp at h
  | ok out =>
    rw [ho] at h
    simp only at h
    refine ⟨out, rfl, ?_⟩
    rcases hl : getAllSecretValuesLoop w out.SecretList []
      (m.log (.ListSecrets (if c ≠ [] then some c else none))) with ⟨r | r, m2⟩
    · rw [hl] at h; simp at h
    · rw [hl] at h
      simp only [Prod.mk.injEq, Except.ok.injEq, aws.ToString] at h
      exact h.1.2.symm

theorem getAllLambdaEnvs_inv (w : World) (c : GoString) (m m1 : Machine)
    (envs : List LambdaEnv) (next : GoString)
    (h : getAllLambdaEnvs w c m = (.ok (envs, next), m1)) :
    ∃ out, w.ListFunctions (if c ≠ [] then some c else none) none = .ok out ∧
      next = out.NextMarker.getD [] := by
  unfold getAllLambdaEnvs at h
  simp only at h
  cases ho : w.ListFunctions (if c ≠ [] then some c else none) none with
  | error e => rw [ho] at h; simp at h
  | ok out =>
    rw [ho] at h
    simp only at h
    refine ⟨out, rfl, ?_⟩
    rcases hl : getAllLambdaEnvsLoop w out.Functions []
      (m.log (.ListFunctions (if c ≠ [] then some c else none) none)) with ⟨r | r, m2⟩
    · rw [hl] at h; simp at h
    · rw [hl] at h
      simp only [Prod.mk.injEq, Except.ok.injEq, aws.ToString] at h
      exact h.1.2.symm

theorem getExposedSecretsInEnv_inv (w : World) (token : NextToken) (m m2 : Machine)
    (resp : SecretsInLambda) (h : getExposedSecretsInEnv w token m = (.ok resp, m2)) :
    ∃ secrets secretNext m1 envs lambdaNext,
      getAllSecretValues w token.SecretToken m = (.ok (secrets, secretNext), m1) ∧
      getAllLambdaEnvs w token.LambdaToken m1 = (.ok (envs, lambdaNext), m2) ∧
      createNextToken secretNext lambdaNext = .ok resp.NextToken := by
  unfold getExposedSecretsInEnv at h
  rcases hs : getAllSecretValues w token.SecretToken m with ⟨r | ⟨secrets, sn⟩, m1⟩
  · rw [hs] at h; simp at h
  · rw [hs] at h
    simp only at h
    rcases he : getAllLambdaEnvs w token.LambdaToken m1 with ⟨r | ⟨envs, ln⟩, m3⟩
    · rw [he] at h; simp at h
    · rw [he] at h
      simp only at h
      cases hc : createNextToken sn ln with
      | error e => rw [hc] at h; simp at h
      | ok next =>
        rw [hc] at h
        simp only [Prod.mk.injEq, Except.ok.injEq] at h
        obtain ⟨h1, h2⟩ := h
        subst h1 h2
        exact ⟨secrets, sn, m1, envs, ln, rfl, he, hc⟩

theorem envPagination_succ_inv (w : World) (k : Nat) (t1 : GoString) (m1 : Machine)
    (h : envPagination w (k + 1) = some (t1, m1)) :
    ∃ t m token resp, envPagination w k = some (t, m) ∧ requestCursors t = .ok token ∧
      getExposedSecretsInEnv w token m = (.ok resp, m1) ∧ resp.NextToken = t1 ∧
      getExposedSecretInEnvHandler w t m = (⟨200, .ok resp⟩, m1) := by
  rw [envPagination] at h
  cases hk : envPagination w k with
  | none => rw [hk] at h; simp at h
  | some p =>
    obtain ⟨t, m⟩ := p
    rw [hk] at h
    simp only at h
    cases hreq : requestCursors t with
    | error e =>
      have hh : getExposedSecretInEnvHandler w t m = (⟨500, .error e⟩, m) := by
        unfold requestCursors at hreq
        simp only [getExposedSecretInEnvHandler, hreq]
      rw [hh] at h
      simp at h
    | ok token =>
      rcases hs : getExposedSecretsInEnv w token m with ⟨e | resp, m2⟩
      · have hh : getExposedSecretInEnvHandler w t m = (⟨500, .error e⟩, m2) := by
          unfold requestCursors at hreq
          simp only [getExposedSecretInEnvHandler, hreq, hs]
        rw [hh] at h
        simp at h
      · have hh : getExposedSecretInEnvHandler w t m = (⟨200, .ok resp⟩, m2) := by
          unfold requestCursors at hreq
          simp only [getExposedSecretInEnvHandler, hreq, hs]
        rw [hh] at h
        simp only [Option.some.injEq, Prod.mk.injEq] at h
        obtain ⟨h1, h2⟩ := h
        subst h1 h2
        exact ⟨t, m, token, resp, rfl, hreq, hs, rfl, hh⟩

theorem getD_succ_mod (cursors : List GoString) (hpos : 0 < cursors.length)
    (h0 : cursors.getD 0 [] = []) (k : Nat) :
    cursors.getD (k % cursors.length + 1) [] = cursors.getD ((k + 1) % cursors.length) [] := by
  have hlt : k % cursors.length < cursors.length := Nat.mod_lt _ hpos
  by_cases hlast : k % cursors.length + 1 = cursors.length
  · have e0 : (k + 1) % cursors.length = 0 := by
      rw [Nat.add_mod]
      have : k % cursors.length = cursors.length - 1 := by omega
      rw [this]
      by_cases h1 : cursors.length = 1
      · rw [h1]
      · rw [Nat.mod_eq_of_lt (show 1 < cursors.length by omega)]
        have : cursors.length - 1 + 1 = cursors.length := by omega
        rw [this, Nat.mod_self]
    rw [e0, h0, hlast]
    exact List.getD_eq_default _ _ (le_refl _)
  · have h1 : (k + 1) % cursors.length = k % cursors.length + 1 := by
      rw [Nat.add_mod]
      by_cases h1 : cursors.length = 1
      · omega
      · rw [Nat.mod_eq_of_lt (show 1 < cursors.length by omega)]
        exact Nat.mod_eq_of_lt (by omega)
    rw [h1]

/-- The lockstep of the two cursors, from the upstream pages alone: whenever the caller
gets to hold a token after `k` requests, it is the token of the cursor pair of secret
page `k mod M` and function page `k mod N` (counted from 0). -/
theorem envPagination_cursors (w : World) (sc lc : List GoString)
    (hS : Paged w.ListSecrets (fun out => out.NextToken) sc)
    (hL : Paged (fun c => w.ListFunctions c none) (fun out => out.NextMarker) lc)
    (hvs : ∀ c ∈ sc, utf8.Valid c = true) (hvl : ∀ c ∈ lc, utf8.Valid c = true) :
    ∀ (k : Nat) (t : GoString) (m : Machine), envPagination w k = some (t, m) →
      createNextToken (sc.getD (k % sc.length) []) (lc.getD (k % lc.length) []) = .ok t ∧
      requestCursors t = .ok ⟨sc.getD (k % sc.length) [], lc.getD (k % lc.length) []⟩ := by
  intro k
  induction k with
  | zero =>
    intro t m h
    simp only [envPagination, Option.some.injEq, Prod.mk.injEq] at h
    rw [← h.1]
    simp only [Nat.zero_mod, hS.getD_zero, hL.getD_zero]
    exact ⟨createNextToken_empty, by simp [requestCursors]⟩
  | succ k ih =>
    intro t1 m1 h
    obtain ⟨t, m, token, resp, hk, hreq, hscan, hnext, -⟩ := envPagination_succ_inv w k t1 m1 h
    obtain ⟨-, hreq'⟩ := ih t m hk
    rw [hreq] at hreq'
    cases hreq'
    obtain ⟨secrets, sn, m2, envs, ln, hs, he, hc⟩ := getExposedSecretsInEnv_inv w _ m m1 resp
      hscan
    obtain ⟨out, ho, hsn⟩ := getAllSecretValues_inv w _ m m2 secrets sn hs
    obtain ⟨outL, hoL, hln⟩ := getAllLambdaEnvs_inv w _ m2 m1 envs ln he
    simp only at ho hoL
    rw [hS.input_eq _ (Nat.mod_lt _ hS.length_pos)] at ho
    rw [hL.input_eq _ (Nat.mod_lt _ hL.length_pos)] at hoL
    obtain ⟨out', ho', hn'⟩ := hS.2.2 _ (Nat.mod_lt k hS.length_pos)
    obtain ⟨outL', hoL', hnL'⟩ := hL.2.2 _ (Nat.mod_lt k hL.length_pos)
    simp only at hoL'
    rw [ho] at ho'
    rw [hoL] at hoL'
    cases ho'
    cases hoL'
    simp only at hn' hnL'
    rw [hsn, hln, hn', hnL', getD_succ_mod sc hS.length_pos hS.getD_zero k,
      getD_succ_mod lc hL.length_pos hL.getD_zero k, hnext] at hc
    exact ⟨hc, requestCursors_create _ _ _ (getD_valid sc hvs _) (getD_valid lc hvl _) hc⟩

/-! ## The page fetches of one request -/

theorem getSecretFromSecret_machine (w : World) (secret : SecretListEntry) (m : Machine) :
    (getSecretFromSecret w secret m).2 = m.log (.GetSecretValue secret.ARN) := by
  unfold getSecretFromSecret
  simp only
  split
  · rfl
  · rfl
  · split <;> rfl

theorem getAllSecretValuesLoop_calls (w : World) (entries : List SecretListEntry) :
    ∀ (acc : List Secret) (m : Machine), ∃ gs,
      (getAllSecretValuesLoop w entries acc m).2.calls = m.calls ++ gs ∧
      ∀ x ∈ gs, Call.isListing x = false := by
  induction entries with
  | nil => intro acc m; exact ⟨[], by simp [getAllSecretValuesLoop], by simp⟩
  | cons e rest ih =>
    intro acc m
    have hm := getSecretFromSecret_machine w e m
    rw [getAllSecretValuesLoop]
    rcases hs : getSecretFromSecret w e m with ⟨r | r, m1⟩
    · rw [hs] at hm
      simp only at hm
      subst hm
      exact ⟨[.GetSecretValue e.ARN], by simp [Machine.log], by simp [Call.isListing]⟩
    · rw [hs] at hm
      simp only at hm
      subst hm
      obtain ⟨gs, h1, h2⟩ := ih (acc ++ r) (m.log (.GetSecretValue e.ARN))
      refine ⟨.GetSecretValue e.ARN :: gs, ?_, ?_⟩
      · simp only
        rw [h1]
        simp [Machine.log]
      · intro x hx
        simp only [List.mem_cons] at hx
        rcases hx with rfl | hx
        · rfl
        · exact h2 x hx

theorem getAllSecretValues_calls (w : World) (c : GoString) (m : Machine) :
    ∃ gs, (getAllSecretValues w c m).2.calls
        = m.calls ++ .ListSecrets (if c ≠ [] then some c else none) :: gs ∧
      ∀ x ∈ gs, Call.isListing x = false := by
  unfold getAllSecretValues
  simp only
  cases ho : w.ListSecrets (if c ≠ [] then some c else none) with
  | error e => exact ⟨[], by simp [Machine.log], by simp⟩
  | ok out =>
    simp only
    obtain ⟨gs, h1, h2⟩ := getAllSecretValuesLoop_calls w out.SecretList []
      (m.log (.ListSecrets (if c ≠ [] then some c else none)))
    refine ⟨gs, ?_, h2⟩
    rcases hl : getAllSecretValuesLoop w out.SecretList []
      (m.log (.ListSecrets (if c ≠ [] then some c else none))) with ⟨r | r, m2⟩
    · rw [hl] at h1
      simp only at h1 ⊢
      rw [h1]
      simp [Machine.log]
    · rw [hl] at h1
      simp only at h1 ⊢
      rw [h1]
      simp [Machine.log]

theorem getEnvForLambda_machine (w : World) (function : FunctionConfiguration) (m : Machine) :
    (getEnvForLambda w function m).2 = m.log (.GetFunctionConfiguration function.FunctionName) := by
  unfold getEnvForLambda
  simp only
  split <;> rfl

theorem getAllLambdaEnvsLoop_calls (w : World) (functions : List FunctionConfiguration) :
    ∀ (acc : List LambdaEnv) (m : Machine), ∃ gs,
      (getAllLambdaEnvsLoop w functions acc m).2.calls = m.calls ++ gs ∧
      ∀ x ∈ gs, Call.isListing x = false := by
  induction functions with
  | nil => intro acc m; exact ⟨[], by simp [getAllLambdaEnvsLoop], by simp⟩
  | cons f rest ih =>
    intro acc m
    have hm := getEnvForLambda_machine w f m
    rw [getAllLambdaEnvsLoop]
    rcases hs : getEnvForLambda w f m with ⟨r | r, m1⟩
    · rw [hs] at hm
      simp only at hm
      subst hm
      exact ⟨[.GetFunctionConfiguration f.FunctionName], by simp [Machine.log],
        by simp [Call.isListing]⟩
    · rw [hs] at hm
      simp only at hm
      subst hm
      cases r with
      | none =>
        obtain ⟨gs, h1, h2⟩ := ih acc (m.log (.GetFunctionConfiguration f.FunctionName))
        refine ⟨.GetFunctionConfiguration f.FunctionName :: gs, ?_, ?_⟩
        · simp only
          rw [h1]
          simp [Machine.log]
        · intro x hx
          simp only [List.mem_cons] at hx
          rcases hx with rfl | hx
          · rfl
          · exact h2 x hx
      | some env =>
        obtain ⟨gs, h1, h2⟩ := ih (acc ++ [env]) (m.log (.GetFunctionConfiguration f.FunctionName))
        refine ⟨.GetFunctionConfiguration f.FunctionName :: gs, ?_, ?_⟩
        · simp only
          rw [h1]
          simp [Machine.log]
        · intro x hx
          simp only [List.mem_cons] at hx
          rcases hx with rfl | hx
          · rfl
          · exact h2 x hx

theorem getAllLambdaEnvs_calls (w : World) (c : GoString) (m : Machine) :
    ∃ gs, (getAllLambdaEnvs w c m).2.calls
        = m.calls ++ .ListFunctions (if c ≠ [] then some c else none) none :: gs ∧
      ∀ x ∈ gs, Call.isListing x = false := by
  unfold getAllLambdaEnvs
  simp only
  cases ho : w.ListFunctions (if c ≠ [] then some c else none) none with
  | error e => exact ⟨[], by simp [Machine.log], by simp⟩
  | ok out =>
    simp only
    obtain ⟨gs, h1, h2⟩ := getAllLambdaEnvsLoop_calls w out.Functions []
      (m.log (.ListFunctions (if c ≠ [] then some c else none) none))
    refine ⟨gs, ?_, h2⟩
    rcases hl : getAllLambdaEnvsLoop w out.Functions []
      (m.log (.ListFunctions (if c ≠ [] then some c else none) none)) with ⟨r | r, m2⟩
    · rw [hl] at h1
      simp only at h1 ⊢
      rw [h1]
      simp [Machine.log]
    · rw [hl] at h1
      simp only at h1 ⊢
      rw [h1]
      simp [Machine.log]

theorem filter_isListing_eq_nil (gs : List Call) (h : ∀ x ∈ gs, Call.isListing x = false) :
    gs.filter Call.isListing = [] := by
  rw [List.filter_eq_nil_iff]
  intro x hx
  simp [h x hx]

theorem listingCalls_of_append (m m1 : Machine) (xs : List Call)
    (h : m1.calls = m.calls ++ xs) : listingCalls m m1 = xs.filter Call.isListing := by
  unfold listingCalls
  rw [h, List.drop_left]

/-- The page fetches of one scan: `ListSecrets` with the secret cursor of the token (no
cursor when it is empty), then, unless the fetch of the secrets failed, `ListFunctions`
with the function cursor of the token; both when the scan succeeds. -/
theorem getExposedSecretsInEnv_listing (w : World) (token : NextToken) (m : Machine) :
    ∃ rest, listingCalls m (getExposedSecretsInEnv w token m).2
        = .ListSecrets (if token.SecretToken ≠ [] then some token.SecretToken else none) :: rest ∧
      (rest = [] ∨ rest = [.ListFunctions
        (if token.LambdaToken ≠ [] then some token.LambdaToken else none) none]) ∧
      ((∃ resp, (getExposedSecretsInEnv w token m).1 = .ok resp) → rest = [.ListFunctions
        (if token.LambdaToken ≠ [] then some token.LambdaToken else none) none]) := by
  obtain ⟨gs, hgs, hgs2⟩ := getAllSecretValues_calls w token.SecretToken m
  unfold getExposedSecretsInEnv
  rcases hs : getAllSecretValues w token.SecretToken m with ⟨r | ⟨secrets, sn⟩, m1⟩
  · rw [hs] at hgs
    simp only at hgs ⊢
    refine ⟨[], ?_, Or.inl rfl, ?_⟩
    · rw [listingCalls_of_append m m1 _ hgs, List.filter_cons]
      simp [Call.isListing, filter_isListing_eq_nil gs hgs2]
    · rintro ⟨resp, h⟩
      simp at h
  · rw [hs] at hgs
    simp only at hgs ⊢
    obtain ⟨gf, hgf, hgf2⟩ := getAllLambdaEnvs_calls w token.LambdaToken m1
    have hlist : ∀ m2 : Machine, m2 = (getAllLambdaEnvs w token.LambdaToken m1).2 →
        listingCalls m m2
          = [.ListSecrets (if token.SecretToken ≠ [] then some token.SecretToken else none),
            .ListFunctions (if token.LambdaToken ≠ [] then some token.LambdaToken else none)
              none] := by
      intro m2 hm2
      have hc : m2.calls = m.calls ++ (.ListSecrets
          (if token.SecretToken ≠ [] then some token.SecretToken else none) :: gs ++
          .ListFunctions (if token.LambdaToken ≠ [] then some token.LambdaToken else none)
            none :: gf) := by
        rw [hm2, hgf, hgs]
        simp
      rw [listingCalls_of_append m m2 _ hc, List.filter_append, List.filter_cons, List.filter_cons]
      simp [Call.isListing, filter_isListing_eq_nil gs hgs2, filter_isListing_eq_nil gf hgf2]
    refine ⟨_, ?_, Or.inr rfl, fun _ => rfl⟩
    rcases he : getAllLambdaEnvs w token.LambdaToken m1 with ⟨r | ⟨envs, ln⟩, m2⟩
    · simp only
      exact hlist m2 (by rw [he])
    · simp only
      cases hc : createNextToken sn ln with
      | error e => simp only; exact hlist m2 (by rw [he])
      | ok next => simp only; exact hlist m2 (by rw [he])

theorem handler_eq_scan (w : World) (t : GoString) (token : NextToken) (m : Machine)
    (h : requestCursors t = .ok token) :
    (getExposedSecretInEnvHandler w t m).2 = (getExposedSecretsInEnv w token m).2 ∧
    ((getExposedSecretInEnvHandler w t m).1.status = 200 →
      ∃ resp, (getExposedSecretsInEnv w token m).1 = .ok resp) := by
  unfold requestCursors at h
  rcases hs : getExposedSecretsInEnv w token m with ⟨e | resp, m2⟩
  · simp [getExposedSecretInEnvHandler, h, hs]
  · simp [getExposedSecretInEnvHandler, h, hs]

/-! ## No two pages share a cursor -/

theorem Paged.shift {α : Type} {list : Option GoString → Except GoError α}
    {next : α → Option GoString} {cursors : List GoString} (h : Paged list next cursors)
    (i j : Nat) (hi0 : 0 < i) (hj0 : 0 < j)
    (hij : cursors.getD i [] = cursors.getD j []) (d : Nat) (hi : i + d ≤ cursors.length)
    (hj : j + d ≤ cursors.length) : cursors.getD (i + d) [] = cursors.getD (j + d) [] := by
  induction d with
  | zero => exact hij
  | succ d ih =>
    have e := ih (by omega) (by omega)
    obtain ⟨x1, h1, n1⟩ := h.2.2 (i + d) (by omega)
    obtain ⟨x2, h2, n2⟩ := h.2.2 (j + d) (by omega)
    have hu : upstreamCursor cursors (i + d) = upstreamCursor cursors (j + d) := by
      unfold upstreamCursor
      rw [if_neg (by omega), if_neg (by omega), e]
    rw [hu, h2] at h1
    cases h1
    have e2 : cursors.getD (i + d + 1) [] = cursors.getD (j + d + 1) [] := by rw [← n1, ← n2]
    exact e2

theorem Paged.injective_lt {α : Type} {list : Option GoString → Except GoError α}
    {next : α → Option GoString} {cursors : List GoString} (h : Paged list next cursors)
    (i j : Nat) (hij : i < j) (hj : j < cursors.length) :
    cursors.getD i [] ≠ cursors.getD j [] := by
  intro he
  by_cases hi0 : i = 0
  · subst hi0
    rw [h.getD_zero] at he
    exact h.2.1 j hij hj he.symm
  · have e := h.shift i j (by omega) (by omega) he (cursors.length - j) (by omega) (by omega)
    have e1 : cursors.getD (j + (cursors.length - j)) [] = [] :=
      List.getD_eq_default _ _ (by omega)
    rw [e1] at e
    exact h.2.1 (i + (cursors.length - j)) (by omega) (by omega) e

theorem Paged.injective {α : Type} {list : Option GoString → Except GoError α}
    {next : α → Option GoString} {cursors : List GoString} (h : Paged list next cursors)
    (i j : Nat) (hi : i < cursors.length) (hj : j < cursors.length)
    (he : cursors.getD i [] = cursors.getD j []) : i = j := by
  rcases Nat.lt_trichotomy i j with hlt | heq | hgt
  · exact absurd he (h.injective_lt i j hlt hj)
  · exact heq
  · exact absurd he.symm (h.injective_lt j i hgt hi)

theorem Paged.upstreamCursor_injective {α : Type} {list : Option GoString → Except GoError α}
    {next : α → Option GoString} {cursors : List GoString} (h : Paged list next cursors)
    (i j : Nat) (hi : i < cursors.length) (hj : j < cursors.length)
    (he : upstreamCursor cursors i = upstreamCursor cursors j) : i = j := by
  unfold upstreamCursor at he
  by_cases hi0 : i = 0
  · by_cases hj0 : j = 0
    · omega
    · rw [if_pos hi0, if_neg hj0] at he
      cases he
  · by_cases hj0 : j = 0
    · rw [if_neg hi0, if_pos hj0] at he
      cases he
    · rw [if_neg hi0, if_neg hj0] at he
      exact h.injective i j hi hj (Option.some.inj he)

/-! ## Termination of the caller's loop over the upstream pages -/

theorem envPagination_none (w : World) (k : Nat) (h : envPagination w k = none) :
    ∀ d, envPagination w (k + d) = none := by
  intro d
  induction d with
  | zero => exact h
  | succ d ih =>
    have : k + (d + 1) = (k + d) + 1 := by omega
    rw [this, envPagination, ih]

theorem pages_invalidCursor :
    Paged World.invalidCursor.ListSecrets (fun out => out.NextToken)
      [[], [0xEF, 0xBF, 0xBD], [0xFF]] ∧
    VaultReadable World.invalidCursor [[], [0xEF, 0xBF, 0xBD], [0xFF]] ∧
    SecretsFlat World.invalidCursor [[], [0xEF, 0xBF, 0xBD], [0xFF]] ∧
    Paged (fun c => World.invalidCursor.ListFunctions c none) (fun out => out.NextMarker) [[]] ∧
    RegistryReadable World.invalidCursor [[]] := by
  refine ⟨⟨rfl, ?_, ?_⟩, ?_, ?_, ⟨rfl, ?_, ?_⟩, ?_⟩
  · intro i h1 h2
    simp only [List.length_cons, List.length_nil] at h2
    interval_cases i <;> decide
  · intro i h
    simp only [List.length_cons, List.length_nil] at h
    interval_cases i
    · exact ⟨_, rfl, rfl⟩
    · exact ⟨_, rfl, rfl⟩
    · exact ⟨_, rfl, rfl⟩
  · intro i _ out _ secret _
    exact ⟨_, rfl⟩
  · intro i _ out _ secret _ s _
    exact ⟨_, rfl⟩
  · intro i h1 h2
    simp only [List.length_cons, List.length_nil] at h2
    omega
  · intro i h
    simp only [List.length_cons, List.length_nil] at h
    interval_cases i
    exact ⟨_, rfl, rfl⟩
  · intro i _ out _ function _
    show ∃ v, (if function.FunctionName = ascii "f1" then _ else _) = Except.ok v
    split <;> exact ⟨_, rfl⟩

theorem pages_plainTextSecret :
    Paged World.plainTextSecret.ListSecrets (fun out => out.NextToken) [[]] ∧
    VaultReadable World.plainTextSecret [[]] ∧
    Paged (fun c => World.plainTextSecret.ListFunctions c none) (fun out => out.NextMarker) [[]] ∧
    RegistryReadable World.plainTextSecret [[]] := by
  refine ⟨⟨rfl, ?_, ?_⟩, ?_, ⟨rfl, ?_, ?_⟩, ?_⟩
  · intro i h1 h2
    simp only [List.length_cons, List.length_nil] at h2
    omega
  · intro i h
    simp only [List.length_cons, List.length_nil] at h
    interval_cases i
    exact ⟨_, rfl, rfl⟩
  · intro i _ out _ secret _
    exact ⟨_, rfl⟩
  · intro i h1 h2
    simp only [List.length_cons, List.length_nil] at h2
    omega
  · intro i h
    simp only [List.length_cons, List.length_nil] at h
    interval_cases i
    exact ⟨_, rfl, rfl⟩
  · intro i _ out _ function _
    show ∃ v, (if function.FunctionName = ascii "f1" then _ else _) = Except.ok v
    split <;> exact ⟨_, rfl⟩

theorem pages_twoSecretPages :
    Paged World.twoSecretPages.ListSecrets (fun out => out.NextToken) [[], ascii "s2"] ∧
    VaultReadable World.twoSecretPages [[], ascii "s2"] ∧
    SecretsFlat World.twoSecretPages [[], ascii "s2"] ∧
    Paged (fun c => World.twoSecretPages.ListFunctions c none) (fun out => out.NextMarker) [[]] ∧
    RegistryReadable World.twoSecretPages [[]] := by
  refine ⟨⟨rfl, ?_, ?_⟩, ?_, ?_, ⟨rfl, ?_, ?_⟩, ?_⟩
  · intro i h1 h2
    simp only [List.length_cons, List.length_nil] at h2
    interval_cases i
    decide
  · intro i h
    simp only [List.length_cons, List.length_nil] at h
    interval_cases i
    · exact ⟨_, rfl, rfl⟩
    · exact ⟨_, rfl, rfl⟩
  · intro i _ out _ secret _
    show ∃ v, (if secret.ARN = ascii "arn:db" then _ else _) = Except.ok v
    split <;> exact ⟨_, rfl⟩
  · intro i _ out _ secret _ s _
    show ∃ kvs, (if s = ascii "\x7b\"password\":\"pw123\"\x7d" then _ else _) = Except.ok kvs
    split <;> exact ⟨_, rfl⟩
  · intro i h1 h2
    simp only [List.length_cons, List.length_nil] at h2
    omega
  · intro i h
    simp only [List.length_cons, List.length_nil] at h
    interval_cases i
    exact ⟨_, rfl, rfl⟩
  · intro i _ out _ function _
    exact ⟨_, rfl⟩

/-- C8, as stated, fails, in two ways. (1) In `World.plainTextSecret` the vault and the
registry are sequences of one page each as the claim describes them, no upstream call
fails and the cursors are plain text, yet the first request is answered with status 500
and no `next_token` ever comes back: the one secret holds the plain text `hunter2`, no
JSON, and `getSecretsFromJSONString` fails the page. (2) In `World.invalidCursor` the
vault is a sequence of three pages, every secret is a flat JSON object, every request
succeeds, and no request returns an empty `next_token`: the cursor 0xFF of the third page
is no valid UTF-8 and comes back from the token as U+FFFD, the cursor of the second page,
which is fetched again and again. -/
theorem pagination_need_not_terminate :
    (Paged World.plainTextSecret.ListSecrets (fun out => out.NextToken) [[]] ∧
      VaultReadable World.plainTextSecret [[]] ∧
      Paged (fun c => World.plainTextSecret.ListFunctions c none) (fun out => out.NextMarker)
        [[]] ∧
      RegistryReadable World.plainTextSecret [[]] ∧
      json.checkValid (ascii "hunter2") = false ∧
      (getExposedSecretInEnvHandler World.plainTextSecret [] Machine.init).1.status = 500 ∧
      envPagination World.plainTextSecret 1 = none ∧
      ¬ ∃ k m, 0 < k ∧ envPagination World.plainTextSecret k = some ([], m)) ∧
    (Paged World.invalidCursor.ListSecrets (fun out => out.NextToken)
        [[], [0xEF, 0xBF, 0xBD], [0xFF]] ∧
      VaultReadable World.invalidCursor [[], [0xEF, 0xBF, 0xBD], [0xFF]] ∧
      SecretsFlat World.invalidCursor [[], [0xEF, 0xBF, 0xBD], [0xFF]] ∧
      Paged (fun c => World.invalidCursor.ListFunctions c none) (fun out => out.NextMarker)
        [[]] ∧
      RegistryReadable World.invalidCursor [[]] ∧
      utf8.Valid [0xFF] = false ∧
      (∀ k, ∃ t m, envPagination World.invalidCursor k = some (t, m)) ∧
      ¬ ∃ k m, 0 < k ∧ envPagination World.invalidCursor k = some ([], m)) := by
  have hp := pages_plainTextSecret
  have hi := pages_invalidCursor
  have h1 : envPagination World.plainTextSecret 1 = none := by decide
  refine ⟨⟨hp.1, hp.2.1, hp.2.2.1, hp.2.2.2, by decide, by decide, h1, ?_⟩,
    ⟨hi.1, hi.2.1, hi.2.2.1, hi.2.2.2.1, hi.2.2.2.2, by decide, ?_, ?_⟩⟩
  · rintro ⟨k, m, hk, h⟩
    have hn := envPagination_none World.plainTextSecret 1 h1 (k - 1)
    have e : 1 + (k - 1) = k := by omega
    rw [e, h] at hn
    cases hn
  · intro k
    match k with
    | 0 => exact ⟨_, _, rfl⟩
    | 1 =>
      have h : (envPagination World.invalidCursor 1).isSome = true := by decide
      obtain ⟨p, hp⟩ := Option.isSome_iff_exists.1 h
      exact ⟨p.1, p.2, hp⟩
    | k + 2 =>
      obtain ⟨m, hm⟩ := stuckToken_forever k
      exact ⟨_, _, hm⟩
  · rintro ⟨k, m, hk, h⟩
    match k, hk, h with
    | 1, _, h =>
      have h1 : (envPagination World.invalidCursor 1).map Prod.fst ≠ some [] := by decide
      exact h1 (by rw [h]; rfl)
    | k + 2, _, h =>
      obtain ⟨m1, hm⟩ := stuckToken_forever k
      rw [hm] at h
      have h1 : stuckToken ≠ [] := by decide
      simp only [Option.some.injEq, Prod.mk.injEq] at h
      exact h1 h.1

/-- C8, amended. Pagination termination for text cursors and flat JSON secrets: let the
vault and the function registry each serve a fixed, finite, non-empty sequence of pages
in which no cursor (the empty cursor) selects the first page, every page but the last
returns a non-empty cursor selecting the following page and the last page returns none,
let no upstream call fail, let every cursor be valid UTF-8 and every secret string a flat
JSON object of strings. Then, starting from the empty token and repeatedly calling the
environment scan with the `next_token` returned by the previous call, every call
succeeds and some call returns `next_token == ""`, at the latest the call whose number is
the least common multiple of the two page counts. -/
theorem pagination_terminates (w : World) (sc lc : List GoString)
    (hS : Paged w.ListSecrets (fun out => out.NextToken) sc)
    (hSr : VaultReadable w sc) (hSf : SecretsFlat w sc)
    (hL : Paged (fun c => w.ListFunctions c none) (fun out => out.NextMarker) lc)
    (hLr : RegistryReadable w lc)
    (hvs : ∀ c ∈ sc, utf8.Valid c = true) (hvl : ∀ c ∈ lc, utf8.Valid c = true) :
    (∀ k, ∃ t m, envPagination w k = some (t, m)) ∧
    ∃ k m, 0 < k ∧ k ≤ Nat.lcm sc.length lc.length ∧ envPagination w k = some ([], m) := by
  have hS' := isPaged_getAllSecretValues w sc hS hSr hSf
  have hL' := isPaged_getAllLambdaEnvs w lc hL hLr
  constructor
  · intro k
    obtain ⟨t, m, h, -, -⟩ := envPagination_lockstep w sc lc hS' hL' hvs hvl k
    exact ⟨t, m, h⟩
  · obtain ⟨t, m, h, hc, -⟩ := envPagination_lockstep w sc lc hS' hL' hvs hvl
      (Nat.lcm sc.length lc.length)
    rw [Nat.mod_eq_zero_of_dvd (Nat.dvd_lcm_left _ _),
      Nat.mod_eq_zero_of_dvd (Nat.dvd_lcm_right _ _), hS.getD_zero, hL.getD_zero,
      createNextToken_empty] at hc
    cases hc
    exact ⟨_, m, Nat.lcm_pos hS.length_pos hL.length_pos, le_refl _, h⟩

/-- C8, amended, at a vault of two pages and a registry of one. -/
theorem pagination_terminates_witness :
    (∀ k, ∃ t m, envPagination World.twoSecretPages k = some (t, m)) ∧
    ∃ k m, 0 < k ∧ k ≤ Nat.lcm [[], ascii "s2"].length [([] : GoString)].length ∧
      envPagination World.twoSecretPages k = some ([], m) :=
  pagination_terminates World.twoSecretPages [[], ascii "s2"] [[]]
    pages_twoSecretPages.1 pages_twoSecretPages.2.1 pages_twoSecretPages.2.2.1
    pages_twoSecretPages.2.2.2.1 pages_twoSecretPages.2.2.2.2 (by decide) (by decide)

/-! ## Which pages meet in one request -/

/-- C10, as stated, fails: with a vault of two pages and a registry of one page, the
caller who starts with no token receives a non-empty `next_token` from the first request,
and the second request, sent with it, fetches the second page of secrets (cursor `s2`)
together with the first page of functions (no marker): secret `api` of the second page is
matched against function `f1` of the first page and reported. -/
theorem second_secret_page_meets_first_function_page :
    Paged World.twoSecretPages.ListSecrets (fun out => out.NextToken) [[], ascii "s2"] ∧
    Paged (fun c => World.twoSecretPages.ListFunctions c none) (fun out => out.NextMarker) [[]] ∧
    envPagination World.twoSecretPages 1
      = some (ascii "eyJzZWNyZXRfdG9rZW4iOiJzMiIsImxhbWJkYV90b2tlbiI6IiJ9",
          ⟨[], [.ListSecrets none, .GetSecretValue (ascii "arn:db"), .ListFunctions none none,
            .GetFunctionConfiguration (ascii "f1")]⟩) ∧
    requestCursors (ascii "eyJzZWNyZXRfdG9rZW4iOiJzMiIsImxhbWJkYV90b2tlbiI6IiJ9")
      = .ok ⟨ascii "s2", []⟩ ∧
    getExposedSecretInEnvHandler World.twoSecretPages
        (ascii "eyJzZWNyZXRfdG9rZW4iOiJzMiIsImxhbWJkYV90b2tlbiI6IiJ9")
        ⟨[], [.ListSecrets none, .GetSecretValue (ascii "arn:db"), .ListFunctions none none,
          .GetFunctionConfiguration (ascii "f1")]⟩
      = (⟨200, .ok ⟨[⟨[⟨ascii "api", ascii "arn:api", ⟨ascii "key", ascii "k2"⟩⟩],
            ascii "f1", ascii "arn:f1"⟩], []⟩⟩,
          ⟨[], [.ListSecrets none, .GetSecretValue (ascii "arn:db"), .ListFunctions none none,
            .GetFunctionConfiguration (ascii "f1"),
            .ListSecrets (some (ascii "s2")), .GetSecretValue (ascii "arn:api"),
            .ListFunctions none none, .GetFunctionConfiguration (ascii "f1")]⟩) ∧
    listingCalls
        ⟨[], [.ListSecrets none, .GetSecretValue (ascii "arn:db"), .ListFunctions none none,
          .GetFunctionConfiguration (ascii "f1")]⟩
        (getExposedSecretInEnvHandler World.twoSecretPages
          (ascii "eyJzZWNyZXRfdG9rZW4iOiJzMiIsImxhbWJkYV90b2tlbiI6IiJ9")
          ⟨[], [.ListSecrets none, .GetSecretValue (ascii "arn:db"), .ListFunctions none none,
            .GetFunctionConfiguration (ascii "f1")]⟩).2
      = [.ListSecrets (upstreamCursor [[], ascii "s2"] 1),
          .ListFunctions (upstreamCursor [[]] 0) none] := by
  refine ⟨pages_twoSecretPages.1, pages_twoSecretPages.2.2.2.1, by decide, by decide,
    by decide, by decide⟩

/-- C10, amended. Lockstep of the two cursors: let `ListSecrets` and `ListFunctions` each
serve a fixed finite sequence of pages with text (valid UTF-8) cursors, in which no
cursor selects the first page, each page returns the cursor of the following page and the
last page returns none, with `M` secret pages and `N` function pages. A caller starts
with no token and keeps calling the environment scan with each returned `next_token`.
Every request the caller gets to send, as request number `k + 1`, carries the cursors of
secret page `(k mod M) + 1` and function page `(k mod N) + 1`: it asks `ListSecrets` for
that secret page and then, unless the fetch of the secrets fails, `ListFunctions` for
that function page (both when it is answered with status 200). Hence, when there are at
least two secret pages and `M` and `N` have a common divisor greater than 1 (equal counts,
for one), no request fetches secret page 2 together with function page 1. -/
theorem no_cross_page_in_lockstep (w : World) (sc lc : List GoString)
    (hS : Paged w.ListSecrets (fun out => out.NextToken) sc)
    (hL : Paged (fun c => w.ListFunctions c none) (fun out => out.NextMarker) lc)
    (hvs : ∀ c ∈ sc, utf8.Valid c = true) (hvl : ∀ c ∈ lc, utf8.Valid c = true)
    (h2 : 2 ≤ sc.length) (hg : Nat.gcd sc.length lc.length ≠ 1)
    (k : Nat) (t : GoString) (m : Machine) (hk : envPagination w k = some (t, m)) :
    requestCursors t = .ok ⟨sc.getD (k % sc.length) [], lc.getD (k % lc.length) []⟩ ∧
    (∃ rest, listingCalls m (getExposedSecretInEnvHandler w t m).2
        = .ListSecrets (upstreamCursor sc (k % sc.length)) :: rest ∧
      (rest = [] ∨ rest = [.ListFunctions (upstreamCursor lc (k % lc.length)) none]) ∧
      ((getExposedSecretInEnvHandler w t m).1.status = 200 →
        rest = [.ListFunctions (upstreamCursor lc (k % lc.length)) none])) ∧
    ¬ (k % sc.length = 1 ∧ k % lc.length = 0) ∧
    listingCalls m (getExposedSecretInEnvHandler w t m).2
      ≠ [.ListSecrets (upstreamCursor sc 1), .ListFunctions (upstreamCursor lc 0) none] ∧
    requestCursors t ≠ .ok ⟨sc.getD 1 [], lc.getD 0 []⟩ := by
  obtain ⟨-, hreq⟩ := envPagination_cursors w sc lc hS hL hvs hvl k t m hk
  have hi : k % sc.length < sc.length := Nat.mod_lt _ hS.length_pos
  have hj : k % lc.length < lc.length := Nat.mod_lt _ hL.length_pos
  obtain ⟨hmach, hstat⟩ := handler_eq_scan w t _ m hreq
  obtain ⟨rest, hlist, hrest, hok⟩ := getExposedSecretsInEnv_listing w
    ⟨sc.getD (k % sc.length) [], lc.getD (k % lc.length) []⟩ m
  simp only [hS.input_eq _ hi, hL.input_eq _ hj] at hlist hrest hok
  rw [← hmach] at hlist
  have hno := not_second_with_first sc.length lc.length k hg
  refine ⟨hreq, ⟨rest, hlist, hrest, fun h => hok (hstat h)⟩, hno, ?_, ?_⟩
  · rw [hlist]
    intro he
    simp only [List.cons.injEq, Call.ListSecrets.injEq] at he
    obtain ⟨e1, e2⟩ := he
    have i1 := hS.upstreamCursor_injective _ _ hi (by omega) e1
    rcases hrest with hr | hr
    · rw [hr] at e2
      cases e2
    · rw [hr] at e2
      simp only [List.cons.injEq, Call.ListFunctions.injEq, and_true] at e2
      have j0 := hL.upstreamCursor_injective _ _ hj hL.length_pos e2
      exact hno ⟨i1, j0⟩
  · rw [hreq]
    intro he
    simp only [Except.ok.injEq, NextToken.mk.injEq] at he
    have e1 := hS.injective _ _ hi (by omega) he.1
    have e2 := hL.injective _ _ hj hL.length_pos he.2
    exact hno ⟨e1, e2⟩

theorem pages_twoAndTwoPages :
    Paged World.twoAndTwoPages.ListSecrets (fun out => out.NextToken) [[], ascii "s2"] ∧
    Paged (fun c => World.twoAndTwoPages.ListFunctions c none) (fun out => out.NextMarker)
      [[], ascii "l2"] := by
  refine ⟨⟨rfl, ?_, ?_⟩, ⟨rfl, ?_, ?_⟩⟩
  · intro i h1 h2
    simp only [List.length_cons, List.length_nil] at h2
    interval_cases i
    decide
  · intro i h
    simp only [List.length_cons, List.length_nil] at h
    interval_cases i
    · exact ⟨_, rfl, rfl⟩
    · exact ⟨_, rfl, rfl⟩
  · intro i h1 h2
    simp only [List.length_cons, List.length_nil] at h2
    interval_cases i
    decide
  · intro i h
    simp only [List.length_cons, List.length_nil] at h
    interval_cases i
    · exact ⟨_, rfl, rfl⟩
    · exact ⟨_, rfl, rfl⟩

/-- C10, amended, at two secret pages and two function pages, for the second request:
it is sent with the token of the cursors (`s2`, `l2`) and fetches secret page 2 with
function page 2. -/
theorem no_cross_page_in_lockstep_witness :
    requestCursors (ascii "eyJzZWNyZXRfdG9rZW4iOiJzMiIsImxhbWJkYV90b2tlbiI6ImwyIn0=")
      = .ok ⟨[[], ascii "s2"].getD (1 % [[], ascii "s2"].length) [],
        [[], ascii "l2"].getD (1 % [[], ascii "l2"].length) []⟩ ∧
    (∃ rest, listingCalls
        ⟨[], [.ListSecrets none, .GetSecretValue (ascii "arn:db"), .ListFunctions none none,
          .GetFunctionConfiguration (ascii "f1")]⟩
        (getExposedSecretInEnvHandler World.twoAndTwoPages
          (ascii "eyJzZWNyZXRfdG9rZW4iOiJzMiIsImxhbWJkYV90b2tlbiI6ImwyIn0=")
          ⟨[], [.ListSecrets none, .GetSecretValue (ascii "arn:db"), .ListFunctions none none,
            .GetFunctionConfiguration (ascii "f1")]⟩).2
        = .ListSecrets (upstreamCursor [[], ascii "s2"] (1 % [[], ascii "s2"].length)) :: rest ∧
      (rest = [] ∨ rest = [.ListFunctions
        (upstreamCursor [[], ascii "l2"] (1 % [[], ascii "l2"].length)) none]) ∧
      ((getExposedSecretInEnvHandler World.twoAndTwoPages
          (ascii "eyJzZWNyZXRfdG9rZW4iOiJzMiIsImxhbWJkYV90b2tlbiI6ImwyIn0=")
          ⟨[], [.ListSecrets none, .GetSecretValue (ascii "arn:db"), .ListFunctions none none,
            .GetFunctionConfiguration (ascii "f1")]⟩).1.status = 200 →
        rest = [.ListFunctions
          (upstreamCursor [[], ascii "l2"] (1 % [[], ascii "l2"].length)) none])) ∧
    ¬ (1 % [[], ascii "s2"].length = 1 ∧ 1 % [[], ascii "l2"].length = 0) ∧
    listingCalls
        ⟨[], [.ListSecrets none, .GetSecretValue (ascii "arn:db"), .ListFunctions none none,
          .GetFunctionConfiguration (ascii "f1")]⟩
        (getExposedSecretInEnvHandler World.twoAndTwoPages
          (ascii "eyJzZWNyZXRfdG9rZW4iOiJzMiIsImxhbWJkYV90b2tlbiI6ImwyIn0=")
          ⟨[], [.ListSecrets none, .GetSecretValue (ascii "arn:db"), .ListFunctions none none,
            .GetFunctionConfiguration (ascii "f1")]⟩).2
      ≠ [.ListSecrets (upstreamCursor [[], ascii "s2"] 1),
          .ListFunctions (upstreamCursor [[], ascii "l2"] 0) none] ∧
    requestCursors (ascii "eyJzZWNyZXRfdG9rZW4iOiJzMiIsImxhbWJkYV90b2tlbiI6ImwyIn0=")
      ≠ .ok ⟨[[], ascii "s2"].getD 1 [], [[], ascii "l2"].getD 0 []⟩ :=
  no_cross_page_in_lockstep World.twoAndTwoPages [[], ascii "s2"] [[], ascii "l2"]
    pages_twoAndTwoPages.1 pages_twoAndTwoPages.2 (by decide) (by decide) (by decide)
    (by decide) 1 (ascii "eyJzZWNyZXRfdG9rZW4iOiJzMiIsImxhbWJkYV90b2tlbiI6ImwyIn0=")
    ⟨[], [.ListSecrets none, .GetSecretValue (ascii "arn:db"), .ListFunctions none none,
      .GetFunctionConfiguration (ascii "f1")]⟩ (by decide)

end AwsScanner
